import Mathlib

/-!
Verification of the lazy grid-partition connectivity core (`src/grid.ts`,
`src/util.ts`).  The TypeScript classes are shallowly embedded: mutable
objects become records that operations thread explicitly, JS `number`
coordinates become `Int`, array indices become `Nat`.  Accesses that would
throw in JS (missing `Map` entries dereferenced with `!`) are modelled by an
explicit `crash` result; loops are run on an explicit fuel, with `fuelOut`
signalling exhaustion (the termination theorems show the chosen fuel is
never exhausted on well-formed states).
-/

namespace Formations

/-- `Vec2D` / `Point` from `grid.ts`: a pair of integer coordinates.
The source distinguishes `Point extends Vec2D` only nominally. -/
structure Pt where
  x : Int
  y : Int
deriving DecidableEq, Repr

/-- `Vec2D.add`: component-wise addition. -/
def Pt.add (p o : Pt) : Pt := ⟨p.x + o.x, p.y + o.y⟩

/-- `Rect` from `grid.ts`: a rectangle given by corners `tl` and `br`.
(The iteration in `canOccupy` treats `br` as exclusive.) -/
structure Rect where
  tl : Pt
  br : Pt
deriving DecidableEq, Repr

/-- `Rect.translate`: shift both corners by a vector. -/
def Rect.translate (r : Rect) (o : Pt) : Rect :=
  ⟨⟨r.tl.x + o.x, r.tl.y + o.y⟩, ⟨r.br.x + o.x, r.br.y + o.y⟩⟩

/-- `range` from `util.ts`: `[...Array(end - start).keys()].map(v => start + v)`,
i.e. the list `start, start+1, ..., end-1` (empty when `end ≤ start`;
the JS source throws for `end < start`, which no caller triggers). -/
def intRange (start stop : Int) : List Int :=
  List.map (fun v : Nat => start + (v : Int)) (List.range (stop - start).toNat)

/-- The obstruction grid: `w × h` boolean matrix `blocked[y][x]`. -/
structure Grid where
  w : Int
  h : Int
  blocked : List (List Bool)
deriving DecidableEq, Repr

/-- `new Grid(w, h)`: all cells unblocked. -/
def mkGrid (w h : Int) : Grid :=
  ⟨w, h, List.replicate h.toNat (List.replicate w.toNat false)⟩

/-- Read `blocked[y][x]` (total model of the in-range array access). -/
def Grid.cell (g : Grid) (x y : Int) : Bool :=
  (g.blocked.getD y.toNat []).getD x.toNat false

/-- `Grid.isBlocked`: out-of-range coordinates count as blocked. -/
def Grid.isBlocked (g : Grid) (p : Pt) : Bool :=
  decide (p.x < 0) || decide (p.x ≥ g.w) || decide (p.y < 0) || decide (p.y ≥ g.h)
    || g.cell p.x p.y

/-- `Grid.canOccupy`: no blocked cell for `y ∈ range(tl.y, br.y)`,
`x ∈ range(tl.x, br.x)` (the nested for-loop with early `return false`). -/
def Grid.canOccupy (g : Grid) (r : Rect) : Bool :=
  (intRange r.tl.y r.br.y).all (fun y =>
    (intRange r.tl.x r.br.x).all (fun x => !(g.isBlocked ⟨x, y⟩)))

/-- `Grid.DIRS`: up, right, down, left (clockwise, per the source comment). -/
def DIRS : List Pt := [⟨0, -1⟩, ⟨1, 0⟩, ⟨0, 1⟩, ⟨-1, 0⟩]

/-- `Grid.adjPoints`: the new top-left anchors of the occupiable one-step
translations of `r`; `[]` if `r` itself is not occupiable. -/
def Grid.adjPoints (g : Grid) (r : Rect) : List Pt :=
  if !(g.canOccupy r) then []
  else DIRS.filterMap (fun d =>
    if g.canOccupy (r.translate d) then some (r.tl.add d) else none)

/-- Write `blocked[y][x] = true` (total model: a write out of range is a
no-op, where the JS source would throw; the line-drawing claims only
concern in-range endpoints). -/
def Grid.setCell (g : Grid) (x y : Int) : Grid :=
  { g with blocked :=
      g.blocked.set y.toNat ((g.blocked.getD y.toNat []).set x.toNat true) }

/-- The body of `obstructLine`'s `for (;;)` loop, on explicit fuel.  The
parameters `x2 y2 dx dy sx sy` are fixed for the whole loop; `x1 y1 error`
are the mutable locals. -/
def bresAux (x2 y2 dx dy sx sy : Int) :
    Nat → Int → Int → Int → Grid → Grid
  | 0, _, _, _, g => g
  | n + 1, x1, y1, error, g =>
    let g1 := g.setCell x1 y1
    if x1 = x2 ∧ y1 = y2 then g1
    else
      let e2 := 2 * error
      if e2 ≥ dy then
        if x1 = x2 then g1
        else
          let error1 := error + dy
          let x1' := x1 + sx
          if e2 ≤ dx then
            if y1 = y2 then g1
            else bresAux x2 y2 dx dy sx sy n x1' (y1 + sy) (error1 + dx) g1
          else bresAux x2 y2 dx dy sx sy n x1' y1 error1 g1
      else
        if e2 ≤ dx then
          if y1 = y2 then g1
          else bresAux x2 y2 dx dy sx sy n x1 (y1 + sy) (error + dx) g1
        else
          -- unreachable: `e2 < dy ≤ 0 ≤ dx < e2` is contradictory
          bresAux x2 y2 dx dy sx sy n x1 y1 error g1

/-- `Grid.obstructLine`: Bresenham rasterization from `p1` to `p2`,
marking each visited cell blocked.  Fuel `|Δx| + |Δy| + 1` covers every
iteration (each non-final iteration moves `x1` or `y1` one step toward
the target). -/
def Grid.obstructLine (g : Grid) (p1 p2 : Pt) : Grid :=
  let dx := |p2.x - p1.x|
  let sx : Int := if p1.x < p2.x then 1 else -1
  let dy := -|p2.y - p1.y|
  let sy : Int := if p1.y < p2.y then 1 else -1
  bresAux p2.x p2.y dx dy sx sy ((dx - dy).toNat + 1) p1.x p1.y (dx + dy) g

/-- `p` is inside the grid bounds. -/
def Grid.inRange (g : Grid) (p : Pt) : Prop :=
  0 ≤ p.x ∧ p.x < g.w ∧ 0 ≤ p.y ∧ p.y < g.h

instance (g : Grid) (p : Pt) : Decidable (g.inRange p) := by
  unfold Grid.inRange; infer_instance

/-! ### JS `Map` model

`Map<number, V>` is modelled as an association list.  Only `get`, `set`
and `delete` are used by the source, so iteration order is irrelevant. -/

/-- `Map.get`. -/
def mget {β : Type} (m : List (Nat × β)) (k : Nat) : Option β :=
  (m.find? (fun e => e.1 = k)).map (fun e => e.2)

/-- `Map.set`: replace an existing binding, else append. -/
def mset {β : Type} (m : List (Nat × β)) (k : Nat) (v : β) : List (Nat × β) :=
  if m.any (fun e => e.1 = k) then
    m.map (fun e => if e.1 = k then (k, v) else e)
  else m ++ [(k, v)]

/-- `Map.delete`. -/
def mdel {β : Type} (m : List (Nat × β)) (k : Nat) : List (Nat × β) :=
  m.filter (fun e => ¬(e.1 = k))

/-! ### `UnionFind` from `util.ts` -/

/-- Union-find state: sparse `parents` and `ranks` maps. -/
structure UnionFind where
  parents : List (Nat × Nat)
  ranks : List (Nat × Int)
deriving Repr

/-- `UnionFind.find` with path compression, on explicit fuel (the source
recurses along the parent chain; on well-formed states the chain is
acyclic, so fuel `parents.length` is never exhausted).  Returns the root
together with the compressed parents map. -/
def findAux : Nat → List (Nat × Nat) → Nat → Nat × List (Nat × Nat)
  | 0, m, i => (i, m)
  | fuel + 1, m, i =>
    match mget m i with
    | none => (i, m)
    | some p =>
      let rm := findAux fuel m p
      (rm.1, mset rm.2 i rm.1)

/-- `UnionFind.find`. -/
def UnionFind.find (uf : UnionFind) (i : Nat) : Nat × UnionFind :=
  let rm := findAux uf.parents.length uf.parents i
  (rm.1, { uf with parents := rm.2 })

/-- `UnionFind.union`: union by rank (missing rank counts as `-1`). -/
def UnionFind.union (uf : UnionFind) (i j : Nat) : UnionFind :=
  let ru1 := uf.find i
  let ru2 := ru1.2.find j
  let ip := ru1.1
  let jp := ru2.1
  let uf2 := ru2.2
  if ip = jp then uf2
  else
    let rip := (mget uf2.ranks ip).getD (-1)
    let rjp := (mget uf2.ranks jp).getD (-1)
    if rip > rjp then { uf2 with parents := mset uf2.parents jp ip }
    else { uf2 with parents := mset uf2.parents ip jp,
                    ranks := mset uf2.ranks jp (max rjp (rip + 1)) }

/-! ### `Queue` from `util.ts` -/

/-- FIFO with a trailing cursor `i` instead of removal. -/
structure Queue where
  elems : List Pt
  i : Nat
deriving DecidableEq, Repr

/-- `Queue.empty`. -/
def Queue.isEmpty (q : Queue) : Bool := decide (q.i ≥ q.elems.length)

/-- `Queue.push`. -/
def Queue.push (q : Queue) (e : Pt) : Queue := { q with elems := q.elems ++ [e] }

/-- `Queue.extend`: append the other queue's unconsumed suffix. -/
def Queue.extend (q other : Queue) : Queue :=
  { q with elems := q.elems ++ other.elems.drop other.i }

/-- `Queue.next`: return `elems[i]` and advance the cursor.  Only called
under `!empty()`, so the default is never produced. -/
def Queue.next (q : Queue) : Pt × Queue :=
  (q.elems.getD q.i ⟨0, 0⟩, { q with i := q.i + 1 })

/-- Unconsumed length of a queue. -/
def Queue.remaining (q : Queue) : Nat := q.elems.length - q.i

/-! ### `GridPartition` from `grid.ts` -/

/-- The mutable state of a `GridPartition`: the cell-assignment table,
the fresh-ID counter, the frontier queues keyed by non-canonical part ID,
and the union-find.

The JS table is built as `new Array(grid.h).fill(0).map(() => new
Array(grid.w).fill(0))`: a real `h × w` array of arrays.  A row access
`partIds[p.y]` with `p.y` outside `[0, h)` yields `undefined`, so the
subsequent column access throws a `TypeError` (for reads and writes
alike); a column access `partIds[p.y][p.x]` on a valid row with `p.x`
outside the stored indices yields `undefined` (and a column *write* at
any index succeeds).  The table is therefore modelled as
`Pt → Option Nat`: `none` is JS `undefined`, and the row-bounds throw is
handled by the accessors below. -/
structure PState where
  partIds : Pt → Option Nat
  nextId : Nat
  parts : List (Nat × Queue)
  uf : UnionFind

/-- The constructor's state for a given grid: every in-range cell holds
`0` ("unexplored"), any other index is absent (JS `undefined`). -/
def initState (g : Grid) : PState :=
  { partIds := fun p => if g.inRange p then some 0 else none,
    nextId := 1, parts := [], uf := ⟨[], []⟩ }

/-- Outcome of a modelled operation: a value, fuel exhaustion (never
happens for the fuel the model passes, on well-formed states), or a crash
(a JS `TypeError`: indexing into an `undefined` table row, or calling a
method on the `undefined` produced by `Map.get` on a missing key under a
`!` non-null assertion). -/
inductive Res (α : Type) where
  | ok : α → Res α
  | fuelOut : Res α
  | crash : Res α
deriving Repr

/-- The row of `p` exists in the table of grid `g` (so `partIds[p.y]` is
an array and indexing it does not throw). -/
def rowOk (g : Grid) (p : Pt) : Bool := decide (0 ≤ p.y ∧ p.y < g.h)

/-- The table entry of `p` read as a `Nat` (JS `undefined` coerces to the
unexplored ID `0` nowhere in the source; this value is only used by the
*specification* layer, always under a `≠ 0` or `= 0` guard where it
agrees with the `Option` reading). -/
def idVal (s : PState) (p : Pt) : Nat := (s.partIds p).getD 0

/-- The value `this.uf.find(this.partIds[p.y][p.x])` returns, given that
the row access did not throw: `undefined` passes through `find`
unchanged (`parents.get(undefined)` is `undefined`, so `find` returns
its argument), a stored number is resolved to its root. -/
def cVal (s : PState) (p : Pt) : Option Nat :=
  (s.partIds p).map (fun v => (s.uf.find v).1)

/-- The state after that same call: `find` on a stored number compresses
paths; `find(undefined)` returns before any `parents.set`. -/
def cState (s : PState) (p : Pt) : PState :=
  { s with uf := ((s.partIds p).map (fun v => (s.uf.find v).2)).getD s.uf }

/-- `GridPartition.canonId`: `this.uf.find(this.partIds[p.y][p.x])`.
Reading `this.partIds[p.y]` throws when the row is out of range. -/
def canonId (g : Grid) (s : PState) (p : Pt) : Res (Option Nat × PState) :=
  if rowOk g p = true then .ok (cVal s p, cState s p) else .crash

/-- `this.partIds[cur.y][cur.x] = v`: throws when the row is out of
range; a column write at any index succeeds. -/
def writeId (g : Grid) (s : PState) (p : Pt) (v : Nat) : Res PState :=
  if rowOk g p = true then
    .ok { s with partIds := fun q => if q = p then some v else s.partIds q }
  else .crash

/-- The body of `flood`'s neighbour loop: push each listed point unless
its canonical ID is already the active one (an `undefined` canonical ID
compares `!==` to the number `aId`, so such points are pushed). -/
def pushLoop (g : Grid) (aId : Nat) : List Pt → Queue × PState → Res (Queue × PState)
  | [], qs => .ok qs
  | p :: l, qs =>
    match canonId g qs.2 p with
    | .ok vs =>
      pushLoop g aId l (if vs.1 = some aId then (qs.1, vs.2) else (qs.1.push p, vs.2))
    | .fuelOut => .fuelOut
    | .crash => .crash

/-- The neighbour-queueing loop of `flood`: for each `p` of
`adjPoints(cursor.translate(cur))`, push `p` unless its canonical ID is
already the active one. -/
def pushNeighbors (g : Grid) (cursor : Rect) (cur : Pt) (aId : Nat)
    (q : Queue) (s : PState) : Res (Queue × PState) :=
  pushLoop g aId (g.adjPoints (cursor.translate cur)) (q, s)

/-- One-iteration preprocessing of `flood`'s merge branch.  The JS guard
is `curId !== 0 && curId !== aId` with `curId !== aId` established by the
caller: an `undefined` `curId` passes the guard and the branch then
calls `.extend` on `this.parts.get(undefined)!`, i.e. on `undefined` — a
crash.  For a number `curId`: `0` skips the branch; otherwise the active
queue absorbs that part's frontier, both registry entries are deleted,
the two IDs are unioned and the active ID is re-resolved through
`canonId(a)`.  (The source also re-inserts the registry entry of the new
active ID; the model keeps the active queue outside the registry for the
duration of the loop, which is observationally the same since the source
aliases the stored queue and the local `part`.)  If the re-resolved
active ID were `undefined` the subsequent iterations would thread
`undefined` through every registry access; this cannot happen once the
anchor's cell holds a number (which the loop establishes on its first
iteration before any merge), and the model conservatively treats it as a
crash. -/
def mergeStep (g : Grid) (s : PState) (a : Pt) (aId : Nat) (curId : Option Nat)
    (q : Queue) : Res (Nat × Queue × PState) :=
  match curId with
  | none => .crash
  | some c =>
    if c = 0 then .ok (aId, q, s)
    else
      match mget s.parts c with
      | none => .crash
      | some qc =>
        let q2 := q.extend qc
        let s2 := { s with parts := mdel s.parts c }
        let s3 := { s2 with uf := s2.uf.union aId c }
        match canonId g s3 a with
        | .ok vs =>
          match vs.1 with
          | some w => .ok (w, q2, vs.2)
          | none => .crash
        | .fuelOut => .fuelOut
        | .crash => .crash

/-- The `while (!part.empty())` loop of `flood`, on explicit fuel.
The active part's queue `q` is carried outside `parts` and written back
on exit (see `mergeStep`). -/
def floodLoop (g : Grid) (cursor : Rect) (a b : Pt) :
    Nat → Nat → Queue → PState → Res PState
  | 0, _, _, _ => .fuelOut
  | fuel + 1, aId, q, s =>
    if q.isEmpty then .ok { s with parts := mset s.parts aId q }
    else
      let cq := q.next
      let cur := cq.1
      match canonId g s cur with
      | .ok cs =>
        if cs.1 = some aId then floodLoop g cursor a b fuel aId cq.2 cs.2
        else
          match mergeStep g cs.2 a aId cs.1 cq.2 with
          | .ok aqs =>
            let aId' := aqs.1
            match writeId g aqs.2.2 cur aId' with
            | .ok s2 =>
              match pushNeighbors g cursor cur aId' aqs.2.1 s2 with
              | .ok qs =>
                match canonId g qs.2 a with
                | .ok ra =>
                  match canonId g ra.2 b with
                  | .ok rb =>
                    if ra.1 = rb.1 then
                      .ok { rb.2 with parts := mset rb.2.parts aId' qs.1 }
                    else floodLoop g cursor a b fuel aId' qs.1 rb.2
                  | .fuelOut => .fuelOut
                  | .crash => .crash
                | .fuelOut => .fuelOut
                | .crash => .crash
              | .fuelOut => .fuelOut
              | .crash => .crash
            | .fuelOut => .fuelOut
            | .crash => .crash
          | .fuelOut => .fuelOut
          | .crash => .crash
      | .fuelOut => .fuelOut
      | .crash => .crash

/-- Total unconsumed length over all registered frontiers. -/
def totalRemaining (parts : List (Nat × Queue)) : Nat :=
  (parts.map (fun e => e.2.remaining)).sum

/-- Fuel passed to `floodLoop`: comfortably above the measure
`remaining + 5·|candidate points|` that the termination proof shows
strictly decreases per iteration. -/
def floodFuel (g : Grid) (s : PState) : Nat :=
  totalRemaining s.parts + 10 * (g.w.toNat * g.h.toNat) + 12

/-- `GridPartition.flood`: create a fresh singleton part at `a` if `a` is
unexplored, then run the frontier loop.  When `canonId(a)` is
`undefined` the JS `else` branch binds `part` to
`this.parts.get(undefined)` (i.e. `undefined`) and the loop condition
`!part.empty()` throws. -/
def flood (g : Grid) (cursor : Rect) (s : PState) (a b : Pt) : Res PState :=
  match canonId g s a with
  | .ok rs =>
    match rs.1 with
    | none => .crash
    | some aId0 =>
      if aId0 = 0 then
        let s2 := { rs.2 with nextId := rs.2.nextId + 1 }
        floodLoop g cursor a b (floodFuel g s2) rs.2.nextId ⟨[a], 0⟩ s2
      else
        match mget rs.2.parts aId0 with
        | none => .crash
        | some q => floodLoop g cursor a b (floodFuel g rs.2) aId0 q
            { rs.2 with parts := mdel rs.2.parts aId0 }
  | .fuelOut => .fuelOut
  | .crash => .crash

/-- One arm `id !== 0 && this.parts.get(id)!.empty()` of the finality
test: on the number `0` the short-circuit skips the dereference; on any
other number the registry is dereferenced under the `!` non-null
assertion (a crash if the key is absent); on `undefined` the first
comparison is *true* (`undefined !== 0`) and `.empty()` is called on the
`undefined` that `Map.get(undefined)` returns — a crash. -/
def finalCheck (s : PState) : Option Nat → Res Bool
  | none => .crash
  | some k =>
    if k = 0 then .ok false
    else
      match mget s.parts k with
      | none => .crash
      | some qq => .ok qq.isEmpty

/-- `GridPartition.inSamePart`.  The shortcut `aId !== 0 && aId === bId`
is read over `number | undefined`: `undefined !== 0` is true and
`undefined === undefined` is true, hence the `aId ≠ some 0 ∧ aId = bId`
test on the `Option` values. -/
def inSamePart (g : Grid) (cursor : Rect) (s : PState) (a b : Pt) :
    Res (Bool × PState) :=
  if !(g.canOccupy (cursor.translate a)) || !(g.canOccupy (cursor.translate b)) then
    .ok (false, s)
  else
    match canonId g s a with
    | .ok ra =>
      match canonId g ra.2 b with
      | .ok rb =>
        if ra.1 ≠ some 0 ∧ ra.1 = rb.1 then .ok (true, rb.2)
        else
          match finalCheck rb.2 ra.1 with
          | .ok finalA =>
            if finalA then .ok (false, rb.2)
            else
              match finalCheck rb.2 rb.1 with
              | .ok finalB =>
                if finalB then .ok (false, rb.2)
                else
                  match flood g cursor rb.2 a b with
                  | .ok s3 =>
                    match canonId g s3 a with
                    | .ok ra2 =>
                      match canonId g ra2.2 b with
                      | .ok rb2 => .ok (decide (ra2.1 = rb2.1), rb2.2)
                      | .fuelOut => .fuelOut
                      | .crash => .crash
                    | .fuelOut => .fuelOut
                    | .crash => .crash
                  | .fuelOut => .fuelOut
                  | .crash => .crash
              | .fuelOut => .fuelOut
              | .crash => .crash
          | .fuelOut => .fuelOut
          | .crash => .crash
      | .fuelOut => .fuelOut
      | .crash => .crash
    | .fuelOut => .fuelOut
    | .crash => .crash

/-- The boolean answer of a query, if it completed. -/
def ansOf {α : Type} : Res (Bool × α) → Option Bool
  | .ok ba => some ba.1
  | _ => none

/-- The post-state of a completed operation. -/
def stOf {α β : Type} : Res (α × β) → Option β
  | .ok ba => some ba.2
  | _ => none

/-! ### Auxiliary definitions used by the theorems -/

/-- Mark the `n + 1` cells `(x, y), (x+1, y), …, (x+n, y)`; the reference
run of the horizontal Bresenham loop. -/
def markH (g : Grid) (y : Int) : Int → Nat → Grid
  | x, 0 => g.setCell x y
  | x, n + 1 => markH (g.setCell x y) y (x + 1) n

/-- Mark the `n + 1` cells `(x, y), (x-1, y), …, (x-n, y)`. -/
def markHD (g : Grid) (y : Int) : Int → Nat → Grid
  | x, 0 => g.setCell x y
  | x, n + 1 => markHD (g.setCell x y) y (x - 1) n

/-- Mark the `n + 1` cells `(x, y), (x, y+1), …, (x, y+n)`. -/
def markV (g : Grid) (x : Int) : Int → Nat → Grid
  | y, 0 => g.setCell x y
  | y, n + 1 => markV (g.setCell x y) x (y + 1) n

/-- Mark the `n + 1` cells `(x, y), (x, y-1), …, (x, y-n)`. -/
def markVD (g : Grid) (x : Int) : Int → Nat → Grid
  | y, 0 => g.setCell x y
  | y, n + 1 => markVD (g.setCell x y) x (y - 1) n

/-- The 5×4 grid of the "can detect available steps" test scenario. -/
def testGrid54 : Grid :=
  ((((mkGrid 5 4).obstructLine ⟨1, 0⟩ ⟨1, 0⟩).obstructLine ⟨0, 1⟩ ⟨0, 1⟩).obstructLine
      ⟨2, 1⟩ ⟨2, 1⟩).obstructLine ⟨3, 3⟩ ⟨3, 3⟩

/-! ### Specification-side union-find notions -/

/-- Compression-free fueled root computation; used only in proofs. -/
def findD : Nat → List (Nat × Nat) → Nat → Nat
  | 0, _, i => i
  | fuel + 1, m, i =>
    match mget m i with
    | none => i
    | some p => findD fuel m p

/-- The parent chain from `i` reaches a root within `fuel` steps. -/
def rootedB : Nat → List (Nat × Nat) → Nat → Bool
  | 0, m, i => (mget m i).isNone
  | fuel + 1, m, i =>
    match mget m i with
    | none => true
    | some p => rootedB fuel m p

/-- The parent chain from `i` ends at the root `r`. -/
inductive RootsTo (m : List (Nat × Nat)) : Nat → Nat → Prop where
  | root (i : Nat) : mget m i = none → RootsTo m i i
  | step (i p r : Nat) : mget m i = some p → RootsTo m p r → RootsTo m i r

/-- Acyclic union-find whose chains fit in `parents.length` steps and
mention only nonzero IDs below `N`. -/
structure UFInv (N : Nat) (uf : UnionFind) : Prop where
  bounded : ∀ i, rootedB uf.parents.length uf.parents i = true
  nz : ∀ e ∈ uf.parents, e.1 ≠ 0 ∧ e.2 ≠ 0
  lt : ∀ e ∈ uf.parents, e.1 < N ∧ e.2 < N

/-- The canonical part ID of a point, as a value (the algorithm computes
it through `canonId`, which also compresses; for an absent entry this
reads `0`, which the invariant layer only ever uses under guards where
the two readings agree). -/
def canonVal (s : PState) (p : Pt) : Nat := (s.uf.find (idVal s p)).1

def keysOf {β : Type} (m : List (Nat × β)) : List Nat := m.map (fun e => e.1)

/-- All points of the rectangle `xs × ys`. -/
def prodPts (xs ys : List Int) : List Pt :=
  xs.flatMap (fun x => ys.map (fun y => ⟨x, y⟩))

/-- All in-grid points (the cells of the `h × w` table). -/
def gridList (g : Grid) : List Pt :=
  prodPts (intRange 0 g.w) (intRange 0 g.h)

/-- The footprint anchored at `p` is fully occupiable. -/
def occAt (g : Grid) (cursor : Rect) (p : Pt) : Bool :=
  g.canOccupy (cursor.translate p)

/-- The footprint covers at least one cell — the spec's `Rect` data-model
invariant (`topLeft ≤ bottomRight`, a nonempty footprint) read through the
code's half-open iteration bounds. -/
def CursorOk (cursor : Rect) : Prop :=
  cursor.tl.x < cursor.br.x ∧ cursor.tl.y < cursor.br.y

/-- Number of in-grid points not yet in the active class. -/
def countNA (g : Grid) (s : PState) (aId : Nat) : Nat :=
  ((gridList g).filter (fun p => !(decide (canonVal s p = aId)))).length

/-- A measure that strictly decreases at every `floodLoop` iteration. -/
def measureM (g : Grid) (aId : Nat) (q : Queue) (s : PState) : Nat :=
  q.remaining + totalRemaining s.parts + 5 * countNA g s aId

/-- Monotone evolution of the cell-assignment table: nonzero entries are
never reset, their canonical IDs stay nonzero, and classes only merge. -/
def ClassMono (s s' : PState) : Prop :=
  (∀ p : Pt, idVal s' p = 0 → idVal s p = 0) ∧
  (∀ p : Pt, idVal s p ≠ 0 → canonVal s' p ≠ 0) ∧
  (∀ p q : Pt, idVal s p ≠ 0 → idVal s q ≠ 0 →
    canonVal s p = canonVal s q → canonVal s' p = canonVal s' q)

/-- A single map on canonical IDs explains the evolution of every cell's
canonical ID across an operation (so classes can only merge, never split). -/
def CanonMap (s t : PState) : Prop :=
  (∀ p : Pt, idVal t p = 0 → idVal s p = 0) ∧
  ∃ f : Nat → Nat, (∀ x, x ≠ 0 → f x ≠ 0) ∧
    (∀ p : Pt, idVal s p ≠ 0 → canonVal t p = f (canonVal s p))

/-- Well-formedness of a reachable partition state.  `dom` pins the
table's shape: exactly the in-grid cells hold an entry (the constructor
builds the full `h × w` table of zeros, and the loop only ever writes to
cells that already hold an entry — a popped point with an absent entry
crashes in `mergeStep` before the write). -/
structure Inv (g : Grid) (cursor : Rect) (s : PState) : Prop where
  uf : UFInv s.nextId s.uf
  next_pos : 1 ≤ s.nextId
  ids_lt : ∀ p : Pt, idVal s p < s.nextId
  dom : ∀ p : Pt, (s.partIds p).isSome = true ↔ g.inRange p
  parts_nodup : (keysOf s.parts).Nodup
  parts_keys : ∀ e ∈ s.parts, mget s.uf.parents e.1 = none ∧ e.1 ≠ 0 ∧ e.1 < s.nextId
  reg : ∀ p : Pt, idVal s p ≠ 0 → ∃ q, mget s.parts (canonVal s p) = some q

/-- All registered frontier points are in-grid; this holds of reachable
states of partitions whose footprint is nonempty, and feeds both the
termination measure and crash-freedom (it is kept separate from `Inv`
because a degenerate, empty footprint — which the spec's `Rect`
invariant rules out — admits out-of-grid frontier points). -/
def Boxed (g : Grid) (s : PState) : Prop :=
  ∀ e ∈ s.parts, ∀ x ∈ e.2.elems, g.inRange x

/-- The invariant carried around `floodLoop`'s body: like `Inv`, but the
active part `aId` and its queue `q` are held outside the registry. -/
structure LoopInv (g : Grid) (cursor : Rect) (a : Pt) (aId : Nat) (q : Queue)
    (s : PState) : Prop where
  uf : UFInv s.nextId s.uf
  next_pos : 1 ≤ s.nextId
  ids_lt : ∀ p : Pt, idVal s p < s.nextId
  dom : ∀ p : Pt, (s.partIds p).isSome = true ↔ g.inRange p
  parts_nodup : (keysOf s.parts).Nodup
  parts_keys : ∀ e ∈ s.parts, mget s.uf.parents e.1 = none ∧ e.1 ≠ 0 ∧ e.1 < s.nextId
  notin : mget s.parts aId = none
  aId_nz : aId ≠ 0
  aId_root : mget s.uf.parents aId = none
  aId_lt : aId < s.nextId
  anchor : (idVal s a ≠ 0 ∧ canonVal s a = aId) ∨
    (s.partIds a = some 0 ∧ q = ⟨[a], 0⟩)
  reg : ∀ p : Pt, idVal s p ≠ 0 →
    canonVal s p = aId ∨ ∃ qq, mget s.parts (canonVal s p) = some qq

/-- A 2×1 grid whose right cell is obstructed (witness scenarios). -/
def wGrid : Grid := (mkGrid 2 1).obstructLine ⟨1, 0⟩ ⟨1, 0⟩

/-- The 1×1 footprint used by the witness scenarios. -/
def wCursor : Rect := ⟨⟨0, 0⟩, ⟨1, 1⟩⟩

/-- A reachable-looking state of `wGrid`'s partition, with the single
part `1` fully explored (final): only cell `(0,0)` is occupiable. -/
def wState : PState :=
  { partIds := fun p => if p = ⟨0, 0⟩ then some 1 else (initState wGrid).partIds p
    nextId := 2
    parts := [(1, ⟨[⟨0, 0⟩], 1⟩)]
    uf := ⟨[], []⟩ }

/-- A 1-wide, 2-tall empty grid (counterexample scenarios). -/
def w2Grid : Grid := mkGrid 1 2

/-- The 1×1 footprint rect `(0,1)-(1,2)` whose top-left is not the
origin (counterexample scenarios). -/
def w2Cursor : Rect := ⟨⟨0, 1⟩, ⟨1, 2⟩⟩

/-- A reachable-looking state of the `w2Grid` partition with the single
part `1` fully explored (final) at cell `(0,0)`. -/
def w2State : PState :=
  { partIds := fun p => if p = ⟨0, 0⟩ then some 1 else (initState w2Grid).partIds p
    nextId := 2
    parts := [(1, ⟨[⟨0, 0⟩], 1⟩)]
    uf := ⟨[], []⟩ }

end Formations

namespace Formations

/-! ### Lemmas about `range`, `isBlocked`, `canOccupy` -/

theorem mem_intRange {s e a : Int} : a ∈ intRange s e ↔ s ≤ a ∧ a < e := by
  unfold intRange
  simp only [List.mem_map, List.mem_range]
  constructor
  · rintro ⟨v, hv, rfl⟩
    omega
  · rintro ⟨h1, h2⟩
    exact ⟨(a - s).toNat, by omega, by omega⟩

theorem isBlocked_eq_false {g : Grid} {p : Pt} :
    g.isBlocked p = false ↔
      0 ≤ p.x ∧ p.x < g.w ∧ 0 ≤ p.y ∧ p.y < g.h ∧ g.cell p.x p.y = false := by
  unfold Grid.isBlocked
  simp only [Bool.or_eq_false_iff, decide_eq_false_iff_not, not_lt, ge_iff_le, not_le]
  constructor
  · rintro ⟨⟨⟨⟨h1, h2⟩, h3⟩, h4⟩, h5⟩
    exact ⟨h1, h2, h3, h4, h5⟩
  · rintro ⟨h1, h2, h3, h4, h5⟩
    exact ⟨⟨⟨⟨h1, h2⟩, h3⟩, h4⟩, h5⟩

theorem canOccupy_eq_true_iff {g : Grid} {r : Rect} :
    g.canOccupy r = true ↔
      ∀ x y : Int, r.tl.x ≤ x → x < r.br.x → r.tl.y ≤ y → y < r.br.y →
        g.isBlocked ⟨x, y⟩ = false := by
  unfold Grid.canOccupy
  simp only [List.all_eq_true, Bool.not_eq_true']
  constructor
  · intro h x y h1 h2 h3 h4
    exact h y (mem_intRange.2 ⟨h3, h4⟩) x (mem_intRange.2 ⟨h1, h2⟩)
  · intro h y hy x hx
    exact h x y (mem_intRange.1 hx).1 (mem_intRange.1 hx).2
      (mem_intRange.1 hy).1 (mem_intRange.1 hy).2

/-! ### C5 -/

/-- C5 (counterexample to the claim as stated): on an unobstructed 1×1
grid, `canOccupy` of the rect `(0,0)-(1,1)` is true although the cell
`(1,1)` — inside the *inclusive* bounds — is out of range.  So "true iff
every cell within the inclusive bounds is in-range and unblocked" fails:
the loop bounds exclude `bottomRight`. -/
theorem canOccupy_inclusive_counterexample :
    ((mkGrid 1 1).canOccupy ⟨⟨0, 0⟩, ⟨1, 1⟩⟩ = true ∧
      (0 : Int) ≤ 1 ∧ (0 : Int) ≤ 1) ∧
    ¬(∀ x y : Int, 0 ≤ x → x ≤ 1 → 0 ≤ y → y ≤ 1 →
        0 ≤ x ∧ x < (mkGrid 1 1).w ∧ 0 ≤ y ∧ y < (mkGrid 1 1).h ∧
          (mkGrid 1 1).cell x y = false) := by
  refine ⟨by decide, fun h => ?_⟩
  have h1 := (h 1 1 (by norm_num) (by norm_num) (by norm_num) (by norm_num)).2.1
  have : (mkGrid 1 1).w = 1 := rfl
  omega

/-- C5 (amended): for every rect with `topLeft ≤ bottomRight`,
`canOccupy` returns true iff every cell within the *half-open* bounds
(`topLeft` included, `bottomRight` excluded) is in-range and unblocked;
out-of-range coordinates make the result false rather than raising. -/
theorem canOccupy_halfOpen_char (g : Grid) (r : Rect)
    (_hx : r.tl.x ≤ r.br.x) (_hy : r.tl.y ≤ r.br.y) :
    g.canOccupy r = true ↔
      ∀ x y : Int, r.tl.x ≤ x → x < r.br.x → r.tl.y ≤ y → y < r.br.y →
        0 ≤ x ∧ x < g.w ∧ 0 ≤ y ∧ y < g.h ∧ g.cell x y = false := by
  rw [canOccupy_eq_true_iff]
  constructor
  · intro h x y h1 h2 h3 h4
    exact isBlocked_eq_false.1 (h x y h1 h2 h3 h4)
  · intro h x y h1 h2 h3 h4
    exact isBlocked_eq_false.2 (h x y h1 h2 h3 h4)

/-- Witness for `canOccupy_halfOpen_char` at the 4×4 collision-test grid
and the rect `(0,0)-(2,1)` (which overlaps the obstruction at `(1,0)`). -/
theorem canOccupy_halfOpen_char_witness :
    ((0 : Int) ≤ 2 ∧ (0 : Int) ≤ 1) ∧
      (((mkGrid 4 4).obstructLine ⟨1, 0⟩ ⟨1, 1⟩).canOccupy ⟨⟨0, 0⟩, ⟨2, 1⟩⟩ = true ↔
        ∀ x y : Int, 0 ≤ x → x < 2 → 0 ≤ y → y < 1 →
          0 ≤ x ∧ x < ((mkGrid 4 4).obstructLine ⟨1, 0⟩ ⟨1, 1⟩).w ∧
          0 ≤ y ∧ y < ((mkGrid 4 4).obstructLine ⟨1, 0⟩ ⟨1, 1⟩).h ∧
          ((mkGrid 4 4).obstructLine ⟨1, 0⟩ ⟨1, 1⟩).cell x y = false) :=
  ⟨⟨by norm_num, by norm_num⟩,
    canOccupy_halfOpen_char ((mkGrid 4 4).obstructLine ⟨1, 0⟩ ⟨1, 1⟩)
      ⟨⟨0, 0⟩, ⟨2, 1⟩⟩ (by norm_num) (by norm_num)⟩

/-! ### C6 -/

/-- C6: `adjPoints` returns `[]` when the rect is not occupiable, and
otherwise exactly the new top-left anchors of the occupiable one-step
translations, in the fixed order up `(0,-1)`, right `(1,0)`, down `(0,1)`,
left `(-1,0)`; and the three 5×4-scenario values from the spec. -/
theorem adjPoints_characterization :
    (∀ (g : Grid) (r : Rect), g.canOccupy r = false → g.adjPoints r = []) ∧
    (∀ (g : Grid) (r : Rect), g.canOccupy r = true →
      g.adjPoints r =
        (([⟨0, -1⟩, ⟨1, 0⟩, ⟨0, 1⟩, ⟨-1, 0⟩] : List Pt).filter
            (fun d => g.canOccupy (r.translate d))).map (fun d => r.tl.add d)) ∧
    testGrid54.adjPoints ⟨⟨0, 0⟩, ⟨1, 1⟩⟩ = [] ∧
    testGrid54.adjPoints ⟨⟨1, 1⟩, ⟨2, 2⟩⟩ = [⟨1, 2⟩] ∧
    testGrid54.adjPoints ⟨⟨4, 3⟩, ⟨5, 4⟩⟩ = [⟨4, 2⟩] := by
  refine ⟨?_, ?_, by decide, by decide, by decide⟩
  · intro g r h
    simp [Grid.adjPoints, h]
  · intro g r h
    simp only [Grid.adjPoints, h, Bool.not_true, Bool.false_eq_true, if_false, DIRS]
    cases h0 : g.canOccupy (r.translate ⟨0, -1⟩) <;>
      cases h1 : g.canOccupy (r.translate ⟨1, 0⟩) <;>
        cases h2 : g.canOccupy (r.translate ⟨0, 1⟩) <;>
          cases h3 : g.canOccupy (r.translate ⟨-1, 0⟩) <;>
            simp [List.filterMap, List.filter, h0, h1, h2, h3]

/-- Witness for `adjPoints_characterization` (its universally quantified
conjuncts have hypotheses): instantiated at the 5×4 scenario grid. -/
theorem adjPoints_characterization_witness :
    (testGrid54.canOccupy ⟨⟨0, 0⟩, ⟨1, 1⟩⟩ = true) ∧
      testGrid54.adjPoints ⟨⟨0, 0⟩, ⟨1, 1⟩⟩ =
        (([⟨0, -1⟩, ⟨1, 0⟩, ⟨0, 1⟩, ⟨-1, 0⟩] : List Pt).filter
            (fun d => testGrid54.canOccupy ((⟨⟨0, 0⟩, ⟨1, 1⟩⟩ : Rect).translate d))).map
          (fun d => (⟨0, 0⟩ : Pt).add d) :=
  ⟨by decide, adjPoints_characterization.2.1 testGrid54 ⟨⟨0, 0⟩, ⟨1, 1⟩⟩ (by decide)⟩

/-! ### C7: Bresenham line symmetry -/

theorem getD_set_ne {α : Type} (l : List α) {i j : Nat} (h : i ≠ j) (a d : α) :
    (l.set i a).getD j d = l.getD j d := by
  simp [List.getD_eq_getElem?_getD, List.getElem?_set_ne h]

theorem getD_set_self {α : Type} (l : List α) {i : Nat} (h : i < l.length) (a d : α) :
    (l.set i a).getD i d = a := by
  simp [List.getD_eq_getElem?_getD, List.getElem?_set_self', h]

/-- `setCell` is a no-op on a row index past the stored matrix. -/
theorem setCell_oob (g : Grid) (x y : Int) (h : g.blocked.length ≤ y.toNat) :
    g.setCell x y = g := by
  obtain ⟨w, hgt, b⟩ := g
  simp [Grid.setCell, List.set_eq_of_length_le h]

/-- Two `setCell`s commute (marking is idempotent and order-free). -/
theorem setCell_comm (g : Grid) (x1 y1 x2 y2 : Int) :
    (g.setCell x1 y1).setCell x2 y2 = (g.setCell x2 y2).setCell x1 y1 := by
  by_cases h1 : g.blocked.length ≤ y1.toNat
  · have h1' : ((g.setCell x2 y2).blocked).length ≤ y1.toNat := by
      simpa [Grid.setCell, List.length_set] using h1
    rw [setCell_oob g x1 y1 h1, setCell_oob _ x1 y1 h1']
  · by_cases h2 : g.blocked.length ≤ y2.toNat
    · have h2' : ((g.setCell x1 y1).blocked).length ≤ y2.toNat := by
        simpa [Grid.setCell, List.length_set] using h2
      rw [setCell_oob g x2 y2 h2, setCell_oob _ x2 y2 h2']
    · push_neg at h1 h2
      by_cases hy : y1.toNat = y2.toNat
      · obtain ⟨w, hgt, b⟩ := g
        simp only [Grid.setCell] at *
        rw [← hy] at h2 ⊢
        simp only [Grid.mk.injEq, true_and]
        rw [getD_set_self _ (by simpa using h1),
          getD_set_self _ (by simpa using h2), List.set_set, List.set_set]
        by_cases hx : x1.toNat = x2.toNat
        · rw [← hx]
        · rw [List.set_comm _ _ _ hx]
      · obtain ⟨w, hgt, b⟩ := g
        simp only [Grid.setCell, Grid.mk.injEq, true_and]
        rw [getD_set_ne _ hy, getD_set_ne _ (Ne.symm hy), List.set_comm _ _ _ hy]

/-- `setCell` commutes past a horizontal run. -/
theorem markH_setCell (y z w : Int) :
    ∀ (n : Nat) (g : Grid) (x : Int),
      markH (g.setCell z w) y x n = (markH g y x n).setCell z w := by
  intro n
  induction n with
  | zero => intro g x; simp only [markH]; exact setCell_comm g z w x y
  | succ j ih =>
    intro g x
    simp only [markH]
    rw [setCell_comm g z w x y, ih]

theorem markH_last (y : Int) :
    ∀ (n : Nat) (g : Grid) (x : Int),
      markH g y x (n + 1) = (markH g y x n).setCell (x + (n : Int) + 1) y := by
  intro n
  induction n with
  | zero => intro g x; simp only [markH]; norm_num
  | succ j ih =>
    intro g x
    rw [show markH g y x (j + 1 + 1) = markH (g.setCell x y) y (x + 1) (j + 1) from rfl,
      ih (g.setCell x y) (x + 1),
      show markH g y x (j + 1) = markH (g.setCell x y) y (x + 1) j from rfl]
    congr 1
    push_cast
    ring

/-- A descending run marks the same cells as the ascending run over the
same interval. -/
theorem markHD_eq_markH (y : Int) :
    ∀ (n : Nat) (g : Grid) (x : Int),
      markHD g y (x + (n : Int)) n = markH g y x n := by
  intro n
  induction n with
  | zero => intro g x; simp only [markHD, markH]; norm_num
  | succ j ih =>
    intro g x
    simp only [markHD]
    push_cast
    rw [show x + ((j : Int) + 1) - 1 = x + (j : Int) by ring,
      show x + ((j : Int) + 1) = x + (j : Int) + 1 by ring,
      ih, markH_setCell, markH_last]

/-- `setCell` commutes past a vertical run. -/
theorem markV_setCell (x z w : Int) :
    ∀ (n : Nat) (g : Grid) (y : Int),
      markV (g.setCell z w) x y n = (markV g x y n).setCell z w := by
  intro n
  induction n with
  | zero => intro g y; simp only [markV]; exact setCell_comm g z w x y
  | succ j ih =>
    intro g y
    simp only [markV]
    rw [setCell_comm g z w x y, ih]

theorem markV_last (x : Int) :
    ∀ (n : Nat) (g : Grid) (y : Int),
      markV g x y (n + 1) = (markV g x y n).setCell x (y + (n : Int) + 1) := by
  intro n
  induction n with
  | zero => intro g y; simp only [markV]; norm_num
  | succ j ih =>
    intro g y
    rw [show markV g x y (j + 1 + 1) = markV (g.setCell x y) x (y + 1) (j + 1) from rfl,
      ih (g.setCell x y) (y + 1),
      show markV g x y (j + 1) = markV (g.setCell x y) x (y + 1) j from rfl]
    congr 1
    push_cast
    ring

theorem markVD_eq_markV (x : Int) :
    ∀ (n : Nat) (g : Grid) (y : Int),
      markVD g x (y + (n : Int)) n = markV g x y n := by
  intro n
  induction n with
  | zero => intro g y; simp only [markVD, markV]; norm_num
  | succ j ih =>
    intro g y
    simp only [markVD]
    push_cast
    rw [show y + ((j : Int) + 1) - 1 = y + (j : Int) by ring,
      show y + ((j : Int) + 1) = y + (j : Int) + 1 by ring,
      ih, markV_setCell, markV_last]

/-- Horizontal Bresenham, left to right, equals the ascending run. -/
theorem bresAux_horiz_asc (y n sy : Int) (hn : 0 < n) :
    ∀ (k fuel : Nat), k < fuel → ∀ (g : Grid) (x1 : Int),
      bresAux (x1 + (k : Int)) y n 0 1 sy fuel x1 y n g = markH g y x1 k := by
  intro k
  induction k with
  | zero =>
    intro fuel hf g x1
    match fuel, hf with
    | f + 1, _ =>
      simp only [bresAux, markH]
      rw [if_pos ⟨by omega, by trivial⟩]
  | succ j ih =>
    intro fuel hf g x1
    match fuel, hf with
    | f + 1, hf =>
      simp only [bresAux, markH]
      rw [if_neg (by push_cast; omega), if_pos (by omega), if_neg (by push_cast; omega),
        if_neg (by omega)]
      rw [show ((j + 1 : Nat) : Int) = ((j : Nat) : Int) + 1 by push_cast; ring]
      rw [show x1 + ((j : Int) + 1) = (x1 + 1) + (j : Int) by ring]
      rw [show n + 0 = n by ring]
      exact ih f (by omega) (g.setCell x1 y) (x1 + 1)

/-- Horizontal Bresenham, right to left, equals the descending run. -/
theorem bresAux_horiz_desc (y n sy : Int) (hn : 0 < n) :
    ∀ (k fuel : Nat), k < fuel → ∀ (g : Grid) (x1 : Int),
      bresAux x1 y n 0 (-1) sy fuel (x1 + (k : Int)) y n g = markHD g y (x1 + (k : Int)) k := by
  intro k
  induction k with
  | zero =>
    intro fuel hf g x1
    match fuel, hf with
    | f + 1, _ =>
      simp only [bresAux, markHD]
      rw [if_pos ⟨by omega, by trivial⟩]
  | succ j ih =>
    intro fuel hf g x1
    match fuel, hf with
    | f + 1, hf =>
      simp only [bresAux, markHD]
      rw [if_neg (by push_cast; omega), if_pos (by omega), if_neg (by push_cast; omega),
        if_neg (by omega)]
      rw [show x1 + ((j + 1 : Nat) : Int) + -1 = x1 + ((j : Nat) : Int) by push_cast; ring,
        show n + 0 = n by ring]
      rw [show x1 + ((j + 1 : Nat) : Int) - 1 = x1 + ((j : Nat) : Int) by push_cast; ring]
      exact ih f (by omega) (g.setCell (x1 + ((j + 1 : Nat) : Int)) y) x1

/-- Vertical Bresenham, top to bottom, equals the ascending run. -/
theorem bresAux_vert_asc (x m sx : Int) (hm : m < 0) :
    ∀ (k fuel : Nat), k < fuel → ∀ (g : Grid) (y1 : Int),
      bresAux x (y1 + (k : Int)) 0 m sx 1 fuel x y1 m g = markV g x y1 k := by
  intro k
  induction k with
  | zero =>
    intro fuel hf g y1
    match fuel, hf with
    | f + 1, _ =>
      simp only [bresAux, markV]
      rw [if_pos ⟨by trivial, by omega⟩]
  | succ j ih =>
    intro fuel hf g y1
    match fuel, hf with
    | f + 1, hf =>
      simp only [bresAux, markV]
      rw [if_neg (by push_cast; omega), if_neg (by omega), if_pos (by omega),
        if_neg (by push_cast; omega)]
      rw [show ((j + 1 : Nat) : Int) = ((j : Nat) : Int) + 1 by push_cast; ring]
      rw [show y1 + ((j : Int) + 1) = (y1 + 1) + (j : Int) by ring]
      rw [show m + 0 = m by ring]
      exact ih f (by omega) (g.setCell x y1) (y1 + 1)

/-- Vertical Bresenham, bottom to top, equals the descending run. -/
theorem bresAux_vert_desc (x m sx : Int) (hm : m < 0) :
    ∀ (k fuel : Nat), k < fuel → ∀ (g : Grid) (y1 : Int),
      bresAux x y1 0 m sx (-1) fuel x (y1 + (k : Int)) m g = markVD g x (y1 + (k : Int)) k := by
  intro k
  induction k with
  | zero =>
    intro fuel hf g y1
    match fuel, hf with
    | f + 1, _ =>
      simp only [bresAux, markVD]
      rw [if_pos ⟨by trivial, by omega⟩]
  | succ j ih =>
    intro fuel hf g y1
    match fuel, hf with
    | f + 1, hf =>
      simp only [bresAux, markVD]
      rw [if_neg (by push_cast; omega), if_neg (by omega), if_pos (by omega),
        if_neg (by push_cast; omega)]
      rw [show y1 + ((j + 1 : Nat) : Int) + -1 = y1 + ((j : Nat) : Int) by push_cast; ring,
        show m + 0 = m by ring]
      rw [show y1 + ((j + 1 : Nat) : Int) - 1 = y1 + ((j : Nat) : Int) by push_cast; ring]
      exact ih f (by omega) (g.setCell x (y1 + ((j + 1 : Nat) : Int))) y1

/-- C7 (counterexample to the claim as stated): with both endpoints in
range of a 5×2 grid, `obstructLine (0,0) (4,1)` and `obstructLine (4,1)
(0,0)` mark different cell sets (they differ at `(2,0)`/`(2,1)`: the
rounding tie is broken in the direction of travel). -/
theorem obstructLine_symm_counterexample :
    (mkGrid 5 2).inRange ⟨0, 0⟩ ∧ (mkGrid 5 2).inRange ⟨4, 1⟩ ∧
      (mkGrid 5 2).obstructLine ⟨0, 0⟩ ⟨4, 1⟩ ≠ (mkGrid 5 2).obstructLine ⟨4, 1⟩ ⟨0, 0⟩ := by
  refine ⟨by decide, by decide, by decide⟩

/-- An order-free description of a vertical `obstructLine`. -/
theorem obstructLine_vert (g : Grid) (x ya yb : Int) (hab : ya < yb) :
    g.obstructLine ⟨x, ya⟩ ⟨x, yb⟩ = g.obstructLine ⟨x, yb⟩ ⟨x, ya⟩ := by
  obtain ⟨k, rfl⟩ : ∃ k : Nat, yb = ya + (k : Int) := ⟨(yb - ya).toNat, by omega⟩
  have hkpos : 0 < k := by omega
  have habs1 : |ya + (k : Int) - ya| = (k : Int) := by
    rw [show ya + (k : Int) - ya = (k : Int) by ring]
    exact abs_of_nonneg (Int.natCast_nonneg k)
  have habs2 : |ya - (ya + (k : Int))| = (k : Int) := by rw [abs_sub_comm]; exact habs1
  simp only [Grid.obstructLine, sub_self, abs_zero, neg_zero, zero_add,
    habs1, habs2, if_pos hab, if_neg (show ¬x < x by omega),
    if_neg (show ¬ya + (k : Int) < ya by omega)]
  rw [show (0 - -(k : Int)).toNat = k by omega]
  rw [bresAux_vert_asc x (-(k : Int)) (-1) (by omega) k (k + 1) (by omega) g ya,
    bresAux_vert_desc x (-(k : Int)) (-1) (by omega) k (k + 1) (by omega) g ya,
    markVD_eq_markV]

/-- An order-free description of a horizontal `obstructLine`. -/
theorem obstructLine_horiz (g : Grid) (y xa xb : Int) (hab : xa < xb) :
    g.obstructLine ⟨xa, y⟩ ⟨xb, y⟩ = g.obstructLine ⟨xb, y⟩ ⟨xa, y⟩ := by
  obtain ⟨k, rfl⟩ : ∃ k : Nat, xb = xa + (k : Int) := ⟨(xb - xa).toNat, by omega⟩
  have hkpos : 0 < k := by omega
  have habs1 : |xa + (k : Int) - xa| = (k : Int) := by
    rw [show xa + (k : Int) - xa = (k : Int) by ring]
    exact abs_of_nonneg (Int.natCast_nonneg k)
  have habs2 : |xa - (xa + (k : Int))| = (k : Int) := by rw [abs_sub_comm]; exact habs1
  simp only [Grid.obstructLine, sub_self, abs_zero, neg_zero, add_zero,
    habs1, habs2, if_pos hab, if_neg (show ¬y < y by omega),
    if_neg (show ¬xa + (k : Int) < xa by omega)]
  rw [show ((k : Int) - 0).toNat = k by omega]
  rw [bresAux_horiz_asc y (k : Int) (-1) (by omega) k (k + 1) (by omega) g xa,
    bresAux_horiz_desc y (k : Int) (-1) (by omega) k (k + 1) (by omega) g xa,
    markHD_eq_markH]

/-- C7 (amended): for in-range endpoints the two argument orders of
`obstructLine` mark the same cell set when the segment is axis-aligned
(horizontal or vertical); for general segments the two orders may differ
(see `obstructLine_symm_counterexample`). -/
theorem obstructLine_symm_axis (g : Grid) (p1 p2 : Pt)
    (_hr1 : g.inRange p1) (_hr2 : g.inRange p2)
    (haxis : p1.x = p2.x ∨ p1.y = p2.y) :
    g.obstructLine p1 p2 = g.obstructLine p2 p1 := by
  obtain ⟨x1, y1⟩ := p1
  obtain ⟨x2, y2⟩ := p2
  rcases haxis with hx | hy
  · simp only at hx
    subst hx
    rcases lt_trichotomy y1 y2 with hlt | heq | hgt
    · exact obstructLine_vert g x1 y1 y2 hlt
    · subst heq; rfl
    · exact (obstructLine_vert g x1 y2 y1 hgt).symm
  · simp only at hy
    subst hy
    rcases lt_trichotomy x1 x2 with hlt | heq | hgt
    · exact obstructLine_horiz g y1 x1 x2 hlt
    · subst heq; rfl
    · exact (obstructLine_horiz g y1 x2 x1 hgt).symm

/-- Witness for `obstructLine_symm_axis` at a concrete vertical segment. -/
theorem obstructLine_symm_axis_witness :
    ((mkGrid 5 5).inRange ⟨2, 0⟩ ∧ (mkGrid 5 5).inRange ⟨2, 3⟩ ∧
        ((2 : Int) = 2 ∨ (0 : Int) = 3)) ∧
      (mkGrid 5 5).obstructLine ⟨2, 0⟩ ⟨2, 3⟩ = (mkGrid 5 5).obstructLine ⟨2, 3⟩ ⟨2, 0⟩ :=
  ⟨⟨by decide, by decide, Or.inl rfl⟩,
    obstructLine_symm_axis (mkGrid 5 5) ⟨2, 0⟩ ⟨2, 3⟩ (by decide) (by decide) (Or.inl rfl)⟩

end Formations

namespace Formations

-- Sanity examples mirroring `test/grid.test.ts` (the "can block grid
-- cells", "can detect collisions" and "can detect available steps" tests).

example :
    (((mkGrid 5 5).obstructLine ⟨0, 2⟩ ⟨4, 2⟩).obstructLine ⟨2, 0⟩ ⟨2, 2⟩).obstructLine
        ⟨1, 2⟩ ⟨4, 4⟩ =
      ⟨5, 5, [[false, false, true, false, false],
              [false, false, true, false, false],
              [true, true, true, true, true],
              [false, false, true, true, false],
              [false, false, false, false, true]]⟩ := by decide

example :
    let g := ((mkGrid 4 4).obstructLine ⟨1, 0⟩ ⟨1, 1⟩).obstructLine ⟨0, 1⟩ ⟨1, 1⟩
    g.canOccupy ⟨⟨0, 0⟩, ⟨1, 1⟩⟩ = true ∧
    g.canOccupy ⟨⟨0, 0⟩, ⟨2, 1⟩⟩ = false ∧
    g.canOccupy ⟨⟨2, 2⟩, ⟨4, 4⟩⟩ = true := by decide

example :
    let g := ((((mkGrid 5 4).obstructLine ⟨1, 0⟩ ⟨1, 0⟩).obstructLine ⟨0, 1⟩ ⟨0, 1⟩).obstructLine
      ⟨2, 1⟩ ⟨2, 1⟩).obstructLine ⟨3, 3⟩ ⟨3, 3⟩
    g.adjPoints ⟨⟨0, 0⟩, ⟨1, 1⟩⟩ = [] ∧
    g.adjPoints ⟨⟨1, 1⟩, ⟨2, 2⟩⟩ = [⟨1, 2⟩] ∧
    g.adjPoints ⟨⟨4, 3⟩, ⟨5, 4⟩⟩ = [⟨4, 2⟩] ∧
    g.adjPoints ⟨⟨3, 0⟩, ⟨5, 2⟩⟩ = [⟨3, 1⟩] := by decide

end Formations

namespace Formations

/-! ### Association-list map lemmas -/

theorem mget_nil {β : Type} (k : Nat) : mget ([] : List (Nat × β)) k = none := rfl

theorem mget_cons {β : Type} (e : Nat × β) (t : List (Nat × β)) (k : Nat) :
    mget (e :: t) k = if e.1 = k then some e.2 else mget t k := by
  by_cases h : e.1 = k <;> simp [mget, List.find?, h]

theorem mget_eq_none_iff {β : Type} (m : List (Nat × β)) (k : Nat) :
    mget m k = none ↔ ∀ e ∈ m, e.1 ≠ k := by
  induction m with
  | nil => simp [mget_nil]
  | cons e t ih =>
    rw [mget_cons]
    by_cases h : e.1 = k <;> simp [h, ih]

theorem mget_mem {β : Type} {m : List (Nat × β)} {k : Nat} {v : β}
    (h : mget m k = some v) : (k, v) ∈ m := by
  induction m with
  | nil => simp [mget_nil] at h
  | cons e t ih =>
    rw [mget_cons] at h
    by_cases he : e.1 = k
    · rw [if_pos he] at h
      obtain ⟨k', v'⟩ := e
      simp only at he
      cases h
      subst he
      exact List.mem_cons_self _ _
    · rw [if_neg he] at h
      exact List.mem_cons_of_mem _ (ih h)

theorem any_key_eq {β : Type} (m : List (Nat × β)) (k : Nat) :
    m.any (fun e => e.1 = k) = (mget m k).isSome := by
  induction m with
  | nil => simp [mget_nil]
  | cons e t ih =>
    rw [mget_cons]
    by_cases h : e.1 = k <;> simp [h, ih]

theorem mget_map_replace_self {β : Type} (m : List (Nat × β)) (k : Nat) (v : β) :
    mget (m.map (fun e => if e.1 = k then (k, v) else e)) k =
      if (mget m k).isSome then some v else none := by
  induction m with
  | nil => simp [mget_nil]
  | cons e0 t ih =>
    by_cases h0 : e0.1 = k
    · simp [mget_cons, h0]
    · simp only [List.map_cons, if_neg h0, mget_cons, if_neg h0]
      exact ih

theorem mget_map_replace_ne {β : Type} (m : List (Nat × β)) {k k' : Nat} (h : k ≠ k')
    (v : β) :
    mget (m.map (fun e => if e.1 = k then (k, v) else e)) k' = mget m k' := by
  induction m with
  | nil => simp
  | cons e0 t ih =>
    by_cases h0 : e0.1 = k
    · simp only [List.map_cons, if_pos h0, mget_cons, if_neg h, if_neg (h0 ▸ h : ¬e0.1 = k')]
      exact ih
    · simp only [List.map_cons, if_neg h0, mget_cons]
      by_cases h1 : e0.1 = k' <;> simp [h1, ih]

theorem mget_append_some {β : Type} {m : List (Nat × β)} {k' : Nat} {w : β}
    (h : mget m k' = some w) (rest : List (Nat × β)) : mget (m ++ rest) k' = some w := by
  induction m with
  | nil => simp [mget_nil] at h
  | cons e0 t ih =>
    rw [mget_cons] at h
    by_cases h0 : e0.1 = k'
    · rw [if_pos h0] at h
      simp [mget_cons, h0, h]
    · rw [if_neg h0] at h
      simpa [mget_cons, h0] using ih h

theorem mget_append_none {β : Type} {m : List (Nat × β)} {k' : Nat}
    (h : mget m k' = none) (rest : List (Nat × β)) : mget (m ++ rest) k' = mget rest k' := by
  induction m with
  | nil => simp
  | cons e0 t ih =>
    rw [mget_cons] at h
    by_cases h0 : e0.1 = k'
    · rw [if_pos h0] at h; cases h
    · rw [if_neg h0] at h
      simpa [mget_cons, h0] using ih h

theorem mget_mset_self {β : Type} (m : List (Nat × β)) (k : Nat) (v : β) :
    mget (mset m k v) k = some v := by
  unfold mset
  rw [any_key_eq]
  cases hk : mget m k with
  | some w =>
    rw [if_pos (by simp), mget_map_replace_self, hk]
    rfl
  | none =>
    rw [if_neg (by simp), mget_append_none hk]
    simp [mget_cons]

theorem mget_mset_ne {β : Type} (m : List (Nat × β)) {k k' : Nat} (h : k ≠ k') (v : β) :
    mget (mset m k v) k' = mget m k' := by
  unfold mset
  rw [any_key_eq]
  cases hk : mget m k with
  | some w => rw [if_pos (by simp), mget_map_replace_ne m h]
  | none =>
    rw [if_neg (by simp)]
    cases hk' : mget m k' with
    | some w => exact mget_append_some hk' _
    | none => rw [mget_append_none hk']; simp [mget_cons, mget_nil, h]

theorem mget_mdel_self {β : Type} (m : List (Nat × β)) (k : Nat) :
    mget (mdel m k) k = none := by
  rw [mget_eq_none_iff]
  intro e he
  have := List.of_mem_filter he
  simpa using this

theorem mget_mdel_ne {β : Type} (m : List (Nat × β)) {k k' : Nat} (h : k ≠ k') :
    mget (mdel m k) k' = mget m k' := by
  induction m with
  | nil => rfl
  | cons e0 t ih =>
    unfold mdel
    by_cases h0 : e0.1 = k
    · rw [List.filter_cons_of_neg (by simp [h0]), mget_cons, if_neg (by rw [h0]; exact h)]
      exact ih
    · rw [List.filter_cons_of_pos (by simp [h0]), mget_cons, mget_cons]
      by_cases h1 : e0.1 = k'
      · rw [if_pos h1, if_pos h1]
      · rw [if_neg h1, if_neg h1]
        exact ih

theorem length_mset_of_isSome {β : Type} (m : List (Nat × β)) (k : Nat) (v : β)
    (h : (mget m k).isSome) : (mset m k v).length = m.length := by
  unfold mset
  rw [if_pos (by rw [any_key_eq]; exact h), List.length_map]

theorem length_mset_of_none {β : Type} (m : List (Nat × β)) (k : Nat) (v : β)
    (h : mget m k = none) : (mset m k v).length = m.length + 1 := by
  unfold mset
  rw [if_neg (by rw [any_key_eq, h]; simp), List.length_append, List.length_cons,
    List.length_nil]

theorem keysOf_mset_of_isSome {β : Type} (m : List (Nat × β)) (k : Nat) (v : β)
    (h : (mget m k).isSome) : keysOf (mset m k v) = keysOf m := by
  unfold mset
  rw [if_pos (by rw [any_key_eq]; exact h)]
  unfold keysOf
  rw [List.map_map]
  apply List.map_congr_left
  intro e _
  by_cases he : e.1 = k <;> simp [he]

theorem keysOf_mset_of_none {β : Type} (m : List (Nat × β)) (k : Nat) (v : β)
    (h : mget m k = none) : keysOf (mset m k v) = keysOf m ++ [k] := by
  unfold mset
  rw [if_neg (by rw [any_key_eq, h]; simp)]
  unfold keysOf
  rw [List.map_append]
  rfl

theorem nodup_keysOf_mset {β : Type} (m : List (Nat × β)) (k : Nat) (v : β)
    (h : (keysOf m).Nodup) : (keysOf (mset m k v)).Nodup := by
  cases hk : mget m k with
  | some w => rw [keysOf_mset_of_isSome m k v (by rw [hk]; rfl)]; exact h
  | none =>
    rw [keysOf_mset_of_none m k v hk]
    rw [List.nodup_append]
    refine ⟨h, List.nodup_singleton k, ?_⟩
    intro a ha
    simp only [List.mem_singleton]
    intro rfl'
    subst rfl'
    obtain ⟨e, he, hek⟩ := List.mem_map.1 ha
    exact absurd hek (by simpa using (mget_eq_none_iff m a).1 hk e he)

theorem sublist_mdel {β : Type} (m : List (Nat × β)) (k : Nat) :
    (mdel m k).Sublist m := List.filter_sublist m

theorem nodup_keysOf_mdel {β : Type} (m : List (Nat × β)) (k : Nat)
    (h : (keysOf m).Nodup) : (keysOf (mdel m k)).Nodup := by
  have hs : (keysOf (mdel m k)).Sublist (keysOf m) := by
    unfold keysOf
    exact (sublist_mdel m k).map (fun e => e.1)
  exact hs.nodup h

theorem mem_mdel {β : Type} {m : List (Nat × β)} {k : Nat} {e : Nat × β}
    (h : e ∈ mdel m k) : e ∈ m := (sublist_mdel m k).mem h

end Formations

namespace Formations

/-! ### Root-chain theory for the union-find -/

theorem rootsTo_det {m : List (Nat × Nat)} {i r r' : Nat}
    (h1 : RootsTo m i r) (h2 : RootsTo m i r') : r = r' := by
  induction h1 generalizing r' with
  | root i hi =>
    cases h2 with
    | root => rfl
    | step _ p _ hp => rw [hi] at hp; cases hp
  | step i p r hp h ih =>
    cases h2 with
    | root _ hi => rw [hi] at hp; cases hp
    | step _ p' _ hp' h' =>
      rw [hp] at hp'
      cases hp'
      exact ih h'

theorem rootsTo_root {m : List (Nat × Nat)} {i r : Nat} (h : RootsTo m i r) :
    mget m r = none := by
  induction h with
  | root _ hi => exact hi
  | step => assumption

theorem rootsTo_of_root {m : List (Nat × Nat)} {i t : Nat} (h1 : mget m i = none)
    (h2 : RootsTo m i t) : t = i := by
  cases h2 with
  | root => rfl
  | step _ p _ hp => rw [h1] at hp; cases hp

theorem rootsTo_val {m : List (Nat × Nat)} {i r : Nat} (h : RootsTo m i r) :
    r = i ∨ ∃ e ∈ m, e.2 = r := by
  induction h with
  | root => left; rfl
  | step i p r hp _ ih =>
    right
    rcases ih with rfl | ⟨e, he, hv⟩
    · exact ⟨(i, r), mget_mem hp, rfl⟩
    · exact ⟨e, he, hv⟩

theorem mget_isSome_of_mem {β : Type} {m : List (Nat × β)} {e : Nat × β} (h : e ∈ m) :
    (mget m e.1).isSome = true := by
  induction m with
  | nil => simp at h
  | cons e0 t ih =>
    rw [mget_cons]
    by_cases h0 : e0.1 = e.1
    · simp [h0]
    · rw [if_neg h0]
      rcases List.mem_cons.1 h with rfl | hm
    

      · exact absurd rfl h0
      · exact ih hm

theorem rootedB_mono : ∀ {f f' : Nat} {m : List (Nat × Nat)} {i : Nat}, f ≤ f' →
    rootedB f m i = true → rootedB f' m i = true := by
  intro f f' m
  induction f' generalizing f with
  | zero =>
    intro i hle h
    interval_cases f
    exact h
  | succ f'' ih =>
    intro i hle h
    cases f with
    | zero =>
      simp only [rootedB, Option.isNone_iff_eq_none] at h
      simp [rootedB, h]
    | succ f0 =>
      simp only [rootedB] at h ⊢
      cases hm : mget m i with
      | none => simp
      | some p =>
        rw [hm] at h
        exact ih (by omega) h

theorem rootsTo_of_rootedB : ∀ {f : Nat} {m : List (Nat × Nat)} {i : Nat},
    rootedB f m i = true → RootsTo m i (findD f m i) := by
  intro f
  induction f with
  | zero =>
    intro m i h
    simp only [rootedB, Option.isNone_iff_eq_none] at h
    exact .root i h
  | succ f ih =>
    intro m i h
    cases hm : mget m i with
    | none => simp only [findD, hm]; exact .root i hm
    | some p =>
      simp only [rootedB, hm] at h
      simp only [findD, hm]
      exact .step i p _ hm (ih h)

theorem findAux_fst : ∀ (f : Nat) (m : List (Nat × Nat)) (i : Nat),
    (findAux f m i).1 = findD f m i := by
  intro f
  induction f with
  | zero => intro m i; rfl
  | succ f ih =>
    intro m i
    simp only [findAux, findD]
    cases hm : mget m i with
    | none => rfl
    | some p => simpa using ih m p

theorem mem_mset {β : Type} {m : List (Nat × β)} {k : Nat} {v : β} {e : Nat × β}
    (h : e ∈ mset m k v) : e = (k, v) ∨ e ∈ m := by
  unfold mset at h
  split at h
  · obtain ⟨e', he', heq⟩ := List.mem_map.1 h
    by_cases h0 : e'.1 = k
    · rw [if_pos h0] at heq; left; exact heq.symm
    · rw [if_neg h0] at heq; right; exact heq ▸ he'
  · rcases List.mem_append.1 h with hm | hm
    · right; exact hm
    · left; simpa using hm

theorem mget_mset_none_iff {β : Type} {m : List (Nat × β)} {k : Nat} {v : β}
    (hk : (mget m k).isSome = true) (j : Nat) :
    (mget (mset m k v) j = none ↔ mget m j = none) := by
  by_cases hj : k = j
  · subst hj
    rw [mget_mset_self]
    constructor
    · intro h; cases h
    · intro h; rw [h] at hk; cases hk
  · rw [mget_mset_ne m hj]

/-! ### Effect of the path-compression and union writes -/

theorem rootsTo_mset_rewire_fwd {m : List (Nat × Nat)} {i r : Nat}
    (hkey : mget m i ≠ none) (hroot : RootsTo m i r) :
    ∀ {j t : Nat}, RootsTo m j t → RootsTo (mset m i r) j t := by
  intro j t h
  induction h with
  | root j hj =>
    have hij : i ≠ j := fun he => hkey (he ▸ hj)
    exact .root j (by rw [mget_mset_ne m hij r]; exact hj)
  | step j p t hp h ih =>
    by_cases hij : i = j
    · subst hij
      have ht : t = r := rootsTo_det (.step i p t hp h) hroot
      subst ht
      have hr : mget m t = none := rootsTo_root hroot
      have hir : i ≠ t := fun he => hkey (he ▸ hr)
      exact .step i t t (mget_mset_self m i t)
        (.root t (by rw [mget_mset_ne m hir t]; exact hr))
    · exact .step j p t (by rw [mget_mset_ne m hij r]; exact hp) ih

theorem rootsTo_mset_rewire_bwd {m : List (Nat × Nat)} {i r : Nat}
    (hkey : mget m i ≠ none) (hroot : RootsTo m i r) :
    ∀ {j t : Nat}, RootsTo (mset m i r) j t → RootsTo m j t := by
  have hr : mget m r = none := rootsTo_root hroot
  have hir : i ≠ r := fun he => hkey (he ▸ hr)
  intro j t h
  generalize hm' : mset m i r = m' at h
  induction h with
  | root j hj =>
    subst hm'
    by_cases hij : i = j
    · subst hij
      rw [mget_mset_self] at hj
      cases hj
    · rw [mget_mset_ne m hij r] at hj
      exact .root j hj
  | step j p t hp h ih =>
    subst hm'
    by_cases hij : i = j
    · subst hij
      rw [mget_mset_self] at hp
      cases hp
      have hroot' : mget (mset m i r) r = none := by
        rw [mget_mset_ne m hir r]; exact hr
      have ht : t = r := rootsTo_of_root hroot' h
      subst ht
      exact hroot
    · rw [mget_mset_ne m hij r] at hp
      exact .step j p t hp ih

theorem rootedB_mset_rewire {m : List (Nat × Nat)} {i r : Nat}
    (hkey : mget m i ≠ none) (hroot : RootsTo m i r) :
    ∀ (fuel j : Nat), rootedB fuel m j = true → rootedB fuel (mset m i r) j = true := by
  have hr : mget m r = none := rootsTo_root hroot
  have hir : i ≠ r := fun he => hkey (he ▸ hr)
  intro fuel
  induction fuel with
  | zero =>
    intro j hj
    simp only [rootedB, Option.isNone_iff_eq_none] at hj ⊢
    have hij : i ≠ j := fun he => hkey (he ▸ hj)
    rw [mget_mset_ne m hij r]
    exact hj
  | succ f ih =>
    intro j hj
    by_cases hij : i = j
    · subst hij
      simp only [rootedB, mget_mset_self]
      cases f with
      | zero =>
        simp only [rootedB, Option.isNone_iff_eq_none]
        rw [mget_mset_ne m hir r]
        exact hr
      | succ f' =>
        simp only [rootedB]
        rw [mget_mset_ne m hir r, hr]
    · simp only [rootedB, mget_mset_ne m hij r] at hj ⊢
      cases hm : mget m j with
      | none => simp
      | some p =>
        rw [hm] at hj
        exact ih p hj

theorem rootsTo_mset_newEdge {m : List (Nat × Nat)} {jp ip : Nat}
    (hjp : mget m jp = none) (hip : mget m ip = none) (hne : jp ≠ ip) :
    ∀ {j t : Nat}, RootsTo m j t →
      RootsTo (mset m jp ip) j (if t = jp then ip else t) := by
  intro j t h
  induction h with
  | root j hj =>
    by_cases hj2 : j = jp
    · rw [if_pos hj2, hj2]
      exact .step jp ip ip (mget_mset_self m jp ip)
        (.root ip (by rw [mget_mset_ne m hne ip]; exact hip))
    · rw [if_neg hj2]
      exact .root j (by rw [mget_mset_ne m (fun he => hj2 he.symm) ip]; exact hj)
  | step j p t hp h ih =>
    have hjne : ¬jp = j := fun he => by rw [← he, hjp] at hp; cases hp
    exact .step j p _ (by rw [mget_mset_ne m hjne ip]; exact hp) ih

theorem rootedB_mset_newEdge {m : List (Nat × Nat)} {jp ip : Nat}
    (_hjp : mget m jp = none) (hip : mget m ip = none) (hne : jp ≠ ip) :
    ∀ (fuel j : Nat), rootedB fuel m j = true →
      rootedB (fuel + 1) (mset m jp ip) j = true := by
  have hroot' : mget (mset m jp ip) ip = none := by
    rw [mget_mset_ne m hne ip]
    exact hip
  intro fuel
  induction fuel with
  | zero =>
    intro j hj
    simp only [rootedB, Option.isNone_iff_eq_none] at hj
    by_cases hj2 : j = jp
    · rw [hj2]
      simp only [rootedB, mget_mset_self, hroot']
      rfl
    · simp only [rootedB]
      rw [mget_mset_ne m (fun he => hj2 he.symm) ip, hj]
  | succ f ih =>
    intro j hj
    by_cases hj2 : j = jp
    · rw [hj2]
      simp only [rootedB, mget_mset_self, hroot']
    · simp only [rootedB] at hj ⊢
      rw [mget_mset_ne m (fun he => hj2 he.symm) ip]
      cases hm : mget m j with
      | none => simp
      | some p =>
        rw [hm] at hj
        exact ih p hj

end Formations

namespace Formations

/-! ### Specification of `findAux`, `find` and `union` -/

theorem findAux_spec : ∀ (f : Nat) (m : List (Nat × Nat)) (i : Nat),
    rootedB f m i = true →
    (findAux f m i).2.length = m.length ∧
    (∀ j t, RootsTo (findAux f m i).2 j t ↔ RootsTo m j t) ∧
    (∀ fuel j, rootedB fuel m j = true → rootedB fuel (findAux f m i).2 j = true) ∧
    (∀ j, mget (findAux f m i).2 j = none ↔ mget m j = none) ∧
    (∀ e ∈ (findAux f m i).2, e.2 = (findAux f m i).1 ∨ ∃ e' ∈ m, e.2 = e'.2) ∧
    (∀ e ∈ (findAux f m i).2, ∃ e' ∈ m, e.1 = e'.1) := by
  intro f
  induction f with
  | zero =>
    intro m i _
    refine ⟨rfl, fun j t => Iff.rfl, fun fuel j h => h, fun j => Iff.rfl, ?_, ?_⟩
    · intro e he; right; exact ⟨e, he, rfl⟩
    · intro e he; exact ⟨e, he, rfl⟩
  | succ f ih =>
    intro m i hroot
    cases hm : mget m i with
    | none =>
      rw [show findAux (f + 1) m i = (i, m) by simp [findAux, hm]]
      refine ⟨rfl, fun j t => Iff.rfl, fun fuel j h => h, fun j => Iff.rfl, ?_, ?_⟩
      · intro e he; right; exact ⟨e, he, rfl⟩
      · intro e he; exact ⟨e, he, rfl⟩
    | some p =>
      have hrootp : rootedB f m p = true := by
        simpa only [rootedB, hm] using hroot
      obtain ⟨ihlen, ihiff, ihb, ihkeys, ihval, ihkey⟩ := ih m p hrootp
      have hfst : (findAux (f + 1) m i).1 = (findAux f m p).1 := by
        simp [findAux, hm]
      have hsnd : (findAux (f + 1) m i).2 = mset (findAux f m p).2 i (findAux f m p).1 := by
        simp [findAux, hm]
      set r := (findAux f m p).1 with hr
      set m1 := (findAux f m p).2 with hm1
      -- `r` is the root of `p`, hence of `i`, in `m`, and in `m1`.
      have hrp : RootsTo m p r := by
        rw [hr, findAux_fst]
        exact rootsTo_of_rootedB hrootp
      have hri : RootsTo m i r := .step i p r hm hrp
      have hri1 : RootsTo m1 i r := (ihiff i r).2 hri
      have hkeyi : mget m1 i ≠ none := by
        intro h
        rw [ihkeys i, hm] at h
        cases h
      rw [hsnd, hfst]
      refine ⟨?_, ?_, ?_, ?_, ?_, ?_⟩
      · rw [length_mset_of_isSome m1 i r (Option.isSome_iff_ne_none.2 hkeyi), ihlen]
      · intro j t
        constructor
        · intro h
          exact (ihiff j t).1 (rootsTo_mset_rewire_bwd hkeyi hri1 h)
        · intro h
          exact rootsTo_mset_rewire_fwd hkeyi hri1 ((ihiff j t).2 h)
      · intro fuel j h
        exact rootedB_mset_rewire hkeyi hri1 fuel j (ihb fuel j h)
      · intro j
        rw [mget_mset_none_iff (Option.isSome_iff_ne_none.2 hkeyi) j, ihkeys j]
      · intro e he
        rcases mem_mset he with rfl | he1
        · left; rfl
        · rcases ihval e he1 with hv | hv
          · left; exact hv
          · right; exact hv
      · intro e he
        rcases mem_mset he with rfl | he1
        · exact ⟨(i, p), mget_mem hm, rfl⟩
        · exact ihkey e he1

end Formations

namespace Formations

theorem findAux_none {f : Nat} {m : List (Nat × Nat)} {i : Nat}
    (h : mget m i = none) : findAux f m i = (i, m) := by
  cases f <;> simp [findAux, h]

theorem find_of_root {uf : UnionFind} {i : Nat} (h : mget uf.parents i = none) :
    uf.find i = (i, uf) := by
  unfold UnionFind.find
  rw [findAux_none h]

/-- Everything the algorithm needs to know about one `find` call. -/
theorem find_spec {N : Nat} {uf : UnionFind} (h : UFInv N uf) (i : Nat) (hi : i < N) :
    RootsTo uf.parents i (uf.find i).1 ∧
    (uf.find i).2.ranks = uf.ranks ∧
    (uf.find i).2.parents.length = uf.parents.length ∧
    UFInv N (uf.find i).2 ∧
    (∀ j t, RootsTo (uf.find i).2.parents j t ↔ RootsTo uf.parents j t) ∧
    (∀ j, mget (uf.find i).2.parents j = none ↔ mget uf.parents j = none) ∧
    (i ≠ 0 → (uf.find i).1 ≠ 0) ∧
    (uf.find i).1 < N ∧
    mget uf.parents (uf.find i).1 = none ∧
    (i = 0 → (uf.find i).1 = 0) := by
  have hroot := h.bounded i
  obtain ⟨hlen, hiff, hb, hkeys, hval, hkey⟩ :=
    findAux_spec uf.parents.length uf.parents i hroot
  have hfst : (uf.find i).1 = (findAux uf.parents.length uf.parents i).1 := rfl
  have hsnd : (uf.find i).2.parents = (findAux uf.parents.length uf.parents i).2 := rfl
  have hranks : (uf.find i).2.ranks = uf.ranks := rfl
  have hri : RootsTo uf.parents i (uf.find i).1 := by
    rw [hfst, findAux_fst]
    exact rootsTo_of_rootedB hroot
  have hrival := rootsTo_val hri
  refine ⟨hri, hranks, by rw [hsnd]; exact hlen, ?_, ?_, ?_, ?_, ?_, rootsTo_root hri, ?_⟩
  · refine ⟨?_, ?_, ?_⟩
    · intro j
      rw [hsnd, hlen]
      exact hb uf.parents.length j (h.bounded j)
    · intro e he
      rw [hsnd] at he
      constructor
      · obtain ⟨e', he', h1⟩ := hkey e he
        rw [h1]
        exact (h.nz e' he').1
      · rcases hval e he with hv | ⟨e', he', hv⟩
        · by_cases hz : i = 0
          · subst hz
            have hnone : mget uf.parents 0 = none := by
              rw [mget_eq_none_iff]
              intro e'' he''
              exact (h.nz e'' he'').1
            have he' : e ∈ uf.parents := by
              rw [findAux_none hnone] at he
              exact he
            have hv0 : e.2 = 0 := by rw [hv, findAux_none hnone]
            exact absurd hv0 (h.nz e he').2
          · rw [hv, ← hfst]
            rcases hrival with h0 | ⟨e', he', h0⟩
            · rw [h0]; exact hz
            · rw [← h0]
              exact (h.nz e' he').2
        · rw [hv]
          exact (h.nz e' he').2
    · intro e he
      rw [hsnd] at he
      constructor
      · obtain ⟨e', he', h1⟩ := hkey e he
        rw [h1]
        exact (h.lt e' he').1
      · rcases hval e he with hv | ⟨e', he', hv⟩
        · rw [hv, ← hfst]
          rcases hrival with h0 | ⟨e', he', h0⟩
          · rw [h0]; exact hi
          · rw [← h0]
            exact (h.lt e' he').2
        · rw [hv]
          exact (h.lt e' he').2
  · intro j t
    rw [hsnd]
    exact hiff j t
  · intro j
    rw [hsnd]
    exact hkeys j
  · intro hz
    rcases hrival with h0 | ⟨e', he', h0⟩
    · rw [h0]; exact hz
    · rw [← h0]
      exact (h.nz e' he').2
  · rcases hrival with h0 | ⟨e', he', h0⟩
    · rw [h0]; exact hi
    · rw [← h0]
      exact (h.lt e' he').2
  · intro hz
    subst hz
    have hnone : mget uf.parents 0 = none := by
      rw [mget_eq_none_iff]
      intro e'' he''
      exact (h.nz e'' he'').1
    rw [hfst, findAux_none hnone]

end Formations

namespace Formations

/-- Everything the algorithm needs to know about one `union` call:
roots merge into a single surviving root `w` (the absorbed root is `l`),
and the invariant is preserved. -/
theorem union_spec {N : Nat} {uf : UnionFind} (h : UFInv N uf) {i j : Nat}
    (hi : i < N) (hj : j < N) (hiz : i ≠ 0) (hjz : j ≠ 0) :
    UFInv N (uf.union i j) ∧
    ∃ w l ri rj,
      RootsTo uf.parents i ri ∧ RootsTo uf.parents j rj ∧
      ((w = ri ∧ l = rj) ∨ (w = rj ∧ l = ri)) ∧
      w ≠ 0 ∧ w < N ∧ mget (uf.union i j).parents w = none ∧
      (∀ p t, RootsTo uf.parents p t →
        RootsTo (uf.union i j).parents p (if t = l then w else t)) := by
  obtain ⟨hri, hranks1, hlen1, huf1, hiff1, hkeys1, hnz1, hlt1, hroot1, _⟩ :=
    find_spec h i hi
  set ri := (uf.find i).1 with hri_def
  set uf1 := (uf.find i).2 with huf1_def
  obtain ⟨hrj1, hranks2, hlen2, huf2, hiff2, hkeys2, hnz2, hlt2, hroot2, _⟩ :=
    find_spec huf1 j hj
  set rj := (uf1.find j).1 with hrj_def
  set uf2 := (uf1.find j).2 with huf2_def
  have hrj : RootsTo uf.parents j rj := (hiff1 j rj).1 hrj1
  have hriu2 : mget uf2.parents ri = none := by
    rw [hkeys2 ri, hkeys1 ri]
    exact hroot1
  have hrju2 : mget uf2.parents rj = none := by
    rw [hkeys2 rj]
    exact rootsTo_root hrj1
  have hiffc : ∀ p t, RootsTo uf2.parents p t ↔ RootsTo uf.parents p t := by
    intro p t
    rw [hiff2 p t, hiff1 p t]
  have hrinz : ri ≠ 0 := hnz1 hiz
  have hrjnz : rj ≠ 0 := hnz2 hjz
  have hunion : uf.union i j =
      (if ri = rj then uf2
       else
         if (mget uf2.ranks ri).getD (-1) > (mget uf2.ranks rj).getD (-1) then
           { uf2 with parents := mset uf2.parents rj ri }
         else
           { uf2 with parents := mset uf2.parents ri rj,
                      ranks := mset uf2.ranks rj
                        (max ((mget uf2.ranks rj).getD (-1))
                          ((mget uf2.ranks ri).getD (-1) + 1)) }) := by
    rfl
  by_cases heq : ri = rj
  · rw [hunion, if_pos heq]
    refine ⟨huf2, ri, ri, ri, rj, hri, hrj, Or.inl ⟨rfl, heq⟩, hrinz, hlt1, hriu2, ?_⟩
    intro p t hpt
    have := (hiffc p t).2 hpt
    by_cases ht : t = ri
    · rw [if_pos ht, ← ht]
      exact this
    · rw [if_neg ht]
      exact this
  · rw [hunion, if_neg heq]
    by_cases hrank : (mget uf2.ranks ri).getD (-1) > (mget uf2.ranks rj).getD (-1)
    · rw [if_pos hrank]
      have hne : rj ≠ ri := fun he => heq he.symm
      refine ⟨?_, ri, rj, ri, rj, hri, hrj, Or.inl ⟨rfl, rfl⟩, hrinz, hlt1, ?_, ?_⟩
      · refine ⟨?_, ?_, ?_⟩
        · intro p
          have hlen3 : (mset uf2.parents rj ri).length = uf2.parents.length + 1 :=
            length_mset_of_none uf2.parents rj ri hrju2
          rw [hlen3]
          exact rootedB_mset_newEdge hrju2 hriu2 hne uf2.parents.length p (huf2.bounded p)
        · intro e he
          rcases mem_mset he with rfl | he1
          · exact ⟨hrjnz, hrinz⟩
          · exact huf2.nz e he1
        · intro e he
          rcases mem_mset he with rfl | he1
          · exact ⟨hlt2, hlt1⟩
          · exact huf2.lt e he1
      · rw [mget_mset_ne uf2.parents hne ri]
        exact hriu2
      · intro p t hpt
        exact rootsTo_mset_newEdge hrju2 hriu2 hne ((hiffc p t).2 hpt)
    · rw [if_neg hrank]
      have hne : ri ≠ rj := heq
      refine ⟨?_, rj, ri, ri, rj, hri, hrj, Or.inr ⟨rfl, rfl⟩, hrjnz, hlt2, ?_, ?_⟩
      · refine ⟨?_, ?_, ?_⟩
        · intro p
          have hlen3 : (mset uf2.parents ri rj).length = uf2.parents.length + 1 :=
            length_mset_of_none uf2.parents ri rj hriu2
          rw [hlen3]
          exact rootedB_mset_newEdge hriu2 hrju2 hne uf2.parents.length p (huf2.bounded p)
        · intro e he
          rcases mem_mset he with rfl | he1
          · exact ⟨hrinz, hrjnz⟩
          · exact huf2.nz e he1
        · intro e he
          rcases mem_mset he with rfl | he1
          · exact ⟨hlt1, hlt2⟩
          · exact huf2.lt e he1
      · rw [mget_mset_ne uf2.parents hne rj]
        exact hrju2
      · intro p t hpt
        exact rootsTo_mset_newEdge hriu2 hrju2 hne ((hiffc p t).2 hpt)

end Formations

namespace Formations

/-- A non-throwing `canonId` call, split into its value and its state. -/
theorem canonId_ok {g : Grid} {s : PState} {p : Pt} (h : rowOk g p = true) :
    canonId g s p = .ok (cVal s p, cState s p) := by
  unfold canonId
  exact if_pos h

/-- A `canonId` call on an out-of-range row throws. -/
theorem canonId_crash {g : Grid} {s : PState} {p : Pt} (h : ¬rowOk g p = true) :
    canonId g s p = .crash := by
  unfold canonId
  exact if_neg h

theorem rowOk_of_inRange {g : Grid} {p : Pt} (h : g.inRange p) : rowOk g p = true :=
  decide_eq_true ⟨h.2.2.1, h.2.2.2⟩

/-- A cell with a nonzero `Nat` reading holds that number. -/
theorem partIds_of_idVal_nz {s : PState} {p : Pt} (h : idVal s p ≠ 0) :
    s.partIds p = some (idVal s p) := by
  unfold idVal at h ⊢
  cases hp : s.partIds p with
  | none =>
    rw [hp] at h
    exact absurd rfl h
  | some v => rfl

theorem isSome_of_idVal_nz {s : PState} {p : Pt} (h : idVal s p ≠ 0) :
    (s.partIds p).isSome = true := by
  rw [partIds_of_idVal_nz h]
  rfl

/-- The returned value of a non-throwing `canonId` call: an absent entry
passes through, a stored number resolves to the point's canonical value. -/
theorem cVal_eq (s : PState) (p : Pt) :
    cVal s p = (s.partIds p).map (fun _ => canonVal s p) := by
  unfold cVal canonVal idVal
  cases s.partIds p <;> rfl

theorem cVal_isSome {s : PState} {p : Pt} (h : (s.partIds p).isSome = true) :
    cVal s p = some (canonVal s p) := by
  rw [cVal_eq]
  obtain ⟨k, hk⟩ := Option.isSome_iff_exists.1 h
  rw [hk]
  rfl

theorem cVal_none {s : PState} {p : Pt} (h : s.partIds p = none) :
    cVal s p = none := by
  rw [cVal_eq, h]
  rfl

theorem cState_parts (s : PState) (p : Pt) : (cState s p).parts = s.parts := rfl

/-- Everything the algorithm needs to know about the state of one
non-throwing `canonId` call: only the union-find changes (by
compression), and every point's canonical value is unchanged. -/
theorem canonId_spec {s : PState} (h : UFInv s.nextId s.uf)
    (hid : ∀ q : Pt, idVal s q < s.nextId) (p : Pt) :
    (cState s p).uf.ranks = s.uf.ranks ∧
    UFInv s.nextId (cState s p).uf ∧
    (∀ j t, RootsTo (cState s p).uf.parents j t ↔ RootsTo s.uf.parents j t) ∧
    (∀ j, mget (cState s p).uf.parents j = none ↔ mget s.uf.parents j = none) ∧
    (∀ q : Pt, canonVal (cState s p) q = canonVal s q) := by
  cases hp : s.partIds p with
  | none =>
    have hc : cState s p = s := by
      unfold cState
      rw [hp]
      rfl
    rw [hc]
    exact ⟨rfl, h, fun j t => Iff.rfl, fun j => Iff.rfl, fun q => rfl⟩
  | some v =>
    have hvlt : v < s.nextId := by
      have hx := hid p
      unfold idVal at hx
      rw [hp] at hx
      exact hx
    have hcuf : (cState s p).uf = (s.uf.find v).2 := by
      unfold cState
      rw [hp]
      rfl
    obtain ⟨hrt, hranks, hlen, huf, hiff, hkeys, _, _, _, _⟩ := find_spec h v hvlt
    refine ⟨by rw [hcuf]; exact hranks, by rw [hcuf]; exact huf,
      by rw [hcuf]; exact hiff, by rw [hcuf]; exact hkeys, ?_⟩
    intro q
    have huf' : UFInv s.nextId (cState s p).uf := by rw [hcuf]; exact huf
    have hid' : idVal (cState s p) q < s.nextId := hid q
    have h2 := (find_spec huf' (idVal (cState s p) q) hid').1
    have h3 : RootsTo s.uf.parents (idVal s q) (canonVal (cState s p) q) := by
      have hiff' : ∀ j t, RootsTo (cState s p).uf.parents j t ↔
          RootsTo s.uf.parents j t := by rw [hcuf]; exact hiff
      exact (hiff' (idVal s q) (canonVal (cState s p) q)).1 h2
    exact rootsTo_det h3 (find_spec h (idVal s q) (hid q)).1

theorem canonVal_rootsTo {s : PState} (h : UFInv s.nextId s.uf)
    (hid : ∀ q : Pt, idVal s q < s.nextId) (p : Pt) :
    RootsTo s.uf.parents (idVal s p) (canonVal s p) :=
  (find_spec h (idVal s p) (hid p)).1

theorem canonVal_root {s : PState} (h : UFInv s.nextId s.uf)
    (hid : ∀ q : Pt, idVal s q < s.nextId) (p : Pt) :
    mget s.uf.parents (canonVal s p) = none :=
  rootsTo_root (canonVal_rootsTo h hid p)

theorem canonVal_nz {s : PState} (h : UFInv s.nextId s.uf)
    (hid : ∀ q : Pt, idVal s q < s.nextId) (p : Pt) (hp : idVal s p ≠ 0) :
    canonVal s p ≠ 0 :=
  (find_spec h (idVal s p) (hid p)).2.2.2.2.2.2.1 hp

theorem canonVal_zero {s : PState} (h : UFInv s.nextId s.uf)
    (hid : ∀ q : Pt, idVal s q < s.nextId) (p : Pt) (hp : idVal s p = 0) :
    canonVal s p = 0 :=
  (find_spec h (idVal s p) (hid p)).2.2.2.2.2.2.2.2.2 hp

theorem canonVal_lt {s : PState} (h : UFInv s.nextId s.uf)
    (hid : ∀ q : Pt, idVal s q < s.nextId) (p : Pt) :
    canonVal s p < s.nextId :=
  (find_spec h (idVal s p) (hid p)).2.2.2.2.2.2.2.1

/-- `canonVal` after writing the table at one point. -/
theorem canonVal_stamp {s : PState} (v : Nat) (cur : Pt) (q : Pt) :
    canonVal { s with partIds := fun p => if p = cur then some v else s.partIds p } q =
      (if q = cur then (s.uf.find v).1 else canonVal s q) := by
  by_cases hq : q = cur <;> simp [canonVal, idVal, hq]

/-- `idVal` after writing the table at one point. -/
theorem idVal_stamp {s : PState} (v : Nat) (cur : Pt) (q : Pt) :
    idVal { s with partIds := fun p => if p = cur then some v else s.partIds p } q =
      (if q = cur then v else idVal s q) := by
  by_cases hq : q = cur <;> simp [idVal, hq]

/-- `canonVal` determined by `RootsTo`. -/
theorem canonVal_eq_of_rootsTo {s : PState} (h : UFInv s.nextId s.uf)
    (hid : ∀ q : Pt, idVal s q < s.nextId) (p : Pt) {t : Nat}
    (ht : RootsTo s.uf.parents (idVal s p) t) : canonVal s p = t :=
  rootsTo_det (canonVal_rootsTo h hid p) ht

end Formations

namespace Formations

/-- C2: if either queried point has a nonzero canonical ID whose part is
final (exhausted frontier), `inSamePart` answers exactly
`canonicalId(A) == canonicalId(B)` and leaves the assignment table
untouched (no flood runs). -/
theorem inSamePart_final_cached (g : Grid) (cursor : Rect) (s : PState) (a b : Pt)
    (hinv : Inv g cursor s) (ha : g.inRange a) (hb : g.inRange b)
    (hocc_a : occAt g cursor a = true) (hocc_b : occAt g cursor b = true)
    (hfin : (canonVal s a ≠ 0 ∧
              ∃ qa, mget s.parts (canonVal s a) = some qa ∧ qa.isEmpty = true) ∨
            (canonVal s b ≠ 0 ∧
              ∃ qb, mget s.parts (canonVal s b) = some qb ∧ qb.isEmpty = true)) :
    ∃ s', inSamePart g cursor s a b = .ok (decide (canonVal s a = canonVal s b), s') ∧
      s'.partIds = s.partIds := by
  obtain ⟨_, hauf, _, _, ha9⟩ := canonId_spec hinv.uf hinv.ids_lt a
  have hid2 : ∀ q : Pt, idVal (cState s a) q < (cState s a).nextId := hinv.ids_lt
  have hauf' : UFInv (cState s a).nextId (cState s a).uf := hauf
  obtain ⟨_, hbuf, _, _, hb9⟩ := canonId_spec hauf' hid2 b
  have hoccs : (!(g.canOccupy (cursor.translate a)) || !(g.canOccupy (cursor.translate b))) = false := by
    rw [show g.canOccupy (cursor.translate a) = true from hocc_a,
      show g.canOccupy (cursor.translate b) = true from hocc_b]
    rfl
  have hsa : (s.partIds a).isSome = true := (hinv.dom a).2 ha
  have hsb : ((cState s a).partIds b).isSome = true := (hinv.dom b).2 hb
  have haval : cVal s a = some (canonVal s a) := cVal_isSome hsa
  have hbval : cVal (cState s a) b = some (canonVal s b) := by
    rw [cVal_isSome hsb, ha9 b]
  unfold inSamePart
  rw [hoccs]
  simp only [Bool.false_eq_true, if_false]
  rw [canonId_ok (rowOk_of_inRange ha)]
  dsimp only
  rw [canonId_ok (rowOk_of_inRange hb)]
  dsimp only
  rw [haval, hbval]
  by_cases hshort : canonVal s a ≠ 0 ∧ canonVal s a = canonVal s b
  · rw [if_pos (show some (canonVal s a) ≠ some 0 ∧
        (some (canonVal s a) : Option Nat) = some (canonVal s b) from
        ⟨fun hc => hshort.1 (Option.some.inj hc), by rw [hshort.2]⟩)]
    exact ⟨cState (cState s a) b, by rw [decide_eq_true hshort.2], rfl⟩
  · rw [if_neg (show ¬(some (canonVal s a) ≠ some 0 ∧
        (some (canonVal s a) : Option Nat) = some (canonVal s b)) from
        fun hc => hshort ⟨fun h0 => hc.1 (by rw [h0]), Option.some.inj hc.2⟩)]
    have hS2parts : (cState (cState s a) b).parts = s.parts := rfl
    rcases hfin with ⟨hnz, qa, hqa, hqe⟩ | ⟨hnz, qb, hqb, hqe⟩
    · have hne : ¬canonVal s a = canonVal s b := fun he => hshort ⟨hnz, he⟩
      have hqa2 : mget (cState (cState s a) b).parts (canonVal s a) = some qa := hqa
      dsimp only [finalCheck]
      rw [if_neg hnz, hqa2]
      dsimp only
      rw [hqe, if_pos rfl]
      exact ⟨cState (cState s a) b, by rw [decide_eq_false hne], rfl⟩
    · by_cases hA0 : canonVal s a = 0
      · have hne : ¬canonVal s a = canonVal s b := fun he => hnz (he ▸ hA0)
        have hqb2 : mget (cState (cState s a) b).parts (canonVal s b) = some qb := hqb
        dsimp only [finalCheck]
        rw [if_pos hA0]
        dsimp only
        rw [if_neg (show ¬false = true from Bool.false_ne_true)]
        rw [if_neg hnz, hqb2]
        dsimp only
        rw [hqe, if_pos rfl]
        exact ⟨cState (cState s a) b, by rw [decide_eq_false hne], rfl⟩
      · have hne : ¬canonVal s a = canonVal s b := fun he => hshort ⟨hA0, he⟩
        obtain ⟨qa2, hqa2⟩ := hinv.reg a
          (fun h0 => hA0 (canonVal_zero hinv.uf hinv.ids_lt a h0))
        have hqa2b : mget (cState (cState s a) b).parts (canonVal s a) = some qa2 := hqa2
        dsimp only [finalCheck]
        rw [if_neg hA0, hqa2b]
        dsimp only
        cases hE : qa2.isEmpty with
        | true =>
          rw [if_pos rfl]
          exact ⟨cState (cState s a) b, by rw [decide_eq_false hne], rfl⟩
        | false =>
          rw [if_neg (show ¬false = true from Bool.false_ne_true)]
          have hqb2 : mget (cState (cState s a) b).parts (canonVal s b) = some qb := hqb
          rw [if_neg hnz, hqb2]
          dsimp only
          rw [hqe, if_pos rfl]
          exact ⟨cState (cState s a) b, by rw [decide_eq_false hne], rfl⟩

end Formations

namespace Formations

theorem inv_wState : Inv wGrid wCursor wState := by
  refine ⟨⟨fun i => rfl, ?_, ?_⟩, by decide, ?_, ?_, ?_, ?_, ?_⟩
  · intro e he
    simp [wState] at he
  · intro e he
    simp [wState] at he
  · intro p
    show (if p = ⟨0, 0⟩ then some 1 else (initState wGrid).partIds p).getD 0 < 2
    by_cases h : p = ⟨0, 0⟩
    · rw [if_pos h]
      exact Nat.lt_succ_self 1
    · rw [if_neg h]
      show ((if wGrid.inRange p then some 0 else none : Option Nat)).getD 0 < 2
      by_cases h2 : wGrid.inRange p
      · rw [if_pos h2]
        exact Nat.zero_lt_succ 1
      · rw [if_neg h2]
        exact Nat.zero_lt_succ 1
  · intro p
    show (if p = ⟨0, 0⟩ then some 1 else (initState wGrid).partIds p).isSome = true ↔
      wGrid.inRange p
    by_cases h : p = ⟨0, 0⟩
    · rw [if_pos h, h]
      exact ⟨fun _ => by decide, fun _ => rfl⟩
    · rw [if_neg h]
      show ((if wGrid.inRange p then some 0 else none : Option Nat)).isSome = true ↔
        wGrid.inRange p
      by_cases h2 : wGrid.inRange p
      · rw [if_pos h2]
        exact ⟨fun _ => h2, fun _ => rfl⟩
      · rw [if_neg h2]
        exact ⟨fun hc => Bool.noConfusion hc, fun hc => absurd hc h2⟩
  · show ([(1 : Nat)]).Nodup
    exact List.nodup_singleton 1
  · intro e he
    simp only [wState, List.mem_singleton] at he
    subst he
    exact ⟨rfl, by decide, by decide⟩
  · intro p hp
    have hp0 : p = ⟨0, 0⟩ := by
      by_contra hne
      apply hp
      show (if p = ⟨0, 0⟩ then some 1 else (initState wGrid).partIds p).getD 0 = 0
      rw [if_neg hne]
      show ((if wGrid.inRange p then some 0 else none : Option Nat)).getD 0 = 0
      by_cases h2 : wGrid.inRange p
      · rw [if_pos h2]
        rfl
      · rw [if_neg h2]
        rfl
    subst hp0
    exact ⟨⟨[⟨0, 0⟩], 1⟩, rfl⟩

/-- Witness for `inSamePart_final_cached`: on `wGrid`/`wState` the final
part `1` decides the self-query at `(0,0)` without flooding. -/
theorem inSamePart_final_cached_witness :
    (occAt wGrid wCursor ⟨0, 0⟩ = true ∧
      (canonVal wState ⟨0, 0⟩ ≠ 0 ∧
        ∃ qa, mget wState.parts (canonVal wState ⟨0, 0⟩) = some qa ∧ qa.isEmpty = true)) ∧
    ∃ s', inSamePart wGrid wCursor wState ⟨0, 0⟩ ⟨0, 0⟩ =
        .ok (decide (canonVal wState ⟨0, 0⟩ = canonVal wState ⟨0, 0⟩), s') ∧
      s'.partIds = wState.partIds :=
  ⟨⟨by decide, by decide, ⟨⟨[⟨0, 0⟩], 1⟩, rfl, rfl⟩⟩,
    inSamePart_final_cached wGrid wCursor wState ⟨0, 0⟩ ⟨0, 0⟩ inv_wState (by decide)
      (by decide) (by decide) (by decide)
      (Or.inl ⟨by decide, ⟨⟨[⟨0, 0⟩], 1⟩, rfl, rfl⟩⟩)⟩

/-- C2 (counterexample to the claim as originally stated, over all query
points): on `w2Grid` with footprint `w2Cursor`, the cell `(0,0)` belongs
to the fully explored (final) part `1`, both anchors `(0,-1)` and
`(0,0)` are occupiable, yet the query `((0,-1),(0,0))` does not answer
`canonicalId(A) == canonicalId(B)` — it crashes, because `canonId`
indexes the `undefined` table row `-1` and throws before the finality
branch is reached. -/
theorem inSamePart_final_cached_counterexample :
    occAt w2Grid w2Cursor ⟨0, -1⟩ = true ∧
    occAt w2Grid w2Cursor ⟨0, 0⟩ = true ∧
    canonVal w2State ⟨0, 0⟩ ≠ 0 ∧
    mget w2State.parts (canonVal w2State ⟨0, 0⟩) = some ⟨[⟨0, 0⟩], 1⟩ ∧
    (⟨[⟨0, 0⟩], 1⟩ : Queue).isEmpty = true ∧
    inSamePart w2Grid w2Cursor w2State ⟨0, -1⟩ ⟨0, 0⟩ = .crash :=
  ⟨rfl, rfl, by decide, rfl, rfl, rfl⟩

end Formations

namespace Formations

theorem UFInv.mono {N N' : Nat} {uf : UnionFind} (h : UFInv N uf) (hle : N ≤ N') :
    UFInv N' uf :=
  ⟨h.bounded, h.nz, fun e he => ⟨lt_of_lt_of_le (h.lt e he).1 hle,
    lt_of_lt_of_le (h.lt e he).2 hle⟩⟩

end Formations

namespace Formations

/-- Everything the algorithm needs to know about one completed
neighbour-push loop: only the union-find (by compression) and the queue
change, every canonical value is preserved, and the pushed suffix comes
from the listed points. -/
theorem pushLoop_ok_spec (g : Grid) (v : Nat) : ∀ (l : List Pt) (q : Queue) (s : PState)
    (q' : Queue) (s' : PState), pushLoop g v l (q, s) = .ok (q', s') →
    UFInv s.nextId s.uf → (∀ p : Pt, idVal s p < s.nextId) →
    s'.partIds = s.partIds ∧ s'.parts = s.parts ∧ s'.nextId = s.nextId ∧
    UFInv s.nextId s'.uf ∧
    (∀ j t, RootsTo s'.uf.parents j t ↔ RootsTo s.uf.parents j t) ∧
    (∀ j, mget s'.uf.parents j = none ↔ mget s.uf.parents j = none) ∧
    (∀ p : Pt, canonVal s' p = canonVal s p) ∧
    (∃ added : List Pt, q'.elems = q.elems ++ added ∧ added.length ≤ l.length ∧
      ∀ x ∈ added, x ∈ l) ∧
    q'.i = q.i := by
  intro l
  induction l with
  | nil =>
    intro q s q' s' heq hu hid
    have heq2 : Res.ok (α := Queue × PState) (q, s) = .ok (q', s') := heq
    injection heq2 with heq3
    injection heq3 with h1 h2
    subst h1
    subst h2
    exact ⟨rfl, rfl, rfl, hu, fun j t => Iff.rfl, fun j => Iff.rfl, fun p => rfl,
      ⟨[], by simp, by simp, by simp⟩, rfl⟩
  | cons p l ih =>
    intro q s q' s' heq hu hid
    obtain ⟨c5, c6, c7, c8, c9⟩ := canonId_spec hu hid p
    have hu' : UFInv (cState s p).nextId (cState s p).uf := c6
    have hid' : ∀ r : Pt, idVal (cState s p) r < (cState s p).nextId := hid
    rw [show pushLoop g v (p :: l) (q, s) =
        (match canonId g s p with
         | .ok vs =>
           pushLoop g v l (if vs.1 = some v then (q, vs.2) else (q.push p, vs.2))
         | .fuelOut => .fuelOut
         | .crash => .crash) from rfl] at heq
    cases hcid : canonId g s p with
    | fuelOut =>
      rw [hcid] at heq
      exact absurd (show Res.fuelOut = Res.ok (α := Queue × PState) (q', s') from heq)
        (fun hc => Res.noConfusion hc)
    | crash =>
      rw [hcid] at heq
      exact absurd (show Res.crash = Res.ok (α := Queue × PState) (q', s') from heq)
        (fun hc => Res.noConfusion hc)
    | ok vs =>
      rw [hcid] at heq
      have hrw : rowOk g p = true := by
        by_contra hr
        rw [canonId_crash hr] at hcid
        exact Res.noConfusion hcid
      rw [canonId_ok hrw] at hcid
      injection hcid with hvs
      subst hvs
      dsimp only at heq
      by_cases hv : cVal s p = some v
      · rw [if_pos hv] at heq
        obtain ⟨d1, d2, d3, d4, d5, d6, d7, d8, d9⟩ := ih q (cState s p) q' s' heq hu' hid'
        refine ⟨d1, d2, d3, d4, ?_, ?_, ?_, ?_, d9⟩
        · intro j t
          rw [d5 j t, c7 j t]
        · intro j
          rw [d6 j, c8 j]
        · intro r
          rw [d7 r, c9 r]
        · obtain ⟨added, ha1, ha2, ha3⟩ := d8
          exact ⟨added, ha1, le_trans ha2 (by simp),
            fun x hx => List.mem_cons_of_mem p (ha3 x hx)⟩
      · rw [if_neg hv] at heq
        obtain ⟨d1, d2, d3, d4, d5, d6, d7, d8, d9⟩ :=
          ih (q.push p) (cState s p) q' s' heq hu' hid'
        refine ⟨d1, d2, d3, d4, ?_, ?_, ?_, ?_, d9⟩
        · intro j t
          rw [d5 j t, c7 j t]
        · intro j
          rw [d6 j, c8 j]
        · intro r
          rw [d7 r, c9 r]
        · obtain ⟨added, ha1, ha2, ha3⟩ := d8
          refine ⟨p :: added, ?_, by simpa using ha2, ?_⟩
          · rw [ha1]
            show q.elems ++ [p] ++ added = q.elems ++ (p :: added)
            rw [List.append_assoc]
            rfl
          · intro x hx
            rcases List.mem_cons.1 hx with hxp | hx2
            · rw [hxp]
              exact List.mem_cons_self p l
            · exact List.mem_cons_of_mem p (ha3 x hx2)

/-- The neighbour-push loop completes whenever every listed point lies in
a valid table row. -/
theorem pushLoop_total (g : Grid) (v : Nat) : ∀ (l : List Pt) (q : Queue) (s : PState),
    (∀ p ∈ l, rowOk g p = true) →
    ∃ q' s', pushLoop g v l (q, s) = .ok (q', s') := by
  intro l
  induction l with
  | nil =>
    intro q s _
    exact ⟨q, s, rfl⟩
  | cons p l ih =>
    intro q s hrow
    have hr : rowOk g p = true := hrow p (List.mem_cons_self p l)
    have hrest : ∀ x ∈ l, rowOk g x = true :=
      fun x hx => hrow x (List.mem_cons_of_mem p hx)
    rw [show pushLoop g v (p :: l) (q, s) =
        (match canonId g s p with
         | .ok vs =>
           pushLoop g v l (if vs.1 = some v then (q, vs.2) else (q.push p, vs.2))
         | .fuelOut => .fuelOut
         | .crash => .crash) from rfl]
    rw [canonId_ok hr]
    dsimp only
    by_cases hv : cVal s p = some v
    · rw [if_pos hv]
      exact ih q (cState s p) hrest
    · rw [if_neg hv]
      exact ih (q.push p) (cState s p) hrest

end Formations

namespace Formations

end Formations

namespace Formations

/-- Every anchor returned by `adjPoints` on a nonempty translated
footprint is an in-grid point. -/
theorem adjPoints_inRange {g : Grid} {cursor : Rect} (hc : CursorOk cursor) (cur : Pt)
    {x : Pt} (hx : x ∈ g.adjPoints (cursor.translate cur)) : g.inRange x := by
  unfold Grid.adjPoints at hx
  split at hx
  · cases hx
  · obtain ⟨d, _, hd⟩ := List.mem_filterMap.1 hx
    by_cases hocc : g.canOccupy ((cursor.translate cur).translate d) = true
    · rw [if_pos hocc] at hd
      injection hd with hd
      have hall := canOccupy_eq_true_iff.1 hocc
      have hb := hall ((cursor.translate cur).tl.x + d.x) ((cursor.translate cur).tl.y + d.y)
        (le_refl _)
        (by show (cursor.translate cur).tl.x + d.x < (cursor.translate cur).br.x + d.x
            have h1 : (cursor.translate cur).tl.x = cursor.tl.x + cur.x := rfl
            have h2 : (cursor.translate cur).br.x = cursor.br.x + cur.x := rfl
            have := hc.1
            omega)
        (le_refl _)
        (by show (cursor.translate cur).tl.y + d.y < (cursor.translate cur).br.y + d.y
            have h1 : (cursor.translate cur).tl.y = cursor.tl.y + cur.y := rfl
            have h2 : (cursor.translate cur).br.y = cursor.br.y + cur.y := rfl
            have := hc.2
            omega)
      obtain ⟨h1, h2, h3, h4, _⟩ := isBlocked_eq_false.1 hb
      have h1x : (0 : Int) ≤ cursor.tl.x + cur.x + d.x := h1
      have h2x : cursor.tl.x + cur.x + d.x < g.w := h2
      have h3x : (0 : Int) ≤ cursor.tl.y + cur.y + d.y := h3
      have h4x : cursor.tl.y + cur.y + d.y < g.h := h4
      rw [← hd]
      exact ⟨h1x, h2x, h3x, h4x⟩
    · rw [if_neg hocc] at hd
      cases hd

end Formations

namespace Formations

end Formations

namespace Formations

/-- C3 (failing input): on an empty 5×1 grid with the footprint rect
`(1,0)-(2,1)` — a 1×1 footprint whose top-left is not the origin —
the very first queries give `inSamePart((0,0),(2,0)) = true` but
`inSamePart((2,0),(0,0)) = false`: `flood` pushes the anchors returned
by `adjPoints`, which are `cursor.tl + cur + d`, so exploration drifts
by `cursor.tl` at every step and reachability is not symmetric. -/
theorem inSamePart_asymmetry_example :
    ansOf (inSamePart (mkGrid 5 1) ⟨⟨1, 0⟩, ⟨2, 1⟩⟩ (initState (mkGrid 5 1))
      ⟨0, 0⟩ ⟨2, 0⟩) = some true ∧
    ansOf (inSamePart (mkGrid 5 1) ⟨⟨1, 0⟩, ⟨2, 1⟩⟩ (initState (mkGrid 5 1))
      ⟨2, 0⟩ ⟨0, 0⟩) = some false :=
  ⟨rfl, rfl⟩

end Formations

namespace Formations

theorem canonMap_of_eq {s t : PState} (hids : t.partIds = s.partIds)
    (hv : ∀ p : Pt, canonVal t p = canonVal s p) : CanonMap s t :=
  ⟨fun p h => by unfold idVal at h ⊢; rw [hids] at h; exact h, id, fun x hx => hx,
    fun p _ => hv p⟩

theorem canonMap_setParts (s : PState) (m : List (Nat × Queue)) :
    CanonMap s { s with parts := m } :=
  ⟨fun _ h => h, id, fun _ hx => hx, fun _ _ => rfl⟩

theorem canonMap_trans {s t u : PState} (h1 : CanonMap s t) (h2 : CanonMap t u) :
    CanonMap s u := by
  obtain ⟨z1, f1, n1, v1⟩ := h1
  obtain ⟨z2, f2, n2, v2⟩ := h2
  refine ⟨fun p h => z1 p (z2 p h), fun x => f2 (f1 x), fun x hx => n2 _ (n1 x hx), ?_⟩
  intro p hp
  rw [v2 p (fun h => hp (z1 p h)), v1 p hp]

theorem canonMap_classMono {s t : PState} (hu : UFInv s.nextId s.uf)
    (hid : ∀ q : Pt, idVal s q < s.nextId) (h : CanonMap s t) : ClassMono s t := by
  obtain ⟨z, f, hnz, hv⟩ := h
  refine ⟨z, ?_, ?_⟩
  · intro p hp
    rw [hv p hp]
    exact hnz _ (canonVal_nz hu hid p hp)
  · intro p q hp hq he
    rw [hv p hp, hv q hq, he]

theorem queue_not_empty_iff {q : Queue} : q.isEmpty = false ↔ q.i < q.elems.length := by
  simp only [Queue.isEmpty, decide_eq_false_iff_not, ge_iff_le, not_le]

theorem queue_next_mem {q : Queue} (h : q.isEmpty = false) : q.next.1 ∈ q.elems := by
  have hlt : q.i < q.elems.length := queue_not_empty_iff.1 h
  show q.elems.getD q.i ⟨0, 0⟩ ∈ q.elems
  rw [List.getD_eq_getElem q.elems ⟨0, 0⟩ hlt]
  exact List.getElem_mem hlt

theorem remaining_extend (q other : Queue) (h : q.i ≤ q.elems.length) :
    (q.extend other).remaining = q.remaining + other.remaining := by
  unfold Queue.extend Queue.remaining
  simp only [List.length_append, List.length_drop]
  omega

theorem filter_length_le_of_imp {α : Type} (l : List α) (p q : α → Bool)
    (h : ∀ x ∈ l, q x = true → p x = true) :
    (l.filter q).length ≤ (l.filter p).length := by
  induction l with
  | nil => simp
  | cons x l ih =>
    have hl : ∀ y ∈ l, q y = true → p y = true :=
      fun y hy => h y (List.mem_cons_of_mem x hy)
    cases hq : q x with
    | true =>
      rw [List.filter_cons_of_pos hq,
        List.filter_cons_of_pos (h x (List.mem_cons_self x l) hq)]
      simpa using ih hl
    | false =>
      rw [List.filter_cons_of_neg (by simp [hq])]
      cases hp : p x with
      | true =>
        rw [List.filter_cons_of_pos hp]
        exact le_trans (ih hl) (by simp)
      | false =>
        rw [List.filter_cons_of_neg (by simp [hp])]
        exact ih hl

theorem filter_length_lt_of_mem {α : Type} {l : List α} {p q : α → Bool}
    (himp : ∀ x ∈ l, q x = true → p x = true) {c : α} (hc : c ∈ l)
    (hcp : p c = true) (hcq : q c = false) :
    (l.filter q).length < (l.filter p).length := by
  induction l with
  | nil => cases hc
  | cons x l ih =>
    have hl : ∀ y ∈ l, q y = true → p y = true :=
      fun y hy => himp y (List.mem_cons_of_mem x hy)
    rcases List.mem_cons.1 hc with rfl | hcl
    · rw [List.filter_cons_of_neg (by simp [hcq]), List.filter_cons_of_pos hcp]
      exact Nat.lt_succ_of_le (filter_length_le_of_imp l p q hl)
    · cases hq : q x with
      | true =>
        rw [List.filter_cons_of_pos hq,
          List.filter_cons_of_pos (himp x (List.mem_cons_self x l) hq)]
        simpa using ih hl hcl
      | false =>
        rw [List.filter_cons_of_neg (by simp [hq])]
        cases hp : p x with
        | true =>
          rw [List.filter_cons_of_pos hp]
          exact Nat.lt_succ_of_lt (ih hl hcl)
        | false =>
          rw [List.filter_cons_of_neg (by simp [hp])]
          exact ih hl hcl

theorem totalRemaining_cons (e : Nat × Queue) (t : List (Nat × Queue)) :
    totalRemaining (e :: t) = e.2.remaining + totalRemaining t := by
  unfold totalRemaining
  simp

theorem mdel_eq_self {β : Type} (m : List (Nat × β)) (k : Nat) (h : mget m k = none) :
    mdel m k = m := by
  induction m with
  | nil => rfl
  | cons e t ih =>
    rw [mget_cons] at h
    by_cases he : e.1 = k
    · rw [if_pos he] at h; cases h
    · rw [if_neg he] at h
      unfold mdel
      rw [List.filter_cons_of_pos (by simp [he])]
      rw [show List.filter (fun e => decide ¬(e.1 = k)) t = mdel t k from rfl, ih h]

theorem totalRemaining_mdel {m : List (Nat × Queue)} {k : Nat} {v : Queue}
    (hnd : (keysOf m).Nodup) (h : mget m k = some v) :
    totalRemaining m = totalRemaining (mdel m k) + v.remaining := by
  induction m with
  | nil => cases h
  | cons e t ih =>
    rw [mget_cons] at h
    have hnd' : (keysOf t).Nodup := (List.nodup_cons.1 hnd).2
    by_cases he : e.1 = k
    · rw [if_pos he] at h
      injection h with h
      have hkt : mget t k = none := by
        rw [mget_eq_none_iff]
        intro e' he' hek
        exact (List.nodup_cons.1 hnd).1
          (List.mem_map.2 ⟨e', he', show e'.1 = e.1 by rw [hek, he]⟩)
      unfold mdel
      rw [List.filter_cons_of_neg (by simp [he])]
      rw [show List.filter (fun e => decide ¬(e.1 = k)) t = mdel t k from rfl,
        mdel_eq_self t k hkt, totalRemaining_cons, h]
      omega
    · rw [if_neg he] at h
      unfold mdel
      rw [List.filter_cons_of_pos (by simp [he])]
      rw [show List.filter (fun e => decide ¬(e.1 = k)) t = mdel t k from rfl,
        totalRemaining_cons, totalRemaining_cons, ih hnd' h]
      omega

theorem mem_prodPts {xs ys : List Int} {p : Pt} :
    p ∈ prodPts xs ys ↔ p.x ∈ xs ∧ p.y ∈ ys := by
  unfold prodPts
  simp only [List.mem_flatMap, List.mem_map]
  constructor
  · rintro ⟨x, hx, y, hy, rfl⟩
    exact ⟨hx, hy⟩
  · rintro ⟨hx, hy⟩
    exact ⟨p.x, hx, p.y, hy, rfl⟩

theorem inRange_mem_gridList {g : Grid} {x : Pt} (h : g.inRange x) :
    x ∈ gridList g := by
  unfold gridList
  refine mem_prodPts.2 ⟨?_, ?_⟩
  · exact mem_intRange.2 ⟨h.1, h.2.1⟩
  · exact mem_intRange.2 ⟨h.2.2.1, h.2.2.2⟩

theorem adjPoints_length_le (g : Grid) (r : Rect) : (g.adjPoints r).length ≤ 4 := by
  unfold Grid.adjPoints
  split
  · simp
  · exact le_trans (List.length_filterMap_le _ _) (by simp [DIRS])

theorem countNA_congr {g : Grid} {s t : PState} {v : Nat}
    (h : ∀ p : Pt, canonVal t p = canonVal s p) :
    countNA g t v = countNA g s v := by
  unfold countNA
  congr 1
  apply List.filter_congr
  intro p _
  rw [h p]

end Formations

namespace Formations

/-- Everything the loop needs to know about a successful merge step on a
stored nonzero ID: the lookup succeeds (no crash), the active queue
absorbs the other part\'s unconsumed frontier, the other registry entry is
deleted, and on the union-find side the two classes `aId` and `curId`
fuse into the new active ID while every other class is untouched. -/
theorem mergeStep_spec {g : Grid} {s : PState} {a : Pt} {aId curId : Nat} (q : Queue)
    (hu : UFInv s.nextId s.uf) (hid : ∀ p : Pt, idVal s p < s.nextId)
    (hra : rowOk g a = true)
    (hanz : aId ≠ 0) (haroot : mget s.uf.parents aId = none) (halt : aId < s.nextId)
    (hcnz : curId ≠ 0) (hcroot : mget s.uf.parents curId = none)
    (hclt : curId < s.nextId)
    (hpa : idVal s a ≠ 0) (hcva : canonVal s a = aId) (hne : curId ≠ aId)
    {qc : Queue} (hqc : mget s.parts curId = some qc) :
    ∃ aId' s4,
      mergeStep g s a aId (some curId) q = .ok (aId', q.extend qc, s4) ∧
      s4.partIds = s.partIds ∧ s4.nextId = s.nextId ∧
      s4.parts = mdel s.parts curId ∧
      UFInv s.nextId s4.uf ∧ (aId' = aId ∨ aId' = curId) ∧ aId' ≠ 0 ∧
      aId' < s.nextId ∧ mget s4.uf.parents aId' = none ∧ canonVal s4 a = aId' ∧
      (∀ k, mget s.uf.parents k = none → k ≠ aId → k ≠ curId →
        mget s4.uf.parents k = none) ∧
      (∀ p : Pt, canonVal s4 p =
        if canonVal s p = aId ∨ canonVal s p = curId then aId' else canonVal s p) := by
  obtain ⟨hu3, w, l, ri, rj, hri, hrj, hwl, hwz, hwlt, hwroot, hmap⟩ :=
    union_spec hu halt hclt hanz hcnz
  have hria : ri = aId := rootsTo_det hri (RootsTo.root aId haroot)
  have hrjc : rj = curId := rootsTo_det hrj (RootsTo.root curId hcroot)
  rw [hria, hrjc] at hwl
  -- the unified class map of the union write
  have hmap2 : ∀ j t, RootsTo s.uf.parents j t →
      RootsTo (s.uf.union aId curId).parents j
        (if t = aId ∨ t = curId then w else t) := by
    intro j t h
    have hm := hmap j t h
    have hval : (if t = aId ∨ t = curId then w else t) = (if t = l then w else t) := by
      rcases hwl with ⟨hw, hl⟩ | ⟨hw, hl⟩
      · by_cases ht1 : t = aId
        · rw [if_pos (Or.inl ht1),
            if_neg (show ¬(t = l) by rw [ht1, hl]; exact fun hcc => hne hcc.symm),
            hw, ht1]
        · by_cases ht2 : t = curId
          · rw [if_pos (Or.inr ht2), if_pos (show t = l by rw [ht2, hl])]
          · rw [if_neg (by simp [ht1, ht2]),
              if_neg (show ¬(t = l) by rw [hl]; exact ht2)]
      · by_cases ht1 : t = aId
        · rw [if_pos (Or.inl ht1), if_pos (show t = l by rw [ht1, hl])]
        · by_cases ht2 : t = curId
          · rw [if_pos (Or.inr ht2),
              if_neg (show ¬(t = l) by rw [hl]; exact ht1), hw, ht2]
          · rw [if_neg (by simp [ht1, ht2]),
              if_neg (show ¬(t = l) by rw [hl]; exact ht1)]
    rw [hval]
    exact hm
  set s3 : PState :=
    { s with parts := mdel s.parts curId, uf := s.uf.union aId curId } with hs3
  have hu3x : UFInv s3.nextId s3.uf := hu3
  have hid3 : ∀ p : Pt, idVal s3 p < s3.nextId := hid
  -- the canonical values of the unioned state
  have hval3 : ∀ p : Pt, canonVal s3 p =
      if canonVal s p = aId ∨ canonVal s p = curId then w else canonVal s p := by
    intro p
    exact canonVal_eq_of_rootsTo hu3x hid3 p
      (hmap2 (idVal s p) (canonVal s p) (canonVal_rootsTo hu hid p))
  have hva3 : canonVal s3 a = w := by
    rw [hval3 a, if_pos (Or.inl hcva)]
  obtain ⟨c5, c6, c7, c8, c9⟩ := canonId_spec hu3x hid3 a
  have hsome3 : (s3.partIds a).isSome = true := isSome_of_idVal_nz hpa
  have hcv3 : cVal s3 a = some (canonVal s3 a) := cVal_isSome hsome3
  refine ⟨canonVal s3 a, cState s3 a, ?_, rfl, rfl, rfl, c6, ?_, ?_, ?_, ?_, ?_, ?_, ?_⟩
  · show mergeStep g s a aId (some curId) q = _
    dsimp only [mergeStep]
    rw [if_neg hcnz, hqc]
    dsimp only
    rw [canonId_ok hra]
    dsimp only
    rw [hcv3]
  · rw [hva3]
    rcases hwl with ⟨hw, _⟩ | ⟨hw, _⟩
    · exact Or.inl hw
    · exact Or.inr hw
  · rw [hva3]
    exact hwz
  · rw [hva3]
    exact hwlt
  · rw [hva3, c8 w]
    exact hwroot
  · rw [c9 a]
  · intro k hk hk1 hk2
    rw [c8 k]
    have hrr := hmap2 k k (RootsTo.root k hk)
    rw [if_neg (by simp [hk1, hk2])] at hrr
    exact rootsTo_root hrr
  · intro p
    rw [c9 p, hval3 p, hva3]

end Formations

namespace Formations

theorem mem_mdel_ne {β : Type} {m : List (Nat × β)} {k : Nat} {e : Nat × β}
    (h : e ∈ mdel m k) : e.1 ≠ k := by
  have := List.of_mem_filter h
  simpa using this

/-- Writing the active queue back into the registry on loop exit restores
the query-level invariant. -/
theorem loopInv_exit {g : Grid} {cursor : Rect} {a : Pt} {aId : Nat} {q : Queue}
    {s : PState} (li : LoopInv g cursor a aId q s) :
    Inv g cursor { s with parts := mset s.parts aId q } := by
  refine ⟨li.uf, li.next_pos, li.ids_lt, li.dom, ?_, ?_, ?_⟩
  · show (keysOf (mset s.parts aId q)).Nodup
    exact nodup_keysOf_mset s.parts aId q li.parts_nodup
  · intro e he
    rcases mem_mset he with rfl | he1
    · exact ⟨li.aId_root, li.aId_nz, li.aId_lt⟩
    · exact li.parts_keys e he1
  · intro p hp
    show ∃ qq, mget (mset s.parts aId q) (canonVal s p) = some qq
    rcases li.reg p hp with hA | ⟨qq, hqq⟩
    · rw [hA]
      exact ⟨q, mget_mset_self s.parts aId q⟩
    · have hKne : canonVal s p ≠ aId := by
        intro hK
        rw [hK, li.notin] at hqq
        cases hqq
      rw [mget_mset_ne s.parts (fun h => hKne h.symm) q]
      exact ⟨qq, hqq⟩

/-- The combined effect of `flood`\'s merge block on a popped point whose
entry is present but whose class is not yet the active one: the merge
step succeeds and produces a state whose registry, union-find and class
structure are described uniformly for both the `curId = 0` (unexplored
point) and `curId ≠ 0` (genuine merge) paths. -/
theorem mergeCase_spec {g : Grid} {cursor : Rect} {a : Pt} {aId : Nat} {q : Queue}
    {s : PState} (li : LoopInv g cursor a aId q s) (hqe : q.isEmpty = false)
    (hsome : (s.partIds q.next.1).isSome = true)
    (hcid : canonVal s q.next.1 ≠ aId) :
    ∃ aId' q2 s4,
      mergeStep g (cState s q.next.1) a aId (cVal s q.next.1) q.next.2 =
        .ok (aId', q2, s4) ∧
      s4.partIds = s.partIds ∧ s4.nextId = s.nextId ∧
      UFInv s.nextId s4.uf ∧ aId' ≠ 0 ∧ aId' < s.nextId ∧
      mget s4.uf.parents aId' = none ∧
      (keysOf s4.parts).Nodup ∧
      (∀ e ∈ s4.parts, mget s4.uf.parents e.1 = none ∧ e.1 ≠ 0 ∧ e.1 < s.nextId) ∧
      mget s4.parts aId' = none ∧
      (∀ p : Pt, canonVal s4 p =
        if canonVal s p = aId ∨
            (canonVal s q.next.1 ≠ 0 ∧ canonVal s p = canonVal s q.next.1)
          then aId' else canonVal s p) ∧
      ((idVal s a ≠ 0 ∧ canonVal s4 a = aId') ∨
        (s.partIds a = some 0 ∧ q = ⟨[a], 0⟩ ∧ q.next.1 = a ∧ aId' = aId)) ∧
      (∀ p : Pt, idVal s p ≠ 0 →
        canonVal s4 p = aId' ∨ ∃ qq, mget s4.parts (canonVal s4 p) = some qq) ∧
      q2.i = q.i + 1 ∧
      (∃ ext : List Pt, q2.elems = q.elems ++ ext ∧
        (∀ x, x ∈ ext → ∃ e ∈ s.parts, x ∈ e.2.elems)) ∧
      q2.remaining + totalRemaining s4.parts + 1 ≤ q.remaining + totalRemaining s.parts ∧
      (Boxed g s → Boxed g s4) := by
  have hqi : q.i < q.elems.length := queue_not_empty_iff.1 hqe
  obtain ⟨c5, c6, c7, c8, c9⟩ := canonId_spec li.uf li.ids_lt q.next.1
  have c2 : (cState s q.next.1).partIds = s.partIds := rfl
  have c3 : (cState s q.next.1).parts = s.parts := rfl
  have c4 : (cState s q.next.1).nextId = s.nextId := rfl
  have hcvcur : cVal s q.next.1 = some (canonVal s q.next.1) := cVal_isSome hsome
  by_cases hc0 : canonVal s q.next.1 = 0
  · -- the popped point is unexplored: the merge step is the identity
    refine ⟨aId, q.next.2, cState s q.next.1, ?_, c2, c4, c6, li.aId_nz, li.aId_lt,
      (c8 aId).2 li.aId_root, ?_, ?_, ?_, ?_, ?_, ?_, rfl,
      ⟨[], by show q.elems = q.elems ++ []; simp, by simp⟩, ?_, ?_⟩
    · show mergeStep g (cState s q.next.1) a aId (cVal s q.next.1) q.next.2 = _
      rw [hcvcur]
      dsimp only [mergeStep]
      rw [if_pos hc0]
    · show (keysOf (cState s q.next.1).parts).Nodup
      rw [c3]
      exact li.parts_nodup
    · intro e he
      rw [c3] at he
      obtain ⟨h1, h2, h3⟩ := li.parts_keys e he
      exact ⟨(c8 e.1).2 h1, h2, h3⟩
    · show mget (cState s q.next.1).parts aId = none
      rw [c3]
      exact li.notin
    · intro p
      rw [c9 p]
      by_cases hpp : canonVal s p = aId
      · rw [if_pos (Or.inl hpp), hpp]
      · rw [if_neg (by simp [hpp, hc0])]
    · rcases li.anchor with ⟨h1, h2⟩ | ⟨h1, h2⟩
      · exact Or.inl ⟨h1, by rw [c9 a]; exact h2⟩
      · refine Or.inr ⟨h1, h2, ?_, rfl⟩
        rw [h2]
        rfl
    · intro p hp
      rcases li.reg p hp with h | ⟨qq, hqq⟩
      · exact Or.inl (by rw [c9 p]; exact h)
      · exact Or.inr ⟨qq, by rw [c9 p, c3]; exact hqq⟩
    · have h1 : q.next.2.remaining + 1 = q.remaining := by
        show q.elems.length - (q.i + 1) + 1 = q.elems.length - q.i
        omega
      have h2 : totalRemaining (cState s q.next.1).parts = totalRemaining s.parts := by
        rw [c3]
      omega
    · intro hb e he x hx
      rw [c3] at he
      exact hb e he x hx
  · -- genuine merge with the part that owns the popped point
    have hA1 : idVal s a ≠ 0 ∧ canonVal s a = aId := by
      rcases li.anchor with h | ⟨h2, h3⟩
      · exact h
      · exfalso
        apply hcid
        have hna : q.next.1 = a := by rw [h3]; rfl
        rw [hna] at hc0
        have hza : idVal s a = 0 := by
          unfold idVal
          rw [h2]
          rfl
        exact absurd (canonVal_zero li.uf li.ids_lt a hza) hc0
    have hpcur : idVal s q.next.1 ≠ 0 :=
      fun h0 => hc0 (canonVal_zero li.uf li.ids_lt q.next.1 h0)
    obtain ⟨qc, hqc⟩ : ∃ qc, mget s.parts (canonVal s q.next.1) = some qc := by
      rcases li.reg q.next.1 hpcur with h | h
      · exact absurd h hcid
      · exact h
    have hsomea : (s.partIds a).isSome = true := isSome_of_idVal_nz hA1.1
    have hra : rowOk g a = true := rowOk_of_inRange ((li.dom a).1 hsomea)
    have hu1 : UFInv (cState s q.next.1).nextId (cState s q.next.1).uf := c6
    have hid1 : ∀ p : Pt,
        idVal (cState s q.next.1) p < (cState s q.next.1).nextId :=
      li.ids_lt
    obtain ⟨aId', s4, hmerge, m1, m2, m3, m4, m5, m6, m7, m8, m9, m10, m11⟩ :=
      mergeStep_spec (g := g) (s := cState s q.next.1) (a := a) q.next.2 hu1 hid1 hra
        li.aId_nz ((c8 aId).2 li.aId_root) li.aId_lt
        hc0 ((c8 (canonVal s q.next.1)).2 (canonVal_root li.uf li.ids_lt q.next.1))
        (canonVal_lt li.uf li.ids_lt q.next.1)
        hA1.1 (by rw [c9 a]; exact hA1.2) hcid hqc
    have hF : ∀ p : Pt, canonVal s4 p =
        if canonVal s p = aId ∨
            (canonVal s q.next.1 ≠ 0 ∧ canonVal s p = canonVal s q.next.1)
          then aId' else canonVal s p := by
      intro p
      rw [m11 p, c9 p]
      refine if_congr ?_ rfl rfl
      simp [hc0]
    refine ⟨aId', q.next.2.extend qc, s4, ?_, ?_, ?_, m4, m6, m7, m8,
      ?_, ?_, ?_, hF, Or.inl ⟨hA1.1, m9⟩, ?_, rfl, ?_, ?_, ?_⟩
    · rw [hcvcur]
      exact hmerge
    · rw [m1, c2]
    · rw [m2, c4]
    · show (keysOf s4.parts).Nodup
      rw [m3]
      exact nodup_keysOf_mdel s.parts (canonVal s q.next.1) li.parts_nodup
    · intro e he
      rw [m3] at he
      have hem : e ∈ s.parts := mem_mdel he
      have hene : e.1 ≠ canonVal s q.next.1 := mem_mdel_ne he
      obtain ⟨h1, h2, h3⟩ := li.parts_keys e hem
      refine ⟨m10 e.1 ((c8 e.1).2 h1) ?_ hene, h2, h3⟩
      intro hEq
      have hsome2 := mget_isSome_of_mem hem
      rw [hEq, li.notin] at hsome2
      cases hsome2
    · show mget s4.parts aId' = none
      rw [m3]
      rcases m5 with h | h
      · rw [h, mget_mdel_ne _ hcid]
        exact li.notin
      · rw [h]
        exact mget_mdel_self _ _
    · intro p hp
      by_cases hcc : canonVal s p = aId ∨
          (canonVal s q.next.1 ≠ 0 ∧ canonVal s p = canonVal s q.next.1)
      · exact Or.inl (by rw [hF p, if_pos hcc])
      · rcases li.reg p hp with h | ⟨qq, hqq⟩
        · exact absurd (Or.inl h) hcc
        · have hB : canonVal s p ≠ canonVal s q.next.1 :=
            fun hB => hcc (Or.inr ⟨hc0, hB⟩)
          refine Or.inr ⟨qq, ?_⟩
          rw [hF p, if_neg hcc, m3, mget_mdel_ne _ (fun h => hB h.symm)]
          exact hqq
    · refine ⟨qc.elems.drop qc.i, rfl, ?_⟩
      intro x hx
      exact ⟨(canonVal s q.next.1, qc), mget_mem hqc, List.mem_of_mem_drop hx⟩
    · have hext : (q.next.2.extend qc).remaining = q.next.2.remaining + qc.remaining :=
        remaining_extend q.next.2 qc (by show q.i + 1 ≤ q.elems.length; omega)
      have hdel : totalRemaining s.parts =
          totalRemaining (mdel s.parts (canonVal s q.next.1)) + qc.remaining :=
        totalRemaining_mdel li.parts_nodup hqc
      have htr4 : totalRemaining s4.parts =
          totalRemaining (mdel s.parts (canonVal s q.next.1)) := by
        rw [m3]
        rfl
      have hrem : q.next.2.remaining + 1 = q.remaining := by
        show q.elems.length - (q.i + 1) + 1 = q.elems.length - q.i
        omega
      omega
    · intro hb e he x hx
      rw [m3] at he
      exact hb e (mem_mdel he) x hx

end Formations

namespace Formations

/-- Soundness of the frontier loop: under the loop invariant any normal
completion restores the query-level invariant, the class structure has
only merged, `nextId` is unchanged, point `a` is assigned, and (for
nonempty footprints) frontier queues stay in-grid; and on a nonempty
footprint, with in-grid frontiers and a valid row for `b`, the loop
completes once the measure is below the fuel. -/
theorem floodLoop_sound (g : Grid) (cursor : Rect) (a b : Pt) :
    ∀ (fuel : Nat) (aId : Nat) (q : Queue) (s : PState),
      LoopInv g cursor a aId q s →
      (∀ s', floodLoop g cursor a b fuel aId q s = .ok s' →
        Inv g cursor s' ∧ CanonMap s s' ∧ s'.nextId = s.nextId ∧ idVal s' a ≠ 0 ∧
        (CursorOk cursor → (∀ x ∈ q.elems, g.inRange x) →
          Boxed g s → Boxed g s')) ∧
      (CursorOk cursor → (∀ x ∈ q.elems, g.inRange x) → Boxed g s →
        rowOk g b = true → measureM g aId q s < fuel →
        ∃ s', floodLoop g cursor a b fuel aId q s = .ok s') := by
  intro fuel
  induction fuel with
  | zero =>
    intro aId q s _li
    refine ⟨fun s' hs' => Res.noConfusion hs', ?_⟩
    intro _ _ _ _ hm
    exact absurd hm (Nat.not_lt_zero _)
  | succ fuel ih =>
    intro aId q s li
    cases hqe : q.isEmpty with
    | true =>
      have heq : floodLoop g cursor a b (fuel + 1) aId q s =
          .ok { s with parts := mset s.parts aId q } := by
        dsimp only [floodLoop]
        rw [hqe, if_pos rfl]
      have hpa : idVal s a ≠ 0 := by
        rcases li.anchor with ⟨h1, _⟩ | ⟨_, h2⟩
        · exact h1
        · rw [h2] at hqe
          exact Bool.noConfusion hqe
      refine ⟨?_, ?_⟩
      · intro s' hs'
        rw [heq] at hs'
        injection hs' with hs'
        subst hs'
        refine ⟨loopInv_exit li, canonMap_setParts s (mset s.parts aId q), rfl,
          hpa, ?_⟩
        intro _hc hq hb e he x hx
        rcases mem_mset he with rfl | he1
        · exact hq x hx
        · exact hb e he1 x hx
      · intro _hc _hq _hb _hrb _hm
        exact ⟨_, heq⟩
    | false =>
      have hqi : q.i < q.elems.length := queue_not_empty_iff.1 hqe
      by_cases hrow : rowOk g q.next.1 = true
      · cases hps : s.partIds q.next.1 with
        | none =>
          have heq : floodLoop g cursor a b (fuel + 1) aId q s = .crash := by
            dsimp only [floodLoop]
            rw [hqe]
            simp only [Bool.false_eq_true, if_false]
            rw [canonId_ok hrow]
            dsimp only
            rw [cVal_none hps]
            rw [if_neg (show ¬(none : Option Nat) = some aId from
              fun hc => Option.noConfusion hc)]
            rfl
          refine ⟨?_, ?_⟩
          · intro s' hs'
            rw [heq] at hs'
            exact Res.noConfusion hs'
          · intro _hc hq _hb _hrb _hm
            have hin := (li.dom q.next.1).2 (hq q.next.1 (queue_next_mem hqe))
            rw [hps] at hin
            exact Bool.noConfusion hin
        | some v =>
          have hsome : (s.partIds q.next.1).isSome = true := by
            rw [hps]
            rfl
          have hcvcur : cVal s q.next.1 = some (canonVal s q.next.1) :=
            cVal_isSome hsome
          obtain ⟨c5, c6, c7, c8, c9⟩ := canonId_spec li.uf li.ids_lt q.next.1
          have c2x : (cState s q.next.1).partIds = s.partIds := rfl
          by_cases hcid : canonVal s q.next.1 = aId
          · -- continue: the popped point is already in the active class
            have heq : floodLoop g cursor a b (fuel + 1) aId q s =
                floodLoop g cursor a b fuel aId q.next.2 (cState s q.next.1) := by
              dsimp only [floodLoop]
              rw [hqe]
              simp only [Bool.false_eq_true, if_false]
              rw [canonId_ok hrow]
              dsimp only
              rw [if_pos (show cVal s q.next.1 = some aId from by rw [hcvcur, hcid])]
            have hanch1 : idVal s a ≠ 0 ∧ canonVal s a = aId := by
              rcases li.anchor with h | ⟨h2, h3⟩
              · exact h
              · exfalso
                have hna : q.next.1 = a := by rw [h3]; rfl
                have hza : idVal s a = 0 := by
                  unfold idVal
                  rw [h2]
                  rfl
                rw [hna, canonVal_zero li.uf li.ids_lt a hza] at hcid
                exact li.aId_nz hcid.symm
            have li1 : LoopInv g cursor a aId q.next.2 (cState s q.next.1) := by
              refine ⟨c6, li.next_pos, li.ids_lt, li.dom, li.parts_nodup, ?_, li.notin,
                li.aId_nz, (c8 aId).2 li.aId_root, li.aId_lt, ?_, ?_⟩
              · intro e he
                obtain ⟨h1, h2, h3⟩ := li.parts_keys e he
                exact ⟨(c8 e.1).2 h1, h2, h3⟩
              · exact Or.inl ⟨hanch1.1, by rw [c9 a]; exact hanch1.2⟩
              · intro p hp
                rcases li.reg p hp with h | ⟨qq, hqq⟩
                · exact Or.inl (by rw [c9 p]; exact h)
                · exact Or.inr ⟨qq, by rw [c9 p]; exact hqq⟩
            obtain ⟨ihB, ihC⟩ := ih aId q.next.2 (cState s q.next.1) li1
            refine ⟨?_, ?_⟩
            · intro s' hs'
              rw [heq] at hs'
              obtain ⟨hInv, hCM, hNext, hPa, hBox⟩ := ihB s' hs'
              refine ⟨hInv, canonMap_trans (canonMap_of_eq c2x c9) hCM,
                hNext, hPa, ?_⟩
              intro hc hq hb
              exact hBox hc hq hb
            · intro hc hq hb hrb hm
              rw [heq]
              refine ihC hc hq hb hrb ?_
              have hcnt : countNA g (cState s q.next.1) aId =
                  countNA g s aId := countNA_congr c9
              have hrem : q.next.2.remaining + 1 = q.remaining := by
                show q.elems.length - (q.i + 1) + 1 = q.elems.length - q.i
                omega
              have htr : totalRemaining (cState s q.next.1).parts =
                  totalRemaining s.parts := rfl
              unfold measureM at hm ⊢
              rw [hcnt, htr]
              omega
          · -- merge/stamp iteration
            obtain ⟨aId', q2, s4, hmerge, p1, p2, p3, p4, p5, p6, p7, p8, p9, p10,
              p11, p12, p13, p14, p15, p16⟩ := mergeCase_spec li hqe hsome hcid
            have hcond : ¬cVal s q.next.1 = some aId := by
              intro hc
              rw [hcvcur] at hc
              exact hcid (Option.some.inj hc)
            have hwrite : writeId g s4 q.next.1 aId' = Res.ok { s4 with
                partIds := fun p => if p = q.next.1 then some aId' else s4.partIds p } := by
              unfold writeId
              exact if_pos hrow
            have hcurin : g.inRange q.next.1 := (li.dom q.next.1).1 hsome
            have hrowa : rowOk g a = true := by
              rcases p11 with ⟨hA, _⟩ | ⟨_, _, hA3, _⟩
              · exact rowOk_of_inRange ((li.dom a).1 (isSome_of_idVal_nz hA))
              · rw [← hA3]
                exact hrow
            cases hpn : pushNeighbors g cursor q.next.1 aId' q2 { s4 with
                partIds := fun p => if p = q.next.1 then some aId' else s4.partIds p } with
            | fuelOut =>
              have heq : floodLoop g cursor a b (fuel + 1) aId q s = .fuelOut := by
                dsimp only [floodLoop]
                rw [hqe]
                simp only [Bool.false_eq_true, if_false]
                rw [canonId_ok hrow]
                dsimp only
                rw [if_neg hcond, hmerge]
                dsimp only
                rw [hwrite]
                dsimp only
                rw [hpn]
              refine ⟨?_, ?_⟩
              · intro s' hs'
                rw [heq] at hs'
                exact Res.noConfusion hs'
              · intro hc _hq _hb _hrb _hm
                obtain ⟨q3x, s6x, hok⟩ := pushLoop_total g aId'
                  (g.adjPoints (cursor.translate q.next.1)) q2 { s4 with
                    partIds := fun p => if p = q.next.1 then some aId' else s4.partIds p }
                  (fun p hp => rowOk_of_inRange (adjPoints_inRange hc q.next.1 hp))
                have hok2 : pushNeighbors g cursor q.next.1 aId' q2 { s4 with
                    partIds := fun p => if p = q.next.1 then some aId' else s4.partIds p } =
                    .ok (q3x, s6x) := hok
                rw [hpn] at hok2
                exact Res.noConfusion hok2
            | crash =>
              have heq : floodLoop g cursor a b (fuel + 1) aId q s = .crash := by
                dsimp only [floodLoop]
                rw [hqe]
                simp only [Bool.false_eq_true, if_false]
                rw [canonId_ok hrow]
                dsimp only
                rw [if_neg hcond, hmerge]
                dsimp only
                rw [hwrite]
                dsimp only
                rw [hpn]
              refine ⟨?_, ?_⟩
              · intro s' hs'
                rw [heq] at hs'
                exact Res.noConfusion hs'
              · intro hc _hq _hb _hrb _hm
                obtain ⟨q3x, s6x, hok⟩ := pushLoop_total g aId'
                  (g.adjPoints (cursor.translate q.next.1)) q2 { s4 with
                    partIds := fun p => if p = q.next.1 then some aId' else s4.partIds p }
                  (fun p hp => rowOk_of_inRange (adjPoints_inRange hc q.next.1 hp))
                have hok2 : pushNeighbors g cursor q.next.1 aId' q2 { s4 with
                    partIds := fun p => if p = q.next.1 then some aId' else s4.partIds p } =
                    .ok (q3x, s6x) := hok
                rw [hpn] at hok2
                exact Res.noConfusion hok2
            | ok qs3 =>
              obtain ⟨q3, s6⟩ := qs3
              have hu5 : UFInv ({ s4 with
                  partIds := fun p => if p = q.next.1 then some aId' else s4.partIds p } :
                    PState).nextId
                  ({ s4 with
                  partIds := fun p => if p = q.next.1 then some aId' else s4.partIds p } :
                    PState).uf := by
                show UFInv s4.nextId s4.uf
                rw [p2]
                exact p3
              have hid5 : ∀ p : Pt, idVal { s4 with
                  partIds := fun p => if p = q.next.1 then some aId' else s4.partIds p } p <
                  ({ s4 with
                  partIds := fun p => if p = q.next.1 then some aId' else s4.partIds p } :
                    PState).nextId := by
                intro p
                rw [idVal_stamp aId' q.next.1 p]
                show (if p = q.next.1 then aId' else idVal s4 p) < s4.nextId
                rw [p2]
                by_cases hp : p = q.next.1
                · rw [if_pos hp]
                  exact p5
                · rw [if_neg hp]
                  show idVal s4 p < s.nextId
                  unfold idVal
                  rw [p1]
                  exact li.ids_lt p
              obtain ⟨f1, f2, f3, f4, f5, f6, f7, f8, f9⟩ :=
                pushLoop_ok_spec g aId' (g.adjPoints (cursor.translate q.next.1)) q2
                  { s4 with
                    partIds := fun p => if p = q.next.1 then some aId' else s4.partIds p }
                  q3 s6 hpn hu5 hid5
              have hu6 : UFInv s6.nextId s6.uf := by
                rw [f3]
                exact f4
              have hid6 : ∀ p : Pt, idVal s6 p < s6.nextId := by
                intro p
                unfold idVal
                rw [f1, f3]
                exact hid5 p
              obtain ⟨g5, g6, g7, g8, g9⟩ := canonId_spec hu6 hid6 a
              have hug : UFInv (cState s6 a).nextId (cState s6 a).uf := g6
              have hidg : ∀ p : Pt, idVal (cState s6 a) p < (cState s6 a).nextId := hid6
              obtain ⟨h5, h6, h7, h8, h9⟩ := canonId_spec hug hidg b
              have hNt : (cState (cState s6 a) b).nextId = s.nextId := by
                show s6.nextId = s.nextId
                rw [f3]
                show s4.nextId = s.nextId
                exact p2
              have hPt : (cState (cState s6 a) b).partIds =
                  fun p => if p = q.next.1 then some aId' else s.partIds p := by
                show s6.partIds = _
                rw [f1]
                show (fun p => if p = q.next.1 then some aId' else s4.partIds p) = _
                rw [p1]
              have hTp : (cState (cState s6 a) b).parts = s4.parts := by
                show s6.parts = s4.parts
                exact f2.trans rfl
              have hkt : ∀ j, mget (cState (cState s6 a) b).uf.parents j = none ↔
                  mget s4.uf.parents j = none := by
                intro j
                rw [h8 j, g8 j, f6 j]
              have hUt : UFInv s.nextId (cState (cState s6 a) b).uf := by
                have hx : UFInv s6.nextId (cState (cState s6 a) b).uf := h6
                rw [f3] at hx
                have hx2 : UFInv s4.nextId (cState (cState s6 a) b).uf := hx
                rw [← p2]
                exact hx2
              have hva5 : ∀ p : Pt,
                  canonVal { s4 with
                    partIds := fun p => if p = q.next.1 then some aId' else s4.partIds p } p =
                    if p = q.next.1 then aId' else canonVal s4 p := by
                intro p
                rw [canonVal_stamp aId' q.next.1 p]
                by_cases hp : p = q.next.1
                · rw [if_pos hp, if_pos hp, find_of_root p6]
                · rw [if_neg hp, if_neg hp]
              have hvt : ∀ p : Pt, canonVal (cState (cState s6 a) b) p =
                  if p = q.next.1 then aId' else canonVal s4 p := by
                intro p
                rw [h9 p, g9 p, f7 p, hva5 p]
              have hCM : CanonMap s (cState (cState s6 a) b) := by
                refine ⟨?_, fun x => if x = aId ∨
                    (canonVal s q.next.1 ≠ 0 ∧ x = canonVal s q.next.1) then aId' else x,
                  ?_, ?_⟩
                · intro p hp0
                  unfold idVal at hp0 ⊢
                  simp only [hPt] at hp0
                  by_cases hp : p = q.next.1
                  · rw [if_pos hp] at hp0
                    exact absurd hp0 p4
                  · rw [if_neg hp] at hp0
                    exact hp0
                · intro x hx
                  show (if x = aId ∨ (canonVal s q.next.1 ≠ 0 ∧ x = canonVal s q.next.1)
                    then aId' else x) ≠ 0
                  by_cases hcc : x = aId ∨
                      (canonVal s q.next.1 ≠ 0 ∧ x = canonVal s q.next.1)
                  · rw [if_pos hcc]
                    exact p4
                  · rw [if_neg hcc]
                    exact hx
                · intro p hp
                  show canonVal (cState (cState s6 a) b) p =
                    (if canonVal s p = aId ∨
                        (canonVal s q.next.1 ≠ 0 ∧ canonVal s p = canonVal s q.next.1)
                      then aId' else canonVal s p)
                  rw [hvt p]
                  by_cases hpc : p = q.next.1
                  · rw [if_pos hpc]
                    have hnzc : canonVal s q.next.1 ≠ 0 := by
                      rw [← hpc]
                      exact canonVal_nz li.uf li.ids_lt p hp
                    rw [hpc, if_pos (Or.inr ⟨hnzc, rfl⟩)]
                  · rw [if_neg hpc, p10 p]
              have liT : LoopInv g cursor a aId' q3 (cState (cState s6 a) b) := by
                refine ⟨?_, ?_, ?_, ?_, ?_, ?_, ?_, p4, (hkt aId').2 p6, ?_, ?_, ?_⟩
                · rw [hNt]
                  exact hUt
                · rw [hNt]
                  exact li.next_pos
                · intro p
                  rw [hNt]
                  unfold idVal
                  simp only [hPt]
                  by_cases hp : p = q.next.1
                  · rw [if_pos hp]
                    exact p5
                  · rw [if_neg hp]
                    exact li.ids_lt p
                · intro p
                  simp only [hPt]
                  by_cases hp : p = q.next.1
                  · rw [if_pos hp, hp]
                    exact ⟨fun _ => hcurin, fun _ => rfl⟩
                  · rw [if_neg hp]
                    exact li.dom p
                · show (keysOf (cState (cState s6 a) b).parts).Nodup
                  rw [hTp]
                  exact p7
                · intro e he
                  rw [hTp] at he
                  obtain ⟨k1, k2, k3⟩ := p8 e he
                  exact ⟨(hkt e.1).2 k1, k2, by rw [hNt]; exact k3⟩
                · show mget (cState (cState s6 a) b).parts aId' = none
                  rw [hTp]
                  exact p9
                · rw [hNt]
                  exact p5
                · refine Or.inl ⟨?_, ?_⟩
                  · unfold idVal
                    simp only [hPt]
                    by_cases hp : a = q.next.1
                    · rw [if_pos hp]
                      exact p4
                    · rw [if_neg hp]
                      rcases p11 with ⟨hA, _⟩ | ⟨_, _, hA3, _⟩
                      · exact hA
                      · exact absurd hA3.symm hp
                  · rw [hvt a]
                    by_cases hp : a = q.next.1
                    · rw [if_pos hp]
                    · rw [if_neg hp]
                      rcases p11 with ⟨_, hA2⟩ | ⟨_, _, hA3, _⟩
                      · exact hA2
                      · exact absurd hA3.symm hp
                · intro p hp
                  unfold idVal at hp
                  simp only [hPt] at hp
                  rw [hvt p]
                  by_cases hpc : p = q.next.1
                  · rw [if_pos hpc]
                    exact Or.inl rfl
                  · rw [if_neg hpc]
                    rw [if_neg hpc] at hp
                    rcases p12 p hp with h | ⟨qq, hqq⟩
                    · exact Or.inl h
                    · refine Or.inr ⟨qq, ?_⟩
                      rw [hTp]
                      exact hqq
              have hpaT : idVal (cState (cState s6 a) b) a ≠ 0 := by
                unfold idVal
                simp only [hPt]
                by_cases hp : a = q.next.1
                · rw [if_pos hp]
                  exact p4
                · rw [if_neg hp]
                  rcases p11 with ⟨hA, _⟩ | ⟨_, _, hA3, _⟩
                  · exact hA
                  · exact absurd hA3.symm hp
              have hq3box : CursorOk cursor → (∀ x ∈ q.elems, g.inRange x) →
                  Boxed g s → ∀ x ∈ q3.elems, g.inRange x := by
                intro hc hq hb x hx
                obtain ⟨added, ha1, _ha2, ha3⟩ := f8
                rw [ha1] at hx
                rcases List.mem_append.1 hx with hx1 | hx2
                · obtain ⟨ext, he1, he2⟩ := p14
                  rw [he1] at hx1
                  rcases List.mem_append.1 hx1 with hx3 | hx4
                  · exact hq x hx3
                  · obtain ⟨e, hee, hxe⟩ := he2 x hx4
                    exact hb e hee x hxe
                · exact adjPoints_inRange hc q.next.1 (ha3 x hx2)
              have hBoxT : Boxed g s → Boxed g (cState (cState s6 a) b) := by
                intro hb e he x hx
                rw [hTp] at he
                exact p16 hb e he x hx
              have hmeasT : CursorOk cursor → (∀ x ∈ q.elems, g.inRange x) →
                  measureM g aId' q3 (cState (cState s6 a) b) + 2 ≤
                    measureM g aId q s := by
                intro hc hq
                obtain ⟨added, ha1, ha2, _ha3⟩ := f8
                have hlen4 : added.length ≤ 4 :=
                  le_trans ha2 (adjPoints_length_le g (cursor.translate q.next.1))
                have hq2le : q2.i ≤ q2.elems.length := by
                  obtain ⟨ext, he1, _⟩ := p14
                  rw [he1, p13, List.length_append]
                  omega
                have hrem3 : q3.remaining = q2.remaining + added.length := by
                  unfold Queue.remaining
                  rw [ha1, f9, List.length_append]
                  omega
                have htrT : totalRemaining (cState (cState s6 a) b).parts =
                    totalRemaining s4.parts := by
                  rw [hTp]
                have hcnt : countNA g (cState (cState s6 a) b) aId' <
                    countNA g s aId := by
                  unfold countNA
                  refine filter_length_lt_of_mem ?_
                    (inRange_mem_gridList (hq q.next.1 (queue_next_mem hqe))) ?_ ?_
                  · intro x _ hqx
                    rw [Bool.not_eq_true', decide_eq_false_iff_not] at hqx ⊢
                    intro hsx
                    apply hqx
                    rw [hvt x]
                    by_cases hxc : x = q.next.1
                    · rw [if_pos hxc]
                    · rw [if_neg hxc, p10 x, if_pos (Or.inl hsx)]
                  · rw [Bool.not_eq_true', decide_eq_false_iff_not]
                    exact hcid
                  · rw [Bool.not_eq_false', decide_eq_true_eq]
                    rw [hvt q.next.1, if_pos rfl]
                have hrem2 : q2.remaining + totalRemaining s4.parts + 1 ≤
                    q.remaining + totalRemaining s.parts := p15
                unfold measureM
                rw [htrT, hrem3]
                omega
              by_cases hrowb : rowOk g b = true
              · have heq : floodLoop g cursor a b (fuel + 1) aId q s =
                    (if cVal s6 a = cVal (cState s6 a) b then
                      .ok { cState (cState s6 a) b with
                            parts := mset (cState (cState s6 a) b).parts aId' q3 }
                     else floodLoop g cursor a b fuel aId' q3 (cState (cState s6 a) b)) := by
                  dsimp only [floodLoop]
                  rw [hqe]
                  simp only [Bool.false_eq_true, if_false]
                  rw [canonId_ok hrow]
                  dsimp only
                  rw [if_neg hcond, hmerge]
                  dsimp only
                  rw [hwrite]
                  dsimp only
                  rw [hpn]
                  dsimp only
                  rw [canonId_ok hrowa]
                  dsimp only
                  rw [canonId_ok hrowb]
                by_cases hfin : cVal s6 a = cVal (cState s6 a) b
                · rw [if_pos hfin] at heq
                  refine ⟨?_, ?_⟩
                  · intro s' hs'
                    rw [heq] at hs'
                    injection hs' with hs'
                    subst hs'
                    refine ⟨loopInv_exit liT,
                      canonMap_trans hCM (canonMap_setParts (cState (cState s6 a) b)
                        (mset (cState (cState s6 a) b).parts aId' q3)),
                      ?_, hpaT, ?_⟩
                    · show (cState (cState s6 a) b).nextId = s.nextId
                      exact hNt
                    · intro hc hq hb e he x hx
                      rcases mem_mset he with rfl | he1
                      · exact hq3box hc hq hb x hx
                      · rw [hTp] at he1
                        exact p16 hb e he1 x hx
                  · intro _hc _hq _hb _hrb _hm
                    exact ⟨_, heq⟩
                · rw [if_neg hfin] at heq
                  obtain ⟨ihB, ihC⟩ := ih aId' q3 (cState (cState s6 a) b) liT
                  refine ⟨?_, ?_⟩
                  · intro s' hs'
                    rw [heq] at hs'
                    obtain ⟨hInv, hCM2, hNext2, hPa2, hBox2⟩ := ihB s' hs'
                    refine ⟨hInv, canonMap_trans hCM hCM2, by rw [hNext2, hNt], hPa2, ?_⟩
                    intro hc hq hb
                    exact hBox2 hc (hq3box hc hq hb) (hBoxT hb)
                  · intro hc hq hb hrb hm
                    rw [heq]
                    refine ihC hc (hq3box hc hq hb) (hBoxT hb) hrb ?_
                    have := hmeasT hc hq
                    omega
              · have heq : floodLoop g cursor a b (fuel + 1) aId q s = .crash := by
                  dsimp only [floodLoop]
                  rw [hqe]
                  simp only [Bool.false_eq_true, if_false]
                  rw [canonId_ok hrow]
                  dsimp only
                  rw [if_neg hcond, hmerge]
                  dsimp only
                  rw [hwrite]
                  dsimp only
                  rw [hpn]
                  dsimp only
                  rw [canonId_ok hrowa]
                  dsimp only
                  rw [canonId_crash hrowb]
                refine ⟨?_, ?_⟩
                · intro s' hs'
                  rw [heq] at hs'
                  exact Res.noConfusion hs'
                · intro _hc _hq _hb hrb _hm
                  exact absurd hrb hrowb
      · -- the popped point\'s row is out of range: the read throws
        have heq : floodLoop g cursor a b (fuel + 1) aId q s = .crash := by
          dsimp only [floodLoop]
          rw [hqe]
          simp only [Bool.false_eq_true, if_false]
          rw [canonId_crash hrow]
        refine ⟨?_, ?_⟩
        · intro s' hs'
          rw [heq] at hs'
          exact Res.noConfusion hs'
        · intro _hc hq _hb _hrb _hm
          exact absurd (rowOk_of_inRange (hq q.next.1 (queue_next_mem hqe))) hrow

end Formations

namespace Formations

theorem intRange_length (s e : Int) : (intRange s e).length = (e - s).toNat := by
  unfold intRange
  simp

theorem prodPts_length (xs ys : List Int) :
    (prodPts xs ys).length = xs.length * ys.length := by
  unfold prodPts
  induction xs with
  | nil => simp
  | cons x t ih =>
    simp only [List.flatMap_cons, List.length_append, List.length_map, ih,
      List.length_cons]
    ring

theorem gridList_length (g : Grid) :
    (gridList g).length = g.w.toNat * g.h.toNat := by
  unfold gridList
  rw [prodPts_length, intRange_length, intRange_length]
  have h0 : g.w - 0 = g.w := by ring
  have h1 : g.h - 0 = g.h := by ring
  rw [h0, h1]

theorem countNA_le (g : Grid) (t : PState) (v : Nat) :
    countNA g t v ≤ (gridList g).length := by
  unfold countNA
  exact List.length_filter_le _ _

/-- Soundness of `flood`: a normal completion yields a well-formed state
with classes only merged and `a` assigned; and on a nonempty footprint
with in-grid frontiers, an in-grid `a` and a valid row for `b`, it
completes. -/
theorem flood_sound (g : Grid) (cursor : Rect) (s : PState) (a b : Pt)
    (hinv : Inv g cursor s) :
    (∀ s', flood g cursor s a b = .ok s' →
      Inv g cursor s' ∧ CanonMap s s' ∧ s.nextId ≤ s'.nextId ∧ idVal s' a ≠ 0 ∧
      (CursorOk cursor → Boxed g s → Boxed g s')) ∧
    (CursorOk cursor → Boxed g s → g.inRange a → rowOk g b = true →
      ∃ s', flood g cursor s a b = .ok s') := by
  by_cases hrowA : rowOk g a = true
  · cases hpsa : s.partIds a with
    | none =>
      have heq : flood g cursor s a b = .crash := by
        dsimp only [flood]
        rw [canonId_ok hrowA]
        dsimp only
        rw [cVal_none hpsa]
      refine ⟨?_, ?_⟩
      · intro s' hs'
        rw [heq] at hs'
        exact Res.noConfusion hs'
      · intro _hc _hb hain _hrb
        have hsome := (hinv.dom a).2 hain
        rw [hpsa] at hsome
        exact Bool.noConfusion hsome
    | some v =>
      have hsome : (s.partIds a).isSome = true := by
        rw [hpsa]
        rfl
      have hain : g.inRange a := (hinv.dom a).1 hsome
      have hcva : cVal s a = some (canonVal s a) := cVal_isSome hsome
      obtain ⟨c5, c6, c7, c8, c9⟩ := canonId_spec hinv.uf hinv.ids_lt a
      by_cases h0 : canonVal s a = 0
      · -- populate a fresh singleton part at `a`
        have hid0 : idVal s a = 0 := by
          by_contra hnz
          exact canonVal_nz hinv.uf hinv.ids_lt a hnz h0
        have hv0 : v = 0 := by
          have h1 : idVal s a = v := by
            unfold idVal
            rw [hpsa]
            rfl
          exact h1.symm.trans hid0
        have hpa0 : s.partIds a = some 0 := by
          rw [hpsa, hv0]
        have heq : flood g cursor s a b =
            floodLoop g cursor a b
              (floodFuel g { cState s a with nextId := (cState s a).nextId + 1 })
              (cState s a).nextId ⟨[a], 0⟩
              { cState s a with nextId := (cState s a).nextId + 1 } := by
          dsimp only [flood]
          rw [canonId_ok hrowA]
          dsimp only
          rw [hcva]
          dsimp only
          rw [if_pos h0]
        have hcv : ∀ p : Pt,
            canonVal { cState s a with nextId := (cState s a).nextId + 1 } p =
              canonVal s p := fun p => c9 p
        have li : LoopInv g cursor a (cState s a).nextId ⟨[a], 0⟩
            { cState s a with nextId := (cState s a).nextId + 1 } := by
          refine ⟨c6.mono (Nat.le_succ _), le_trans hinv.next_pos (Nat.le_succ _),
            fun p => lt_trans (hinv.ids_lt p) (Nat.lt_succ_self _), hinv.dom,
            hinv.parts_nodup,
            ?_, ?_, ?_, ?_, Nat.lt_succ_self _, Or.inr ⟨hpa0, rfl⟩, ?_⟩
          · intro e he
            obtain ⟨h1, h2, h3⟩ := hinv.parts_keys e he
            exact ⟨(c8 e.1).2 h1, h2, lt_trans h3 (Nat.lt_succ_self _)⟩
          · exact (mget_eq_none_iff _ _).2
              (fun e he => Nat.ne_of_lt (hinv.parts_keys e he).2.2)
          · have := hinv.next_pos
            show s.nextId ≠ 0
            omega
          · exact (mget_eq_none_iff _ _).2
              (fun e he => Nat.ne_of_lt (c6.lt e he).1)
          · intro p hp
            obtain ⟨qq, hqq⟩ := hinv.reg p hp
            exact Or.inr ⟨qq, by rw [hcv p]; exact hqq⟩
        obtain ⟨lB, lC⟩ := floodLoop_sound g cursor a b _ _ _ _ li
        refine ⟨?_, ?_⟩
        · intro s' hs'
          rw [heq] at hs'
          obtain ⟨hInv, hCM, hNext, hPa, hBox⟩ := lB s' hs'
          refine ⟨hInv, canonMap_trans (canonMap_of_eq
            (show ({ cState s a with
              nextId := (cState s a).nextId + 1 } : PState).partIds = s.partIds
              from rfl) hcv) hCM, ?_, hPa, ?_⟩
          · rw [hNext]
            exact Nat.le_succ _
          · intro hc hb
            refine hBox hc ?_ hb
            intro x hx
            have hxa : x = a := by simpa using hx
            rw [hxa]
            exact hain
        · intro hc hb _hain hrb
          rw [heq]
          refine lC hc ?_ hb hrb ?_
          · intro x hx
            have hxa : x = a := by simpa using hx
            rw [hxa]
            exact hain
          · have hcnt : countNA g
                { cState s a with nextId := (cState s a).nextId + 1 }
                (cState s a).nextId ≤ g.w.toNat * g.h.toNat := by
              rw [← gridList_length g]
              exact countNA_le _ _ _
            have hq1 : (⟨[a], 0⟩ : Queue).remaining = 1 := rfl
            have htr : totalRemaining ({ cState s a with
                nextId := (cState s a).nextId + 1 } : PState).parts =
                totalRemaining s.parts := rfl
            unfold measureM floodFuel
            rw [hq1, htr]
            omega
      · -- resume the existing part that contains `a`
        have hpaNe : idVal s a ≠ 0 :=
          fun hz => h0 (canonVal_zero hinv.uf hinv.ids_lt a hz)
        obtain ⟨qa, hqa0⟩ := hinv.reg a hpaNe
        have hqa : mget (cState s a).parts (canonVal s a) = some qa := hqa0
        have heq : flood g cursor s a b =
            floodLoop g cursor a b (floodFuel g (cState s a)) (canonVal s a) qa
              { cState s a with
                parts := mdel (cState s a).parts (canonVal s a) } := by
          dsimp only [flood]
          rw [canonId_ok hrowA]
          dsimp only
          rw [hcva]
          dsimp only
          rw [if_neg h0, hqa]
        have hcv : ∀ p : Pt,
            canonVal { cState s a with
              parts := mdel (cState s a).parts (canonVal s a) } p =
              canonVal s p := fun p => c9 p
        have li : LoopInv g cursor a (canonVal s a) qa
            { cState s a with
              parts := mdel (cState s a).parts (canonVal s a) } := by
          refine ⟨c6, hinv.next_pos, hinv.ids_lt, hinv.dom, ?_, ?_, ?_, h0,
            (c8 _).2 (canonVal_root hinv.uf hinv.ids_lt a),
            canonVal_lt hinv.uf hinv.ids_lt a, Or.inl ⟨hpaNe, by rw [hcv a]⟩, ?_⟩
          · show (keysOf (mdel s.parts (canonVal s a))).Nodup
            exact nodup_keysOf_mdel s.parts _ hinv.parts_nodup
          · intro e he
            have he2 : e ∈ mdel s.parts (canonVal s a) := he
            obtain ⟨h1, h2, h3⟩ := hinv.parts_keys e (mem_mdel he2)
            exact ⟨(c8 e.1).2 h1, h2, h3⟩
          · show mget (mdel s.parts (canonVal s a)) (canonVal s a) = none
            exact mget_mdel_self _ _
          · intro p hp
            by_cases hK : canonVal s p = canonVal s a
            · exact Or.inl (by rw [hcv p]; exact hK)
            · obtain ⟨qq, hqq⟩ := hinv.reg p hp
              refine Or.inr ⟨qq, ?_⟩
              rw [hcv p]
              show mget (mdel s.parts (canonVal s a)) (canonVal s p) = some qq
              rw [mget_mdel_ne _ (fun h => hK h.symm)]
              exact hqq
        obtain ⟨lB, lC⟩ := floodLoop_sound g cursor a b _ _ _ _ li
        have hqbox : Boxed g s → ∀ x ∈ qa.elems, g.inRange x :=
          fun hb x hx => hb (canonVal s a, qa) (mget_mem hqa0) x hx
        refine ⟨?_, ?_⟩
        · intro s' hs'
          rw [heq] at hs'
          obtain ⟨hInv, hCM, hNext, hPa, hBox⟩ := lB s' hs'
          refine ⟨hInv, canonMap_trans (canonMap_of_eq
            (show ({ cState s a with
              parts := mdel (cState s a).parts (canonVal s a) } : PState).partIds =
                s.partIds from rfl) hcv) hCM, ?_, hPa, ?_⟩
          · rw [hNext]
            exact Nat.le_refl _
          · intro hc hb
            refine hBox hc (hqbox hb) ?_
            intro e he x hx
            have he2 : e ∈ mdel s.parts (canonVal s a) := he
            exact hb e (mem_mdel he2) x hx
        · intro hc hb _hain hrb
          rw [heq]
          refine lC hc (hqbox hb) ?_ hrb ?_
          · intro e he x hx
            have he2 : e ∈ mdel s.parts (canonVal s a) := he
            exact hb e (mem_mdel he2) x hx
          · have hcnt : countNA g
                { cState s a with
                  parts := mdel (cState s a).parts (canonVal s a) }
                (canonVal s a) ≤ g.w.toNat * g.h.toNat := by
              rw [← gridList_length g]
              exact countNA_le _ _ _
            have hts : totalRemaining ({ cState s a with
                parts := mdel (cState s a).parts (canonVal s a) } : PState).parts =
                totalRemaining (mdel s.parts (canonVal s a)) := rfl
            have htr1 : totalRemaining (cState s a).parts =
                totalRemaining s.parts := rfl
            have hdel : totalRemaining s.parts =
                totalRemaining (mdel s.parts (canonVal s a)) + qa.remaining :=
              totalRemaining_mdel hinv.parts_nodup hqa0
            unfold measureM floodFuel
            rw [hts, htr1]
            omega
  · -- the anchor\'s row is out of range: the very first read throws
    have heq : flood g cursor s a b = .crash := by
      dsimp only [flood]
      rw [canonId_crash hrowA]
    refine ⟨?_, ?_⟩
    · intro s' hs'
      rw [heq] at hs'
      exact Res.noConfusion hs'
    · intro _hc _hb hain _hrb
      exact absurd (rowOk_of_inRange hain) hrowA

end Formations

namespace Formations

theorem cState_none {s : PState} {p : Pt} (hp : s.partIds p = none) :
    cState s p = s := by
  unfold cState
  rw [hp]
  rfl

theorem partIds_none_of_cVal_none {s : PState} {p : Pt} (h : cVal s p = none) :
    s.partIds p = none := by
  cases hp : s.partIds p with
  | none => rfl
  | some v =>
    rw [cVal_eq, hp] at h
    cases h

/-- `Inv` transports along operations that keep the table, registry and
`nextId`, and only compress the union-find. -/
theorem inv_transport {g : Grid} {cursor : Rect} {s t : PState}
    (hinv : Inv g cursor s)
    (hids : t.partIds = s.partIds) (hparts : t.parts = s.parts)
    (hnext : t.nextId = s.nextId) (hu : UFInv s.nextId t.uf)
    (hkeys : ∀ j, mget t.uf.parents j = none ↔ mget s.uf.parents j = none)
    (hcv : ∀ p : Pt, canonVal t p = canonVal s p) : Inv g cursor t := by
  refine ⟨by rw [hnext]; exact hu, by rw [hnext]; exact hinv.next_pos, ?_, ?_, ?_,
    ?_, ?_⟩
  · intro p
    unfold idVal
    rw [hids, hnext]
    exact hinv.ids_lt p
  · intro p
    rw [hids]
    exact hinv.dom p
  · show (keysOf t.parts).Nodup
    rw [hparts]
    exact hinv.parts_nodup
  · intro e he
    rw [hparts] at he
    obtain ⟨h1, h2, h3⟩ := hinv.parts_keys e he
    exact ⟨(hkeys e.1).2 h1, h2, by rw [hnext]; exact h3⟩
  · intro p hp
    have hp2 : idVal s p ≠ 0 := by
      unfold idVal at hp ⊢
      rw [hids] at hp
      exact hp
    obtain ⟨qq, hqq⟩ := hinv.reg p hp2
    exact ⟨qq, by rw [hparts, hcv p]; exact hqq⟩

/-- Soundness of `inSamePart`: any completed query leaves a well-formed
state whose classes have only merged, and a `true` answer means both
footprints are occupiable and either both queried cells lacked a table
entry (the JS `undefined === undefined` shortcut, with the state
untouched) or the two points resolve to one nonzero canonical class in
the result state; and on a nonempty footprint with in-grid frontiers,
every query at in-grid points completes. -/
theorem inSamePart_sound (g : Grid) (cursor : Rect) (s : PState) (a b : Pt)
    (hinv : Inv g cursor s) :
    (∀ r s', inSamePart g cursor s a b = .ok (r, s') →
      Inv g cursor s' ∧ ClassMono s s' ∧
      (CursorOk cursor → Boxed g s → Boxed g s') ∧
      (r = true → occAt g cursor a = true ∧ occAt g cursor b = true ∧
        ((s.partIds a = none ∧ s.partIds b = none ∧ s' = s) ∨
         (idVal s' a ≠ 0 ∧ idVal s' b ≠ 0 ∧ canonVal s' a = canonVal s' b ∧
           canonVal s' a ≠ 0)))) ∧
    (CursorOk cursor → Boxed g s → g.inRange a → g.inRange b →
      ∃ r s', inSamePart g cursor s a b = .ok (r, s')) := by
  by_cases hocc : (!(g.canOccupy (cursor.translate a)) ||
      !(g.canOccupy (cursor.translate b))) = true
  · -- one of the footprints is not occupiable: immediate false
    have heq : inSamePart g cursor s a b = .ok (false, s) := by
      unfold inSamePart
      rw [hocc, if_pos rfl]
    refine ⟨?_, fun _ _ _ _ => ⟨false, s, heq⟩⟩
    intro r s' h
    have h2 := heq.symm.trans h
    injection h2 with h2
    injection h2 with hr hs
    subst hs
    subst hr
    exact ⟨hinv, canonMap_classMono hinv.uf hinv.ids_lt
        (canonMap_of_eq rfl (fun p => rfl)), fun _ hb => hb,
      fun h => Bool.noConfusion h⟩
  · -- both occupiable
    have hocc2 : (!(g.canOccupy (cursor.translate a)) ||
        !(g.canOccupy (cursor.translate b))) = false := by
      cases hx : (!(g.canOccupy (cursor.translate a)) ||
          !(g.canOccupy (cursor.translate b)))
      · rfl
      · exact absurd hx hocc
    have hocc_a : g.canOccupy (cursor.translate a) = true := by
      rcases Bool.or_eq_false_iff.1 hocc2 with ⟨h1, _⟩
      cases hx : g.canOccupy (cursor.translate a)
      · rw [hx] at h1
        cases h1
      · rfl
    have hocc_b : g.canOccupy (cursor.translate b) = true := by
      rcases Bool.or_eq_false_iff.1 hocc2 with ⟨_, h1⟩
      cases hx : g.canOccupy (cursor.translate b)
      · rw [hx] at h1
        cases h1
      · rfl
    by_cases hrowA : rowOk g a = true
    · by_cases hrowB : rowOk g b = true
      · obtain ⟨a5, a6, a7, a8, a9⟩ := canonId_spec hinv.uf hinv.ids_lt a
        have hua : UFInv (cState s a).nextId (cState s a).uf := a6
        have hida : ∀ p : Pt, idVal (cState s a) p < (cState s a).nextId :=
          hinv.ids_lt
        obtain ⟨b5, b6, b7, b8, b9⟩ := canonId_spec hua hida b
        have hS2ids : (cState (cState s a) b).partIds = s.partIds := rfl
        have hS2parts : (cState (cState s a) b).parts = s.parts := rfl
        have hS2cv : ∀ p : Pt,
            canonVal (cState (cState s a) b) p = canonVal s p := by
          intro p
          rw [b9 p, a9 p]
        have hS2keys : ∀ j, mget (cState (cState s a) b).uf.parents j = none ↔
            mget s.uf.parents j = none := by
          intro j
          rw [b8 j, a8 j]
        have hS2u : UFInv s.nextId (cState (cState s a) b).uf := b6
        have hinv2 : Inv g cursor (cState (cState s a) b) :=
          inv_transport hinv hS2ids hS2parts rfl hS2u hS2keys hS2cv
        have hCM2 : CanonMap s (cState (cState s a) b) :=
          canonMap_of_eq hS2ids hS2cv
        by_cases hshort : cVal s a ≠ some 0 ∧ cVal s a = cVal (cState s a) b
        · -- cached-equality shortcut: true without flooding
          have heq : inSamePart g cursor s a b =
              .ok (true, cState (cState s a) b) := by
            unfold inSamePart
            rw [hocc2]
            simp only [Bool.false_eq_true, if_false]
            rw [canonId_ok hrowA]
            dsimp only
            rw [canonId_ok hrowB]
            dsimp only
            rw [if_pos hshort]
          refine ⟨?_, fun _ _ _ _ => ⟨_, _, heq⟩⟩
          intro r s' h
          have h2 := heq.symm.trans h
          injection h2 with h2
          injection h2 with hr hs
          subst hs
          subst hr
          refine ⟨hinv2, canonMap_classMono hinv.uf hinv.ids_lt hCM2, ?_, ?_⟩
          · intro _ hb e he x hx
            rw [hS2parts] at he
            exact hb e he x hx
          · intro _
            refine ⟨hocc_a, hocc_b, ?_⟩
            cases hpsa : s.partIds a with
            | none =>
              have hva : cVal s a = none := cVal_none hpsa
              have hvb : cVal (cState s a) b = none := by
                rw [← hshort.2]
                exact hva
              have hpsb0 : (cState s a).partIds b = none :=
                partIds_none_of_cVal_none hvb
              have hpsb : s.partIds b = none := hpsb0
              refine Or.inl ⟨rfl, hpsb, ?_⟩
              rw [cState_none (show (cState s a).partIds b = none from hpsb),
                cState_none hpsa]
            | some v =>
              have hsomea : (s.partIds a).isSome = true := by
                rw [hpsa]
                rfl
              have hva : cVal s a = some (canonVal s a) := cVal_isSome hsomea
              have hnz : canonVal s a ≠ 0 := by
                intro hz
                apply hshort.1
                rw [hva, hz]
              have hvb : cVal (cState s a) b = some (canonVal s a) := by
                rw [← hshort.2]
                exact hva
              have hsomeb : (s.partIds b).isSome = true := by
                cases hpsb : s.partIds b with
                | none =>
                  rw [cVal_none (show (cState s a).partIds b = none from hpsb)] at hvb
                  cases hvb
                | some w => rfl
              have hvb2 : cVal (cState s a) b = some (canonVal s b) := by
                rw [cVal_isSome (show ((cState s a).partIds b).isSome = true
                  from hsomeb), a9 b]
              have hcvab : canonVal s a = canonVal s b := by
                have hx := hvb2.symm.trans hvb
                exact (Option.some.inj hx).symm
              have hia : idVal s a ≠ 0 := by
                intro hz
                exact hnz (canonVal_zero hinv.uf hinv.ids_lt a hz)
              have hib : idVal s b ≠ 0 := by
                intro hz
                rw [hcvab] at hnz
                exact hnz (canonVal_zero hinv.uf hinv.ids_lt b hz)
              refine Or.inr ⟨hia, hib, ?_, ?_⟩
              · rw [hS2cv a, hS2cv b]
                exact hcvab
              · rw [hS2cv a]
                exact hnz
        · -- no shortcut: finality checks, then (possibly) flood
          cases hpsa : s.partIds a with
          | none =>
            have heq : inSamePart g cursor s a b = .crash := by
              unfold inSamePart
              rw [hocc2]
              simp only [Bool.false_eq_true, if_false]
              rw [canonId_ok hrowA]
              dsimp only
              rw [canonId_ok hrowB]
              dsimp only
              rw [if_neg hshort, cVal_none hpsa]
              rfl
            refine ⟨?_, ?_⟩
            · intro r s' h
              rw [heq] at h
              exact Res.noConfusion h
            · intro _hc _hb hain _hbin
              have hsome := (hinv.dom a).2 hain
              rw [hpsa] at hsome
              exact Bool.noConfusion hsome
          | some v =>
            have hsomea : (s.partIds a).isSome = true := by
              rw [hpsa]
              rfl
            have hcva : cVal s a = some (canonVal s a) := cVal_isSome hsomea
            obtain ⟨fA, hEA⟩ : ∃ fA : Bool,
                finalCheck (cState (cState s a) b) (cVal s a) = .ok fA := by
              by_cases hA0 : canonVal s a = 0
              · refine ⟨false, ?_⟩
                rw [hcva]
                dsimp only [finalCheck]
                rw [if_pos hA0]
              · have hpaNe : idVal s a ≠ 0 :=
                  fun hz => hA0 (canonVal_zero hinv.uf hinv.ids_lt a hz)
                obtain ⟨qa, hqa⟩ := hinv.reg a hpaNe
                refine ⟨qa.isEmpty, ?_⟩
                rw [hcva]
                dsimp only [finalCheck]
                rw [if_neg hA0,
                  show mget (cState (cState s a) b).parts (canonVal s a) = some qa
                    from hqa]
            cases hfA : fA with
            | true =>
              rw [hfA] at hEA
              have heq : inSamePart g cursor s a b =
                  .ok (false, cState (cState s a) b) := by
                unfold inSamePart
                rw [hocc2]
                simp only [Bool.false_eq_true, if_false]
                rw [canonId_ok hrowA]
                dsimp only
                rw [canonId_ok hrowB]
                dsimp only
                rw [if_neg hshort, hEA]
                dsimp only
                rw [if_pos rfl]
              refine ⟨?_, fun _ _ _ _ => ⟨_, _, heq⟩⟩
              intro r s' h
              have h2 := heq.symm.trans h
              injection h2 with h2
              injection h2 with hr hs
              subst hs
              subst hr
              refine ⟨hinv2, canonMap_classMono hinv.uf hinv.ids_lt hCM2, ?_,
                fun h => Bool.noConfusion h⟩
              intro _ hb e he x hx
              rw [hS2parts] at he
              exact hb e he x hx
            | false =>
              rw [hfA] at hEA
              cases hpsb : s.partIds b with
              | none =>
                have heq : inSamePart g cursor s a b = .crash := by
                  unfold inSamePart
                  rw [hocc2]
                  simp only [Bool.false_eq_true, if_false]
                  rw [canonId_ok hrowA]
                  dsimp only
                  rw [canonId_ok hrowB]
                  dsimp only
                  rw [if_neg hshort, hEA]
                  dsimp only
                  rw [if_neg (show ¬false = true from Bool.false_ne_true),
                    cVal_none (show (cState s a).partIds b = none from hpsb)]
                  rfl
                refine ⟨?_, ?_⟩
                · intro r s' h
                  rw [heq] at h
                  exact Res.noConfusion h
                · intro _hc _hb _hain hbin
                  have hsome := (hinv.dom b).2 hbin
                  rw [hpsb] at hsome
                  exact Bool.noConfusion hsome
              | some w =>
                have hsomeb : ((cState s a).partIds b).isSome = true := by
                  show (s.partIds b).isSome = true
                  rw [hpsb]
                  rfl
                have hcvb : cVal (cState s a) b = some (canonVal s b) := by
                  rw [cVal_isSome hsomeb, a9 b]
                obtain ⟨fB, hEB⟩ : ∃ fB : Bool,
                    finalCheck (cState (cState s a) b) (cVal (cState s a) b) =
                      .ok fB := by
                  by_cases hB0 : canonVal s b = 0
                  · refine ⟨false, ?_⟩
                    rw [hcvb]
                    dsimp only [finalCheck]
                    rw [if_pos hB0]
                  · have hpbNe : idVal s b ≠ 0 :=
                      fun hz => hB0 (canonVal_zero hinv.uf hinv.ids_lt b hz)
                    obtain ⟨qb, hqb⟩ := hinv.reg b hpbNe
                    refine ⟨qb.isEmpty, ?_⟩
                    rw [hcvb]
                    dsimp only [finalCheck]
                    rw [if_neg hB0,
                      show mget (cState (cState s a) b).parts (canonVal s b) = some qb
                        from hqb]
                cases hfB : fB with
                | true =>
                  rw [hfB] at hEB
                  have heq : inSamePart g cursor s a b =
                      .ok (false, cState (cState s a) b) := by
                    unfold inSamePart
                    rw [hocc2]
                    simp only [Bool.false_eq_true, if_false]
                    rw [canonId_ok hrowA]
                    dsimp only
                    rw [canonId_ok hrowB]
                    dsimp only
                    rw [if_neg hshort, hEA]
                    dsimp only
                    rw [if_neg (show ¬false = true from Bool.false_ne_true), hEB]
                    dsimp only
                    rw [if_pos rfl]
                  refine ⟨?_, fun _ _ _ _ => ⟨_, _, heq⟩⟩
                  intro r s' h
                  have h2 := heq.symm.trans h
                  injection h2 with h2
                  injection h2 with hr hs
                  subst hs
                  subst hr
                  refine ⟨hinv2, canonMap_classMono hinv.uf hinv.ids_lt hCM2, ?_,
                    fun h => Bool.noConfusion h⟩
                  intro _ hb e he x hx
                  rw [hS2parts] at he
                  exact hb e he x hx
                | false =>
                  rw [hfB] at hEB
                  have heq : inSamePart g cursor s a b =
                      (match flood g cursor (cState (cState s a) b) a b with
                       | .ok s3 =>
                         (match canonId g s3 a with
                          | .ok ra2 =>
                            (match canonId g ra2.2 b with
                             | .ok rb2 => .ok (decide (ra2.1 = rb2.1), rb2.2)
                             | .fuelOut => .fuelOut
                             | .crash => .crash)
                          | .fuelOut => .fuelOut
                          | .crash => .crash)
                       | .fuelOut => .fuelOut
                       | .crash => .crash) := by
                    unfold inSamePart
                    rw [hocc2]
                    simp only [Bool.false_eq_true, if_false]
                    rw [canonId_ok hrowA]
                    dsimp only
                    rw [canonId_ok hrowB]
                    dsimp only
                    rw [if_neg hshort, hEA]
                    dsimp only
                    rw [if_neg (show ¬false = true from Bool.false_ne_true), hEB]
                    dsimp only
                    rw [if_neg (show ¬false = true from Bool.false_ne_true)]
                  obtain ⟨fl2, fl3⟩ :=
                    flood_sound g cursor (cState (cState s a) b) a b hinv2
                  refine ⟨?_, ?_⟩
                  · intro r s' h
                    rw [heq] at h
                    cases hflood : flood g cursor (cState (cState s a) b) a b with
                    | fuelOut =>
                      rw [hflood] at h
                      exact Res.noConfusion h
                    | crash =>
                      rw [hflood] at h
                      exact Res.noConfusion h
                    | ok s3 =>
                      rw [hflood] at h
                      dsimp only at h
                      rw [canonId_ok hrowA] at h
                      dsimp only at h
                      rw [canonId_ok hrowB] at h
                      dsimp only at h
                      have h2 : Res.ok (α := Bool × PState)
                          (decide (cVal s3 a = cVal (cState s3 a) b),
                            cState (cState s3 a) b) = Res.ok (r, s') := h
                      injection h2 with h2
                      injection h2 with hr hs
                      subst hs
                      subst hr
                      obtain ⟨hInv3, hCM3, _hN3, hPa3, hBox3⟩ := fl2 s3 hflood
                      obtain ⟨e5, e6, e7, e8, e9⟩ :=
                        canonId_spec hInv3.uf hInv3.ids_lt a
                      have hue : UFInv (cState s3 a).nextId (cState s3 a).uf := e6
                      have hide : ∀ p : Pt,
                          idVal (cState s3 a) p < (cState s3 a).nextId :=
                        hInv3.ids_lt
                      obtain ⟨j5, j6, j7, j8, j9⟩ := canonId_spec hue hide b
                      have hS5ids : (cState (cState s3 a) b).partIds = s3.partIds := rfl
                      have hS5parts : (cState (cState s3 a) b).parts = s3.parts := rfl
                      have hS5cv : ∀ p : Pt,
                          canonVal (cState (cState s3 a) b) p = canonVal s3 p := by
                        intro p
                        rw [j9 p, e9 p]
                      have hS5keys : ∀ j,
                          mget (cState (cState s3 a) b).uf.parents j = none ↔
                          mget s3.uf.parents j = none := by
                        intro j
                        rw [j8 j, e8 j]
                      have hS5u : UFInv s3.nextId (cState (cState s3 a) b).uf := j6
                      have hinv5 : Inv g cursor (cState (cState s3 a) b) :=
                        inv_transport hInv3 hS5ids hS5parts rfl hS5u hS5keys hS5cv
                      refine ⟨hinv5, ?_, ?_, ?_⟩
                      · exact canonMap_classMono hinv.uf hinv.ids_lt
                          (canonMap_trans hCM2 (canonMap_trans hCM3
                            (canonMap_of_eq hS5ids hS5cv)))
                      · intro hc hb
                        have hb2 : Boxed g (cState (cState s a) b) := by
                          intro e he x hx
                          rw [hS2parts] at he
                          exact hb e he x hx
                        have hb3 := hBox3 hc hb2
                        intro e he x hx
                        rw [hS5parts] at he
                        exact hb3 e he x hx
                      · intro hr
                        have hfe : cVal s3 a = cVal (cState s3 a) b :=
                          of_decide_eq_true hr
                        have hsome3 : (s3.partIds a).isSome = true :=
                          isSome_of_idVal_nz hPa3
                        have hva : cVal s3 a = some (canonVal s3 a) :=
                          cVal_isSome hsome3
                        have hvb : cVal (cState s3 a) b = some (canonVal s3 a) := by
                          rw [← hfe]
                          exact hva
                        have hsomeb3 : (s3.partIds b).isSome = true := by
                          cases hpsb3 : s3.partIds b with
                          | none =>
                            rw [cVal_none
                              (show (cState s3 a).partIds b = none from hpsb3)] at hvb
                            cases hvb
                          | some w2 => rfl
                        have hvb2 : cVal (cState s3 a) b = some (canonVal s3 b) := by
                          rw [cVal_isSome (show ((cState s3 a).partIds b).isSome = true
                            from hsomeb3), e9 b]
                        have hcvab : canonVal s3 a = canonVal s3 b := by
                          have hx := hvb2.symm.trans hvb
                          exact (Option.some.inj hx).symm
                        have hnz3 : canonVal s3 a ≠ 0 :=
                          canonVal_nz hInv3.uf hInv3.ids_lt a hPa3
                        have hib3 : idVal s3 b ≠ 0 := by
                          intro hz
                          rw [hcvab] at hnz3
                          exact hnz3 (canonVal_zero hInv3.uf hInv3.ids_lt b hz)
                        refine ⟨hocc_a, hocc_b, Or.inr ⟨hPa3, hib3, ?_, ?_⟩⟩
                        · rw [hS5cv a, hS5cv b]
                          exact hcvab
                        · rw [hS5cv a]
                          exact hnz3
                  · intro hc hb hain hbin
                    have hb2 : Boxed g (cState (cState s a) b) := by
                      intro e he x hx
                      rw [hS2parts] at he
                      exact hb e he x hx
                    obtain ⟨s3, hflood⟩ := fl3 hc hb2 hain hrowB
                    refine ⟨decide (cVal s3 a = cVal (cState s3 a) b),
                      cState (cState s3 a) b, ?_⟩
                    rw [heq, hflood]
                    dsimp only
                    rw [canonId_ok hrowA]
                    dsimp only
                    rw [canonId_ok hrowB]
      · -- the row of `b` is out of range: the second read throws
        have heq : inSamePart g cursor s a b = .crash := by
          unfold inSamePart
          rw [hocc2]
          simp only [Bool.false_eq_true, if_false]
          rw [canonId_ok hrowA]
          dsimp only
          rw [canonId_crash hrowB]
        refine ⟨?_, ?_⟩
        · intro r s' h
          rw [heq] at h
          exact Res.noConfusion h
        · intro _hc _hb _hain hbin
          exact absurd (rowOk_of_inRange hbin) hrowB
    · -- the row of `a` is out of range: the first read throws
      have heq : inSamePart g cursor s a b = .crash := by
        unfold inSamePart
        rw [hocc2]
        simp only [Bool.false_eq_true, if_false]
        rw [canonId_crash hrowA]
      refine ⟨?_, ?_⟩
      · intro r s' h
        rw [heq] at h
        exact Res.noConfusion h
      · intro _hc _hb hain _hbin
        exact absurd (rowOk_of_inRange hain) hrowA

end Formations

namespace Formations

/-- C8: every completed `inSamePart` call evolves the cell-assignment
table monotonically: a cell with a nonzero entry never returns to `0`,
its canonical ID stays nonzero, and two cells that resolve to the same
canonical part keep resolving to the same canonical part — classes only
ever merge (by `UnionFind.union`), never split or revert to an earlier
or unrelated identity. -/
theorem inSamePart_monotone (g : Grid) (cursor : Rect) (s : PState) (a b : Pt)
    (hinv : Inv g cursor s) (r : Bool) (s' : PState)
    (h : inSamePart g cursor s a b = .ok (r, s')) : ClassMono s s' :=
  ((inSamePart_sound g cursor s a b hinv).1 r s' h).2.1

/-- Witness for `inSamePart_monotone`: the query `(0,0) ~ (1,0)` on the
2×1 witness grid completes (with `false`, since `(1,0)` is obstructed)
and the evolution is monotone. -/
theorem inSamePart_monotone_witness : ClassMono wState wState :=
  inSamePart_monotone wGrid wCursor wState ⟨0, 0⟩ ⟨1, 0⟩ inv_wState false wState rfl

/-- C10 (refuted — code bug): `inSamePart` does not preserve registry
integrity.  On the empty 5×1 grid with footprint rect `(1,0)-(2,1)`,
both query anchors are occupiable, yet the query `((-1,0),(3,0))` on the
freshly constructed partition dereferences a missing registry entry and
crashes: `canonId((-1,0))` reads the `undefined` column `-1` of the
valid row `0`, the finality guard `aId !== 0` is *true* for `undefined`,
and `this.parts.get(undefined)!.empty()` calls a method on `undefined` —
the non-null assertion hides a genuine missing-key dereference. -/
theorem inSamePart_registry_integrity :
    occAt (mkGrid 5 1) ⟨⟨1, 0⟩, ⟨2, 1⟩⟩ ⟨-1, 0⟩ = true ∧
    occAt (mkGrid 5 1) ⟨⟨1, 0⟩, ⟨2, 1⟩⟩ ⟨3, 0⟩ = true ∧
    inSamePart (mkGrid 5 1) ⟨⟨1, 0⟩, ⟨2, 1⟩⟩ (initState (mkGrid 5 1)) ⟨-1, 0⟩ ⟨3, 0⟩ =
      .crash :=
  ⟨rfl, rfl, rfl⟩

/-- Inversion of a `true` answer whose first queried cell has no table
entry: the JS `undefined === undefined` shortcut fired, so the second
cell has no entry either and the state is untouched (any other path
through the query throws on the `undefined` canonical ID). -/
theorem inSamePart_none_true {g : Grid} {cursor : Rect} {s : PState} {a b : Pt}
    {s' : PState} (ha : s.partIds a = none)
    (h : inSamePart g cursor s a b = .ok (true, s')) :
    s' = s ∧ s.partIds b = none := by
  unfold inSamePart at h
  by_cases hocc : (!(g.canOccupy (cursor.translate a)) ||
      !(g.canOccupy (cursor.translate b))) = true
  · rw [if_pos hocc] at h
    injection h with h2
    injection h2 with hr _
    exact absurd hr Bool.false_ne_true
  · have hocc2 : (!(g.canOccupy (cursor.translate a)) ||
        !(g.canOccupy (cursor.translate b))) = false := by
      cases hx : (!(g.canOccupy (cursor.translate a)) ||
          !(g.canOccupy (cursor.translate b)))
      · rfl
      · exact absurd hx hocc
    rw [hocc2] at h
    simp only [Bool.false_eq_true, if_false] at h
    by_cases hrowa : rowOk g a = true
    · rw [canonId_ok hrowa] at h
      dsimp only at h
      by_cases hrowb : rowOk g b = true
      · rw [canonId_ok hrowb] at h
        dsimp only at h
        rw [cVal_none ha, cState_none ha] at h
        cases hpsb : s.partIds b with
        | none =>
          rw [cVal_none hpsb] at h
          rw [if_pos (show (none : Option Nat) ≠ some 0 ∧ (none : Option Nat) = none
            from ⟨fun hc => Option.noConfusion hc, rfl⟩)] at h
          rw [cState_none hpsb] at h
          injection h with h2
          injection h2 with _ hs
          exact ⟨hs.symm, rfl⟩
        | some w =>
          have hsw : (s.partIds b).isSome = true := by
            rw [hpsb]
            rfl
          rw [cVal_isSome hsw] at h
          rw [if_neg (show ¬((none : Option Nat) ≠ some 0 ∧
            (none : Option Nat) = some (canonVal s b)) from
            fun hc => Option.noConfusion hc.2)] at h
          exact Res.noConfusion h
      · rw [canonId_crash hrowb] at h
        exact Res.noConfusion h
    · rw [canonId_crash hrowa] at h
      exact Res.noConfusion h

/-- C4: transitivity across sequential stateful queries — if
`inSamePart(A, B)` answers `true` and a subsequent `inSamePart(B, C)`
answers `true`, then a subsequent `inSamePart(A, C)` answers `true`
(through the cached-equality shortcut: by then `A` and `C` resolve to
one canonical class — one nonzero class, or the `undefined` one for
out-of-table cells). -/
theorem inSamePart_transitive (g : Grid) (cursor : Rect) (s s1 s2 : PState)
    (A B C : Pt) (hinv : Inv g cursor s)
    (h1 : inSamePart g cursor s A B = .ok (true, s1))
    (h2 : inSamePart g cursor s1 B C = .ok (true, s2)) :
    ∃ s3, inSamePart g cursor s2 A C = .ok (true, s3) := by
  obtain ⟨hok1, _⟩ := inSamePart_sound g cursor s A B hinv
  obtain ⟨hInv1, _hM1, _, hT1⟩ := hok1 true s1 h1
  obtain ⟨hoccA, hoccB, hD1⟩ := hT1 rfl
  obtain ⟨hok2, _⟩ := inSamePart_sound g cursor s1 B C hInv1
  obtain ⟨hInv2, hM2, _, hT2⟩ := hok2 true s2 h2
  obtain ⟨_hoccB2, hoccC, hD2⟩ := hT2 rfl
  have hoccs1 : (!(g.canOccupy (cursor.translate A)) ||
      !(g.canOccupy (cursor.translate B))) = false := by
    rw [show g.canOccupy (cursor.translate A) = true from hoccA,
      show g.canOccupy (cursor.translate B) = true from hoccB]
    rfl
  have hoccs3 : (!(g.canOccupy (cursor.translate A)) ||
      !(g.canOccupy (cursor.translate C))) = false := by
    rw [show g.canOccupy (cursor.translate A) = true from hoccA,
      show g.canOccupy (cursor.translate C) = true from hoccC]
    rfl
  have hrowA : rowOk g A = true := by
    by_contra hr
    have hcr : inSamePart g cursor s A B = .crash := by
      unfold inSamePart
      rw [hoccs1]
      simp only [Bool.false_eq_true, if_false]
      rw [canonId_crash hr]
    rw [hcr] at h1
    exact Res.noConfusion h1
  rcases hD1 with ⟨hAn, hBn, hs1s⟩ | ⟨hiA1, hiB1, hcv1, hnz1⟩
  · -- the `undefined === undefined` family: the table has no entries here
    rw [hs1s] at h2
    obtain ⟨hs2s, hCn⟩ := inSamePart_none_true hBn h2
    rw [hs2s]
    have hrowC : rowOk g C = true := by
      by_contra hr
      have hrowB : rowOk g B = true := by
        by_contra hrB
        have hcr : inSamePart g cursor s B C = .crash := by
          unfold inSamePart
          rw [show (!(g.canOccupy (cursor.translate B)) ||
              !(g.canOccupy (cursor.translate C))) = false from by
            rw [show g.canOccupy (cursor.translate B) = true from hoccB,
              show g.canOccupy (cursor.translate C) = true from hoccC]
            rfl]
          simp only [Bool.false_eq_true, if_false]
          rw [canonId_crash hrB]
        rw [hcr] at h2
        exact Res.noConfusion h2
      have hcr : inSamePart g cursor s B C = .crash := by
        unfold inSamePart
        rw [show (!(g.canOccupy (cursor.translate B)) ||
            !(g.canOccupy (cursor.translate C))) = false from by
          rw [show g.canOccupy (cursor.translate B) = true from hoccB,
            show g.canOccupy (cursor.translate C) = true from hoccC]
          rfl]
        simp only [Bool.false_eq_true, if_false]
        rw [canonId_ok hrowB]
        dsimp only
        rw [canonId_crash hr]
      rw [hcr] at h2
      exact Res.noConfusion h2
    refine ⟨cState (cState s A) C, ?_⟩
    unfold inSamePart
    rw [hoccs3]
    simp only [Bool.false_eq_true, if_false]
    rw [canonId_ok hrowA]
    dsimp only
    rw [canonId_ok hrowC]
    dsimp only
    rw [if_pos (show cVal s A ≠ some 0 ∧ cVal s A = cVal (cState s A) C from by
      rw [cVal_none hAn, cState_none hAn, cVal_none hCn]
      exact ⟨fun hc => Option.noConfusion hc, rfl⟩)]
  · -- the nonzero-class family: transport through the later query
    rcases hD2 with ⟨hBn2, _, _⟩ | ⟨hiB2, hiC2, hcv2, hnz2⟩
    · exfalso
      apply hiB1
      unfold idVal
      rw [hBn2]
      rfl
    · have hAB2 : canonVal s2 A = canonVal s2 B := hM2.2.2 A B hiA1 hiB1 hcv1
      have hA2nz : idVal s2 A ≠ 0 := fun hz => hiA1 (hM2.1 A hz)
      have hAC : canonVal s2 A = canonVal s2 C := hAB2.trans hcv2
      have hACnz : canonVal s2 A ≠ 0 := by
        rw [hAB2]
        exact hnz2
      have hrowA2 : rowOk g A = true :=
        rowOk_of_inRange ((hInv2.dom A).1 (isSome_of_idVal_nz hA2nz))
      have hrowC2 : rowOk g C = true :=
        rowOk_of_inRange ((hInv2.dom C).1 (isSome_of_idVal_nz hiC2))
      obtain ⟨x5, x6, x7, x8, x9⟩ := canonId_spec hInv2.uf hInv2.ids_lt A
      have hsA : (s2.partIds A).isSome = true := isSome_of_idVal_nz hA2nz
      have hsC : ((cState s2 A).partIds C).isSome = true := isSome_of_idVal_nz hiC2
      have hvA : cVal s2 A = some (canonVal s2 A) := cVal_isSome hsA
      have hvC : cVal (cState s2 A) C = some (canonVal s2 A) := by
        rw [cVal_isSome hsC, x9 C, ← hAC]
      refine ⟨cState (cState s2 A) C, ?_⟩
      unfold inSamePart
      rw [hoccs3]
      simp only [Bool.false_eq_true, if_false]
      rw [canonId_ok hrowA2]
      dsimp only
      rw [canonId_ok hrowC2]
      dsimp only
      rw [if_pos (show cVal s2 A ≠ some 0 ∧ cVal s2 A = cVal (cState s2 A) C from
        ⟨by rw [hvA]; exact fun hc => hACnz (Option.some.inj hc),
          hvA.trans hvC.symm⟩)]

/-- Witness for `inSamePart_transitive`: self-queries at the explored
cell `(0,0)` of the witness state answer `true` via the shortcut without
changing the state, so two `true` premises are available concretely. -/
theorem inSamePart_transitive_witness :
    ∃ s3, inSamePart wGrid wCursor wState ⟨0, 0⟩ ⟨0, 0⟩ = .ok (true, s3) :=
  inSamePart_transitive wGrid wCursor wState wState wState ⟨0, 0⟩ ⟨0, 0⟩ ⟨0, 0⟩
    inv_wState rfl rfl

/-- C9 (amended: the query points are in-grid cells, as the data model
prescribes for partition queries on a grid): `inSamePart` terminates on
every well-formed reachable state of a partition with a nonempty
footprint and in-grid frontiers — the flood loop\'s fuel
`totalRemaining + 10·(w·h) + 12` strictly dominates the measure
`remaining + totalRemaining + 5·|unassigned in-grid cells|`, which
decreases at every iteration, so the frontier is exhausted or the
target joined after finitely many steps, bounded by the grid area. -/
theorem inSamePart_terminates (g : Grid) (cursor : Rect) (s : PState) (a b : Pt)
    (hinv : Inv g cursor s) (hcur : CursorOk cursor) (hbox : Boxed g s)
    (ha : g.inRange a) (hb : g.inRange b) :
    ∃ r s', inSamePart g cursor s a b = .ok (r, s') :=
  (inSamePart_sound g cursor s a b hinv).2 hcur hbox ha hb

/-- Witness for `inSamePart_terminates` at the 2×1 witness state. -/
theorem inSamePart_terminates_witness :
    ∃ r s', inSamePart wGrid wCursor wState ⟨0, 0⟩ ⟨1, 0⟩ = .ok (r, s') :=
  inSamePart_terminates wGrid wCursor wState ⟨0, 0⟩ ⟨1, 0⟩ inv_wState
    (by constructor <;> decide)
    (by intro e he x hx
        simp only [wState, List.mem_singleton] at he
        subst he
        simp only [List.mem_singleton] at hx
        subst hx
        decide)
    (by decide) (by decide)

/-- C9 (counterexample to the claim as originally stated, over all query
points): on a 1-wide, 2-tall empty grid with the 1×1 footprint rect
`(0,1)-(1,2)` — a nonempty footprint — the query `((0,-1),(0,0))` at the
freshly constructed state does not complete: `canonId((0,-1))` indexes
the `undefined` table row `-1` and throws before the search can start. -/
theorem inSamePart_terminates_counterexample :
    occAt (mkGrid 1 2) ⟨⟨0, 1⟩, ⟨1, 2⟩⟩ ⟨0, -1⟩ = true ∧
    occAt (mkGrid 1 2) ⟨⟨0, 1⟩, ⟨1, 2⟩⟩ ⟨0, 0⟩ = true ∧
    CursorOk (⟨⟨0, 1⟩, ⟨1, 2⟩⟩ : Rect) ∧
    inSamePart (mkGrid 1 2) ⟨⟨0, 1⟩, ⟨1, 2⟩⟩ (initState (mkGrid 1 2)) ⟨0, -1⟩ ⟨0, 0⟩ =
      .crash :=
  ⟨rfl, rfl, by constructor <;> decide, rfl⟩

end Formations
